import Mathlib

/-!
# sqlc: directive parser and query compiler

A shallow embedding of `internal/metadata/meta.go`, of
`internal/compiler/parse.go`, of the type-string parsing of
`cmd/generator/fetcher_mysql.go`, of the query and struct builders of
`internal/codegen/golang/result.go`, of the helper registry of
`internal/codegen/golang/query.go` and of `mysql_type.go` and `enum.go` of
the same package, together with theorems about them.

Conventions of the embedding:

* a Go `string` is a list of Unicode code points (`GoString`), that is,
  well-formed UTF-8 text; `for i, c := range s` walks that list, `i` being
  the byte offset of `c`;
* a Go slice is a `List`; the `nil` slice is `[]`;
* a Go `error` is an `Option` of an error value, `none` being `nil`;
* the `strings` and `unicode` functions of the Go standard library are
  written out for the separators the source passes to them, and so are
  `strconv.Atoi` and the one regular expression of the generator.  The
  `unicode` range tables are fixed for Latin-1 (as in Go) and taken as a
  parameter `unicode.Tables` beyond it;
* a call that can end in a run-time panic returns an `Option` or a
  `compiler.Outcome`, `none` and `panic` being the panic;
* a package variable that a function reads and writes is an argument and a
  part of the result of the function (`golang.Registry`);
* functions of this repository that are declared in files other than the
  ones embedded are parameters of the model (`compiler.Externals`,
  `golang.Externals`, `golang.MySQLExternals`), and so is
  `pinyin.LazyConvert` of the package `go-pinyin`.
-/

namespace Sqlc

/-- Go `string`: a sequence of Unicode code points. -/
abbrev GoString := List Char

/-! ## `unicode` -/

namespace unicode

/-- The `Letter` and `Digit` range tables of package `unicode` for code
points above Latin-1 (`isExcludingLatin`). -/
structure Tables where
  letter : Char → Bool
  digit : Char → Bool

/-- Tables with no entry above Latin-1. -/
def latin1Only : Tables := ⟨fun _ => false, fun _ => false⟩

/-- Latin-1 code points whose `properties` entry has a letter bit. -/
def latin1Letter (n : Nat) : Bool :=
  (0x41 ≤ n && n ≤ 0x5A) || (0x61 ≤ n && n ≤ 0x7A) ||
  n == 0xAA || n == 0xB5 || n == 0xBA ||
  (0xC0 ≤ n && n ≤ 0xD6) || (0xD8 ≤ n && n ≤ 0xF6) || (0xF8 ≤ n && n ≤ 0xFF)

/-- `unicode.IsLetter`. -/
def IsLetter (T : Tables) (c : Char) : Bool :=
  if c.toNat ≤ 0xFF then latin1Letter c.toNat else T.letter c

/-- `unicode.IsDigit`. -/
def IsDigit (T : Tables) (c : Char) : Bool :=
  if c.toNat ≤ 0xFF then (0x30 ≤ c.toNat && c.toNat ≤ 0x39) else T.digit c

/-- `unicode.IsSpace`: the `White_Space` property. -/
def IsSpace (c : Char) : Bool :=
  let n := c.toNat
  if n ≤ 0xFF then
    n == 0x09 || n == 0x0A || n == 0x0B || n == 0x0C || n == 0x0D || n == 0x20 ||
    n == 0x85 || n == 0xA0
  else
    n == 0x1680 || (0x2000 ≤ n && n ≤ 0x200A) || n == 0x2028 || n == 0x2029 ||
    n == 0x202F || n == 0x205F || n == 0x3000

/-- `unicode.ToTitle`: an ASCII lower-case letter is moved to upper case, the
other ASCII code points stay, and above ASCII the title case is taken from
`toTitle` (the `CaseRanges` table). -/
def ToTitle (toTitle : Char → Char) (r : Char) : Char :=
  if r.toNat ≤ 0x7F then
    if 0x61 ≤ r.toNat && r.toNat ≤ 0x7A then Char.ofNat (r.toNat - (0x61 - 0x41)) else r
  else toTitle r

end unicode

/-! ## `strings` -/

namespace strings

/-- `strings.HasPrefix`. -/
def HasPrefix (s pfx : GoString) : Bool := pfx.isPrefixOf s

/-- `strings.Split(s, sep)` for a one-character separator: the pieces of `s`
between the occurrences of `sep`; always at least one piece. -/
def Split (s : GoString) (sep : Char) : List GoString :=
  match s with
  | [] => [[]]
  | c :: cs =>
    if c = sep then [] :: Split cs sep
    else
      match Split cs sep with
      | [] => [[c]]
      | piece :: pieces => (c :: piece) :: pieces

/-- `strings.TrimLeft(s, cutset)` for a one-character cutset. -/
def TrimLeft (s : GoString) (cut : Char) : GoString := s.dropWhile (· == cut)

/-- `strings.TrimRight(s, cutset)` for a one-character cutset. -/
def TrimRight (s : GoString) (cut : Char) : GoString :=
  (s.reverse.dropWhile (· == cut)).reverse

/-- `strings.TrimSpace`: leading and trailing white space removed. -/
def TrimSpace (s : GoString) : GoString :=
  ((s.dropWhile unicode.IsSpace).reverse.dropWhile unicode.IsSpace).reverse

/-- `strings.Join`. -/
def Join (elems : List GoString) (sep : GoString) : GoString :=
  match elems with
  | [] => []
  | [e] => e
  | e :: es => e ++ sep ++ Join es sep

/-- `strings.Replace(s, old, new, -1)` for one-character `old` and `new`. -/
def Replace (s : GoString) (old new : Char) : GoString :=
  s.map fun c => if c = old then new else c

/-- `isSeparator` of package `strings`: whether `r` ends a word. -/
def isSeparator (T : unicode.Tables) (r : Char) : Bool :=
  if r.toNat ≤ 0x7F then
    if 0x30 ≤ r.toNat && r.toNat ≤ 0x39 then false
    else if 0x61 ≤ r.toNat && r.toNat ≤ 0x7A then false
    else if 0x41 ≤ r.toNat && r.toNat ≤ 0x5A then false
    else if r == '_' then false
    else true
  else if unicode.IsLetter T r || unicode.IsDigit T r then false
  else unicode.IsSpace r

/-- The mapping of `strings.Title` over the text, `prev` being the character
before it. -/
def Title.loop (T : unicode.Tables) (toTitle : Char → Char) : Char → GoString → GoString
  | _, [] => []
  | prev, r :: rs =>
    (if isSeparator T prev then unicode.ToTitle toTitle r else r) :: Title.loop T toTitle r rs

/-- `strings.Title`: the letter that begins each word in title case. -/
def Title (T : unicode.Tables) (toTitle : Char → Char) (s : GoString) : GoString :=
  Title.loop T toTitle ' ' s

end strings

/-! ## `internal/metadata` -/

namespace metadata

/-- `CommentSyntax`: the comment styles a dialect recognises. -/
structure CommentSyntax where
  Dash : Bool
  Hash : Bool
  SlashStar : Bool
  deriving DecidableEq, Repr

def CmdExec : GoString := ":exec".toList
def CmdExecResult : GoString := ":execresult".toList
def CmdExecRows : GoString := ":execrows".toList
def CmdMany : GoString := ":many".toList
def CmdOne : GoString := ":one".toList

/-- The errors `Parse` builds with `fmt.Errorf`, one constructor per format
string, carrying the formatted argument. -/
inductive Error where
  /-- The "missing query type [':one', ':many', ':exec', ':execrows', ':execresult']: %s" error. -/
  | missingQueryType (line : GoString)
  /-- The "invalid query comment: %s" error. -/
  | invalidQueryComment (line : GoString)
  /-- The "invalid query type: %s" error. -/
  | invalidQueryType (queryType : GoString)
  /-- The "invalid query name: %q" error (empty name). -/
  | invalidQueryNameEmpty (name : GoString)
  /-- The "invalid query name %q" error. -/
  | invalidQueryName (name : GoString)
  deriving DecidableEq, Repr

/-- The body of the `range name` loop of `validateQueryName`, from byte
offset `i` on. -/
def validateQueryName.loop (T : unicode.Tables) (name : GoString) :
    Nat → GoString → Option Error
  | _, [] => none
  | i, c :: cs =>
    let isLetter := unicode.IsLetter T c || c == '_'
    let isDigit := unicode.IsDigit T c
    if i == 0 && !isLetter then
      some (Error.invalidQueryName name)
    else if !(isLetter || isDigit) then
      some (Error.invalidQueryName name)
    else
      validateQueryName.loop T name (i + c.utf8Size) cs

/-- `validateQueryName`: a query name must be a valid Go identifier. -/
def validateQueryName (T : unicode.Tables) (name : GoString) : Option Error :=
  if name.length == 0 then
    some (Error.invalidQueryNameEmpty name)
  else
    validateQueryName.loop T name 0 name

/-- `parseOmits`. -/
def parseOmits (omits : GoString) : List GoString :=
  let omits := strings.TrimLeft (strings.TrimSpace omits) '['
  let omits := strings.TrimRight omits ']'
  strings.Split omits ','

/-- What `Parse` returns: `(name, cmd, omits, err)`. -/
abbrev Result := GoString × GoString × List GoString × Option Error

/-- Lines 44-68 of `Parse`: whether the line is taken as a directive
(`true`) or skipped by one of the `continue` statements (`false`). -/
def Parse.selects (line : GoString) (commentStyle : CommentSyntax) : Bool :=
  let pfx : GoString := []
  if strings.HasPrefix line "--".toList && !commentStyle.Dash then false else
  let pfx := if strings.HasPrefix line "--".toList then "-- name:".toList else pfx
  if strings.HasPrefix line "/*".toList && !commentStyle.SlashStar then false else
  let pfx := if strings.HasPrefix line "/*".toList then "/* name:".toList else pfx
  if strings.HasPrefix line "#".toList && !commentStyle.Hash then false else
  let pfx := if strings.HasPrefix line "#".toList then "# name:".toList else pfx
  if pfx == [] then false else
  if !strings.HasPrefix line pfx then false else
  true

/-- Lines 70-73 of `Parse`: the tokens of a directive line.  The slice
expression `part[:len(part)-1]` cannot fail, `strings.Split` returning at
least one piece. -/
def Parse.parts (line : GoString) : List GoString :=
  let part := strings.Split (strings.TrimSpace line) ' '
  if strings.HasPrefix line "/*".toList then part.take (part.length - 1) else part

/-- Lines 74-94 of `Parse`: what is returned for a directive line with
tokens `part`.  The index expressions are guarded by the length tests. -/
def Parse.directive (T : unicode.Tables) (line : GoString) (part : List GoString) : Result :=
  if part.length == 2 then
    ([], [], [], some (Error.missingQueryType line))
  else if part.length != 4 && part.length != 6 then
    ([], [], [], some (Error.invalidQueryComment line))
  else
    let queryName := part.getD 2 []
    let queryType := strings.TrimSpace (part.getD 3 [])
    if !(queryType == CmdOne || queryType == CmdMany || queryType == CmdExec ||
        queryType == CmdExecResult || queryType == CmdExecRows) then
      ([], [], [], some (Error.invalidQueryType queryType))
    else
      match validateQueryName T queryName with
      | some err => ([], [], [], some err)
      | none =>
        let omits := if part.length == 6 then parseOmits (part.getD 5 []) else []
        (queryName, queryType, omits, none)

/-- The body of the loop of `Parse` for one line: `none` when the line is
skipped (`continue`), the returned tuple otherwise. -/
def Parse.body (T : unicode.Tables) (line : GoString) (commentStyle : CommentSyntax) :
    Option Result :=
  if Parse.selects line commentStyle then
    some (Parse.directive T line (Parse.parts line))
  else
    none

/-- The loop of `Parse` over the lines of the text. -/
def Parse.loop (T : unicode.Tables) (commentStyle : CommentSyntax) :
    List GoString → Result
  | [] => ([], [], [], none)
  | line :: rest =>
    match Parse.body T line commentStyle with
    | some r => r
    | none => Parse.loop T commentStyle rest

/-- `Parse`: the name, command and omit list of the first directive of `t`. -/
def Parse (T : unicode.Tables) (t : GoString) (commentStyle : CommentSyntax) : Result :=
  Parse.loop T commentStyle (strings.Split t '\n')

/-! ### The directive grammar -/

/-- The recognised directive prefixes of a dialect. -/
def IsDirectiveLine (commentStyle : CommentSyntax) (line : GoString) : Bool :=
  (commentStyle.Dash && strings.HasPrefix line "-- name:".toList) ||
  (commentStyle.Hash && strings.HasPrefix line "# name:".toList) ||
  (commentStyle.SlashStar && strings.HasPrefix line "/* name:".toList)

/-- A character that may start an identifier: a letter or an underscore. -/
def isIdentStart (T : unicode.Tables) (c : Char) : Bool :=
  unicode.IsLetter T c || c == '_'

/-- A character that may continue an identifier: a letter, a digit or an
underscore. -/
def isIdentPart (T : unicode.Tables) (c : Char) : Bool :=
  unicode.IsLetter T c || unicode.IsDigit T c || c == '_'

/-- The identifier rule of the directive grammar: the first character is a
letter or an underscore, the others letters, digits or underscores. -/
def IsIdentifier (T : unicode.Tables) : GoString → Bool
  | [] => false
  | c :: cs => isIdentStart T c && cs.all (isIdentPart T)

/-- The command keywords of the directive grammar. -/
def Commands : List GoString :=
  [CmdExec, CmdExecResult, CmdExecRows, CmdMany, CmdOne]

/-- The invalid-identifier errors ("invalid query name"). -/
def Error.isInvalidIdentifier : Error → Bool
  | .invalidQueryNameEmpty _ => true
  | .invalidQueryName _ => true
  | _ => false

/-- The invalid-directive errors ("missing query type", "invalid query
comment"). -/
def Error.isInvalidDirective : Error → Bool
  | .missingQueryType _ => true
  | .invalidQueryComment _ => true
  | _ => false

end metadata

/-! ## `internal/compiler` -/

namespace compiler

/-- A result of Go `int` arithmetic: wrapped to 64 bits, two's complement. -/
def wrapInt (z : Int) : Int := (z + 2 ^ 63) % 2 ^ 64 - 2 ^ 63

/-- The verb `%d` of `fmt.Sprintf` on an `int`: decimal digits, with a minus
sign for a negative number. -/
def formatInt (z : Int) : GoString :=
  if z < 0 then '-' :: Nat.toDigits 10 z.natAbs else Nat.toDigits 10 z.toNat

/-- `ast.ParamRef`, with the fields this file reads. -/
structure ast.ParamRef where
  Number : Int
  Location : Int
  deriving DecidableEq, Repr

/-- `ast.Node`: the node types `parseQuery` and `rangeVars` tell apart.  `P`
stands for the contents of a statement node and `RV` for those of an
`ast.RangeVar`; `other` is any other node type and `nil` the nil interface
value. -/
inductive ast.Node (P RV : Type) where
  | RawStmt (Stmt : ast.Node P RV) (StmtLocation StmtLen : Int)
  | SelectStmt (n : P)
  | DeleteStmt (n : P)
  | InsertStmt (n : P)
  | TruncateStmt (n : P)
  | UpdateStmt (n : P)
  | RangeVar (rv : RV)
  | other (n : P)
  | nil

/-- `*ast.RawStmt`. -/
structure ast.RawStmt (P RV : Type) where
  Stmt : ast.Node P RV
  StmtLocation : Int
  StmtLen : Int

/-- `source.Edit`. -/
structure source.Edit where
  Location : Int
  Old : GoString
  New : GoString
  deriving DecidableEq, Repr

/-- `paramRef`: the field `ref` (never nil), and `rest` for the fields
`parent`, `rv` and `name`, which this file does not read. -/
structure paramRef (A : Type) where
  ref : ast.ParamRef
  rest : A
  deriving DecidableEq, Repr

/-- `Column`: the field `Name`, and `rest` for the other fields. -/
structure Column (C : Type) where
  Name : GoString
  rest : C
  deriving DecidableEq, Repr

/-- `Parameter`; `Column` is a pointer, `none` being nil. -/
structure Parameter (C : Type) where
  Number : Int
  Column : Option (Column C)
  deriving DecidableEq, Repr

/-- `Query`. -/
structure Query (C : Type) where
  Cmd : GoString
  Comments : List GoString
  Name : GoString
  Params : List (Parameter C)
  Columns : List (Column C)
  SQL : GoString
  InsertValuesLen : Int
  InsertValuesParameter : List (Parameter C)
  Omits : List GoString
  /-- Set by the caller of `parseQuery`; the zero value until then. -/
  Filename : GoString := []

/-- `opts.Parser`. -/
structure opts.Parser where
  DumpAST : Bool
  UsePositionalParameters : Bool
  deriving DecidableEq, Repr

/-- The errors `parseQuery` returns. -/
inductive Error (E : Type) where
  /-- An error returned by a function of another package, passed on unchanged. -/
  | collaborator (err : E)
  /-- The `errors.New("node is not a statement")` error. -/
  | nodeIsNotAStatement
  /-- `ErrUnsupportedStatementType`. -/
  | ErrUnsupportedStatementType
  /-- The `errors.New("missing semicolon at end of file")` error. -/
  | missingSemicolon
  /-- An error of `metadata.Parse`. -/
  | metadata (err : metadata.Error)
  /-- `sqlerr.ColumnNotFound(rel, col)`. -/
  | ColumnNotFound (rel col : GoString)
  /-- The `fmt.Errorf("edited query syntax is invalid: %w", err)` error. -/
  | editedQuerySyntaxInvalid (err : E)
  deriving DecidableEq, Repr

/-- How a call ends: with a value, with an error, or in a run-time panic. -/
inductive Outcome (ε α : Type) where
  | ok (a : α)
  | error (e : ε)
  | panic

/-- The functions of the other packages that `parseQuery` calls, and the
types they work on.  Each function is a parameter of the model. -/
structure Externals where
  /-- Contents of a statement node. -/
  Payload : Type
  /-- Contents of an `ast.RangeVar`. -/
  RangeVar : Type
  /-- The fields of `paramRef` other than `ref`. -/
  RefRest : Type
  /-- The fields of `Column` other than `Name`. -/
  ColRest : Type
  /-- `*catalog.Catalog`. -/
  Catalog : Type
  /-- `config.Engine`. -/
  Engine : Type
  /-- `*named.ParamSet`. -/
  NamedParams : Type
  /-- `*QueryCatalog`. -/
  QueryCatalog : Type
  /-- The errors of these functions. -/
  Err : Type
  /-- The `unicode` range tables. -/
  tables : unicode.Tables
  validate_ParamStyle : ast.Node Payload RangeVar → Option Err
  validate_ParamRef : ast.Node Payload RangeVar → Option Err
  validate_InsertStmt : Payload → Option Err
  validate_FuncCall : Catalog → ast.RawStmt Payload RangeVar → Option Err
  validate_Cmd : ast.Node Payload RangeVar → GoString → GoString → Option Err
  source_Pluck : GoString → Int → Int → Except Err GoString
  source_Mutate : GoString → List source.Edit → Except Err GoString
  source_StripComments : GoString → Except Err (GoString × List GoString)
  rewrite_NamedParameters : Engine → ast.RawStmt Payload RangeVar →
    ast.RawStmt Payload RangeVar × NamedParams × List source.Edit
  /-- The nodes `astutils.Walk` visits, in order. -/
  astutils_Walk : ast.Node Payload RangeVar → List (ast.Node Payload RangeVar)
  findParameters : ast.Node Payload RangeVar → List (paramRef RefRest)
  resolveCatalogRefs : Catalog → List RangeVar → List (paramRef RefRest) → NamedParams →
    Except Err (List (Parameter ColRest))
  resolveCatalogValuesRefs : Catalog → List RangeVar → List (paramRef RefRest) → NamedParams →
    Except Err (List (Parameter ColRest) × Int)
  buildQueryCatalog : Catalog → ast.Node Payload RangeVar → Except Err QueryCatalog
  outputColumns : QueryCatalog → ast.Node Payload RangeVar → Except Err (List (Column ColRest))

/-- The `parser` field of `Compiler`: what `CommentSyntax()` returns and the
error, if any, of `Parse` on a text. -/
structure Parser (X : Externals) where
  CommentSyntax : metadata.CommentSyntax
  Parse : GoString → Option X.Err

/-- `Compiler`: the fields `parseQuery` reads and its method `expand`. -/
structure Compiler (X : Externals) where
  catalog : X.Catalog
  engine : X.Engine
  parser : Parser X
  expand : X.QueryCatalog → ast.RawStmt X.Payload X.RangeVar → Except X.Err (List source.Edit)

/-- `rewriteNumberedParameters`: one `$N` to `?` edit per reference; the
error is always nil. -/
def rewriteNumberedParameters {A P RV E : Type} (refs : List (paramRef A))
    (raw : ast.RawStmt P RV) (_sql : GoString) : Except E (List source.Edit) :=
  Except.ok (refs.map fun ref =>
    { Location := wrapInt (ref.ref.Location - raw.StmtLocation)
      Old := '$' :: formatInt ref.ref.Number
      New := "?".toList })

/-- `rangeVars`: the `*ast.RangeVar` nodes among the visited nodes. -/
def rangeVars (X : Externals) (root : ast.Node X.Payload X.RangeVar) : List X.RangeVar :=
  (X.astutils_Walk root).filterMap fun node =>
    match node with
    | ast.Node.RangeVar n => some n
    | _ => none

/-- The loop of `uniqueParamRefs`: `m` is the key set of the map, `o` the
output slice built so far. -/
def uniqueParamRefs.loop {A : Type} :
    List Int → List (paramRef A) → List (paramRef A) → List (paramRef A)
  | _, o, [] => o
  | m, o, v :: vs =>
    if v.ref.Number ∈ m then uniqueParamRefs.loop m o vs
    else uniqueParamRefs.loop (v.ref.Number :: m) (o ++ [v]) vs

/-- `uniqueParamRefs`. -/
def uniqueParamRefs {A : Type} (in_ : List (paramRef A)) : List (paramRef A) :=
  uniqueParamRefs.loop [] [] in_

/-- Insertion of `x` into a list sorted by `less`. -/
def sortSlice.insert {α : Type} (less : α → α → Bool) (x : α) : List α → List α
  | [] => [x]
  | y :: ys => if less x y then x :: y :: ys else y :: sortSlice.insert less x ys

/-- `sort.Slice(s, less)`: the elements of `s` in an order in which no element
is `less` than one before it.  Go leaves the order of equal elements open;
this model inserts one element after the other. -/
def sortSlice {α : Type} (less : α → α → Bool) : List α → List α
  | [] => []
  | x :: xs => sortSlice.insert less x (sortSlice less xs)

/-- The first loop of `validateOmits`: the key set of the map `column`;
`none` when a parameter has a nil `Column` (nil pointer dereference). -/
def validateOmits.columns {C : Type} : List GoString → List (Parameter C) → Option (List GoString)
  | column, [] => some column
  | column, p :: ps =>
    match p.Column with
    | none => none
    | some col => validateOmits.columns (col.Name :: column) ps

/-- The second loop of `validateOmits`. -/
def validateOmits.check (column : List GoString) : List GoString → Bool
  | [] => true
  | o :: os => if o ∉ column then false else validateOmits.check column os

/-- `validateOmits`; `none` is a run-time panic. -/
def validateOmits {C : Type} (omits : List GoString) (params : List (Parameter C)) :
    Option Bool :=
  match validateOmits.columns [] params with
  | none => none
  | some column => some (validateOmits.check column omits)

/-- The local variables of `parseQuery` that are live after line 110. -/
structure parseQuery.Locals (X : Externals) where
  raw : ast.RawStmt X.Payload X.RangeVar
  rawSQL : GoString
  name : GoString
  cmd : GoString
  omits : List GoString
  namedParams : X.NamedParams
  edits : List source.Edit
  rvs : List X.RangeVar
  refs : List (paramRef X.RefRest)
  params : List (Parameter X.ColRest)

/-- The type switch on `raw.Stmt` in `parseQuery` (lines 49-61). -/
def parseQuery.kind (X : Externals) (n : ast.Node X.Payload X.RangeVar) : Option (Error X.Err) :=
  match n with
  | ast.Node.SelectStmt _ => none
  | ast.Node.DeleteStmt _ => none
  | ast.Node.InsertStmt n =>
    match X.validate_InsertStmt n with
    | some err => some (Error.collaborator err)
    | none => none
  | ast.Node.TruncateStmt _ => none
  | ast.Node.UpdateStmt _ => none
  | _ => some Error.ErrUnsupportedStatementType

/-- Lines 36-72 of `parseQuery`: the validators, the statement kind and the
raw SQL text.  `debug.Dump` and the logging calls only print and are left
out. -/
def parseQuery.checks (X : Externals) (c : Compiler X) (stmt : ast.Node X.Payload X.RangeVar)
    (src : GoString) : Except (Error X.Err) (ast.RawStmt X.Payload X.RangeVar × GoString) :=
  match X.validate_ParamStyle stmt with
  | some err => Except.error (Error.collaborator err)
  | none =>
  match X.validate_ParamRef stmt with
  | some err => Except.error (Error.collaborator err)
  | none =>
  match stmt with
  | ast.Node.RawStmt Stmt StmtLocation StmtLen =>
    let raw : ast.RawStmt X.Payload X.RangeVar := ⟨Stmt, StmtLocation, StmtLen⟩
    match parseQuery.kind X raw.Stmt with
    | some err => Except.error err
    | none =>
    match X.source_Pluck src raw.StmtLocation raw.StmtLen with
    | Except.error err => Except.error (Error.collaborator err)
    | Except.ok rawSQL =>
    if rawSQL == [] then Except.error Error.missingSemicolon else
    match X.validate_FuncCall c.catalog raw with
    | some err => Except.error (Error.collaborator err)
    | none => Except.ok (raw, rawSQL)
  | _ => Except.error Error.nodeIsNotAStatement

/-- Lines 95-103 of `parseQuery`: the edits and the parameter references
handed on, in positional and in numbered style. -/
def parseQuery.style (X : Externals) (o : opts.Parser) (raw : ast.RawStmt X.Payload X.RangeVar)
    (rawSQL : GoString) (edits : List source.Edit) (refs : List (paramRef X.RefRest)) :
    Except (Error X.Err) (List source.Edit × List (paramRef X.RefRest)) :=
  if o.UsePositionalParameters then
    match (rewriteNumberedParameters refs raw rawSQL : Except X.Err (List source.Edit)) with
    | Except.error err => Except.error (Error.collaborator err)
    | Except.ok edits => Except.ok (edits, refs)
  else
    let refs := uniqueParamRefs refs
    let refs := sortSlice (fun a b => decide (a.ref.Number < b.ref.Number)) refs
    Except.ok (edits, refs)

/-- Lines 75-110 of `parseQuery`: the directive, the parameter references and
their resolution. -/
def parseQuery.resolve (X : Externals) (c : Compiler X) (raw : ast.RawStmt X.Payload X.RangeVar)
    (rawSQL : GoString) (o : opts.Parser) : Except (Error X.Err) (parseQuery.Locals X) :=
  match metadata.Parse X.tables (strings.TrimSpace rawSQL) c.parser.CommentSyntax with
  | (_, _, _, some err) => Except.error (Error.metadata err)
  | (name, cmd, omits, none) =>
  match X.validate_Cmd raw.Stmt name cmd with
  | some err => Except.error (Error.collaborator err)
  | none =>
  match X.rewrite_NamedParameters c.engine raw with
  | (raw, namedParams, edits) =>
  let rvs := rangeVars X raw.Stmt
  let refs := X.findParameters raw.Stmt
  match parseQuery.style X o raw rawSQL edits refs with
  | Except.error err => Except.error err
  | Except.ok (edits, refs) =>
  match X.resolveCatalogRefs c.catalog rvs refs namedParams with
  | Except.error err => Except.error (Error.collaborator err)
  | Except.ok params =>
    Except.ok
      { raw := raw, rawSQL := rawSQL, name := name, cmd := cmd, omits := omits,
        namedParams := namedParams, edits := edits, rvs := rvs, refs := refs,
        params := params }

/-- Lines 36-110 of `parseQuery`. -/
def parseQuery.front (X : Externals) (c : Compiler X) (stmt : ast.Node X.Payload X.RangeVar)
    (src : GoString) (o : opts.Parser) : Except (Error X.Err) (parseQuery.Locals X) :=
  match parseQuery.checks X c stmt src with
  | Except.error err => Except.error err
  | Except.ok (raw, rawSQL) => parseQuery.resolve X c raw rawSQL o

/-- Lines 112-167 of `parseQuery`: omit validation, output columns, the edits
and the assembly of the `Query`. -/
def parseQuery.back (X : Externals) (c : Compiler X) (l : parseQuery.Locals X) :
    Outcome (Error X.Err) (Query X.ColRest) :=
  match validateOmits l.omits l.params with
  | none => Outcome.panic
  | some false => Outcome.error (Error.ColumnNotFound [] (strings.Join l.omits ",".toList))
  | some true =>
  match X.resolveCatalogValuesRefs c.catalog l.rvs l.refs l.namedParams with
  | Except.error err => Outcome.error (Error.collaborator err)
  | Except.ok (valuesParams, length) =>
  match X.buildQueryCatalog c.catalog l.raw.Stmt with
  | Except.error err => Outcome.error (Error.collaborator err)
  | Except.ok qc =>
  match X.outputColumns qc l.raw.Stmt with
  | Except.error err => Outcome.error (Error.collaborator err)
  | Except.ok cols =>
  match c.expand qc l.raw with
  | Except.error err => Outcome.error (Error.collaborator err)
  | Except.ok expandEdits =>
  let edits := l.edits ++ expandEdits
  match X.source_Mutate l.rawSQL edits with
  | Except.error err => Outcome.error (Error.collaborator err)
  | Except.ok expanded =>
  match (if expanded != l.rawSQL then c.parser.Parse expanded else none) with
  | some err => Outcome.error (Error.editedQuerySyntaxInvalid err)
  | none =>
  match X.source_StripComments expanded with
  | Except.error err => Outcome.error (Error.collaborator err)
  | Except.ok (trimmed, comments) =>
    Outcome.ok
      { Cmd := l.cmd, Comments := comments, Name := l.name, Params := l.params,
        Columns := cols, SQL := trimmed, InsertValuesLen := length,
        InsertValuesParameter := valuesParams, Omits := l.omits }

/-- `parseQuery`. -/
def parseQuery (X : Externals) (c : Compiler X) (stmt : ast.Node X.Payload X.RangeVar)
    (src : GoString) (o : opts.Parser) : Outcome (Error X.Err) (Query X.ColRest) :=
  match parseQuery.front X c stmt src o with
  | Except.error err => Outcome.error err
  | Except.ok l => parseQuery.back X c l

/-- The entries of an omit list that are the `Column.Name` of no parameter. -/
def offendingOmits {C : Type} (omits : List GoString) (params : List (Parameter C)) :
    List GoString :=
  omits.filter fun o =>
    !(params.any fun p =>
      match p.Column with
      | some col => col.Name == o
      | none => false)

/-- The statement kinds of the supported set: SELECT, DELETE, INSERT,
TRUNCATE and UPDATE. -/
def ast.Node.isSupportedStatement {P RV : Type} : ast.Node P RV → Bool
  | ast.Node.SelectStmt _ => true
  | ast.Node.DeleteStmt _ => true
  | ast.Node.InsertStmt _ => true
  | ast.Node.TruncateStmt _ => true
  | ast.Node.UpdateStmt _ => true
  | _ => false

/-- The local variables of `parseQuery` set by lines 112-138 that are live
at line 140; `edits` is the list handed to `source.Mutate`. -/
structure parseQuery.Expanded (X : Externals) where
  valuesParams : List (Parameter X.ColRest)
  length : Int
  cols : List (Column X.ColRest)
  edits : List source.Edit

/-- Lines 112-138 of `parseQuery`: omit validation, the values parameters,
the output columns and the edit list. -/
def parseQuery.expandStage (X : Externals) (c : Compiler X) (l : parseQuery.Locals X) :
    Outcome (Error X.Err) (parseQuery.Expanded X) :=
  match validateOmits l.omits l.params with
  | none => Outcome.panic
  | some false => Outcome.error (Error.ColumnNotFound [] (strings.Join l.omits ",".toList))
  | some true =>
  match X.resolveCatalogValuesRefs c.catalog l.rvs l.refs l.namedParams with
  | Except.error err => Outcome.error (Error.collaborator err)
  | Except.ok (valuesParams, length) =>
  match X.buildQueryCatalog c.catalog l.raw.Stmt with
  | Except.error err => Outcome.error (Error.collaborator err)
  | Except.ok qc =>
  match X.outputColumns qc l.raw.Stmt with
  | Except.error err => Outcome.error (Error.collaborator err)
  | Except.ok cols =>
  match c.expand qc l.raw with
  | Except.error err => Outcome.error (Error.collaborator err)
  | Except.ok expandEdits =>
    Outcome.ok
      { valuesParams := valuesParams, length := length, cols := cols,
        edits := l.edits ++ expandEdits }

/-- Lines 140-167 of `parseQuery`: the source editor, the re-parse of an
edited text, the comments and the `Query`. -/
def parseQuery.finish (X : Externals) (c : Compiler X) (l : parseQuery.Locals X)
    (e : parseQuery.Expanded X) : Outcome (Error X.Err) (Query X.ColRest) :=
  match X.source_Mutate l.rawSQL e.edits with
  | Except.error err => Outcome.error (Error.collaborator err)
  | Except.ok expanded =>
  match (if expanded != l.rawSQL then c.parser.Parse expanded else none) with
  | some err => Outcome.error (Error.editedQuerySyntaxInvalid err)
  | none =>
  match X.source_StripComments expanded with
  | Except.error err => Outcome.error (Error.collaborator err)
  | Except.ok (trimmed, comments) =>
    Outcome.ok
      { Cmd := l.cmd, Comments := comments, Name := l.name, Params := l.params,
        Columns := e.cols, SQL := trimmed, InsertValuesLen := e.length,
        InsertValuesParameter := e.valuesParams, Omits := l.omits }

/-! ### A small instance -/

/-- A dialect with dash comments whose collaborators accept every
statement: the raw SQL is the whole source, the statement has no range
variables, one parameter reference per entry of `refs`, and each reference
resolves to a column named `id`. -/
def demo (refs : List ast.ParamRef) : Externals where
  Payload := Unit
  RangeVar := Unit
  RefRest := Nat
  ColRest := Unit
  Catalog := Unit
  Engine := Unit
  NamedParams := Unit
  QueryCatalog := Unit
  Err := GoString
  tables := unicode.latin1Only
  validate_ParamStyle := fun _ => none
  validate_ParamRef := fun _ => none
  validate_InsertStmt := fun _ => none
  validate_FuncCall := fun _ _ => none
  validate_Cmd := fun _ _ _ => none
  source_Pluck := fun src _ _ => Except.ok src
  source_Mutate := fun sql _ => Except.ok sql
  source_StripComments := fun sql => Except.ok (sql, [])
  rewrite_NamedParameters := fun _ raw => (raw, (), [])
  astutils_Walk := fun _ => []
  findParameters := fun _ => (List.range refs.length).zipWith (fun i r => ⟨r, i⟩) refs
  resolveCatalogRefs := fun _ _ rs _ =>
    Except.ok (rs.map fun r => ⟨r.ref.Number, some ⟨"id".toList, ()⟩⟩)
  resolveCatalogValuesRefs := fun _ _ _ _ => Except.ok ([], 0)
  buildQueryCatalog := fun _ _ => Except.ok ()
  outputColumns := fun _ _ => Except.ok []

/-- The compiler of the instance. -/
def demoCompiler (refs : List ast.ParamRef) : Compiler (demo refs) where
  catalog := ()
  engine := ()
  parser := ⟨⟨true, false, false⟩, fun _ => none⟩
  expand := fun _ _ => Except.ok []

/-- The instance `demo` with a parameter-style validator that rejects every
statement. -/
def demoRejecting : Externals :=
  { demo [] with validate_ParamStyle := fun _ => some "mixed parameter styles".toList }

/-- The compiler of `demoRejecting`. -/
def demoRejectingCompiler : Compiler demoRejecting where
  catalog := ()
  engine := ()
  parser := ⟨⟨true, false, false⟩, fun _ => none⟩
  expand := fun _ _ => Except.ok []

/-- The instance `demo` with a named-parameter rewriter that returns one
edit and a source editor that applies the first edit of its list at the
head of the text. -/
def demoNamed (refs : List ast.ParamRef) : Externals :=
  { demo refs with
    rewrite_NamedParameters := fun _ raw => (raw, (), [⟨27, "@id".toList, "$1".toList⟩])
    source_Mutate := fun sql edits =>
      match edits with
      | [] => Except.ok sql
      | e :: _ => Except.ok (e.New ++ sql) }

/-- The compiler of `demoNamed`, with a parser that rejects every text and
one column-expansion edit. -/
def demoNamedCompiler (refs : List ast.ParamRef) : Compiler (demoNamed refs) where
  catalog := ()
  engine := ()
  parser := ⟨⟨true, false, false⟩, fun _ => some "syntax error".toList⟩
  expand := fun _ _ => Except.ok [⟨7, "*".toList, "id, name".toList⟩]

end compiler

/-! ## `strconv` -/

namespace strconv

/-- The `*strconv.NumError` values of `Atoi`, by their `Err` field, with the
string that was parsed. -/
inductive NumError where
  /-- `ErrSyntax`: "invalid syntax". -/
  | ErrSyntax (s : GoString)
  /-- `ErrRange`: "value out of range". -/
  | ErrRange (s : GoString)
  deriving DecidableEq, Repr

/-- A decimal digit, `'0'` to `'9'`. -/
def isDigit (c : Char) : Bool := 0x30 ≤ c.toNat && c.toNat ≤ 0x39

/-- The number a string of decimal digits denotes. -/
def decimal (ds : GoString) : Nat := ds.foldl (fun n c => 10 * n + (c.toNat - 0x30)) 0

/-- `strconv.Atoi`: an optional sign and decimal digits, within the range of
`int` (64 bits). -/
def Atoi (s : GoString) : Except NumError Int :=
  let signed : Bool × GoString :=
    match s with
    | '+' :: r => (false, r)
    | '-' :: r => (true, r)
    | _ => (false, s)
  if signed.2 == [] || !signed.2.all isDigit then Except.error (NumError.ErrSyntax s)
  else
    let v : Int := if signed.1 then -(decimal signed.2 : Int) else (decimal signed.2 : Int)
    if v < -(2 ^ 63) ∨ 2 ^ 63 - 1 < v then Except.error (NumError.ErrRange s)
    else Except.ok v

end strconv

/-! ## `cmd/generator` -/

namespace generator

/-- `fieldDescriptor`; `Type_` is the field `Type`. -/
structure fieldDescriptor where
  Name : GoString
  Type_ : GoString
  Size : Int
  Unsigned : Bool
  AllowNull : Bool
  Comment : GoString
  deriving DecidableEq, Repr

/-- The character class `[a-z]`. -/
def isLower (c : Char) : Bool := 0x61 ≤ c.toNat && c.toNat ≤ 0x7A

/-- The optional group `(\(([0-9]+)\))?` of the pattern at the head of `s`:
the texts of groups 2 and 3 and what follows the group.  The group matches
when `s` starts with `(`, one or more digits and `)`; it is empty
otherwise. -/
def typePattern.size (s : GoString) : GoString × GoString × GoString :=
  match s with
  | '(' :: r =>
    match r.takeWhile strconv.isDigit, r.dropWhile strconv.isDigit with
    | d :: ds, ')' :: rest => ('(' :: (d :: ds) ++ [')'], d :: ds, rest)
    | _, _ => ([], [], s)
  | _ => ([], [], s)

/-- The optional group `( ([a-z]+))?` of the pattern at the head of `s`: the
texts of groups 4 and 5.  The group matches when `s` starts with a space and
one or more lowercase letters; it is empty otherwise. -/
def typePattern.qualifier (s : GoString) : GoString × GoString :=
  match s with
  | ' ' :: r =>
    match r.takeWhile isLower with
    | w :: ws => (' ' :: w :: ws, w :: ws)
    | [] => ([], [])
  | _ => ([], [])

/-- `r.FindStringSubmatch(s)` for the pattern
`([a-z]+)(\(([0-9]+)\))?( ([a-z]+))?` of line 99: the leftmost match and its
five groups, the text of a group that did not take part being empty; nil
when there is no match.  A match starts at the first lowercase letter of
`s`; group 1 is the run of lowercase letters there (the repetitions are
greedy and what follows is optional, so the first match found is the one
with the longest run) and each optional group is taken when it matches. -/
def FindStringSubmatch (s : GoString) : List GoString :=
  match s.dropWhile (fun c => !isLower c) with
  | [] => []
  | t =>
    let g1 := t.takeWhile isLower
    let size := typePattern.size (t.dropWhile isLower)
    let qualifier := typePattern.qualifier size.2.2
    [g1 ++ size.1 ++ qualifier.1, g1, size.1, size.2.1, qualifier.1, qualifier.2]

/-- Lines 99-110 of `GetFieldDescriptors`: the type, the size and the
unsigned flag of a type string.  Indexing `submatches` out of range is a
run-time panic. -/
def GetFieldDescriptors.parseType (typ : GoString) :
    compiler.Outcome strconv.NumError (GoString × Int × Bool) :=
  let submatches := FindStringSubmatch typ
  match submatches[1]? with
  | none => compiler.Outcome.panic
  | some fieldType =>
    match submatches[3]? with
    | none => compiler.Outcome.panic
    | some size =>
      match (if size != [] then strconv.Atoi size else Except.ok 0) with
      | Except.error err => compiler.Outcome.error err
      | Except.ok fieldSize =>
        match submatches[5]? with
        | none => compiler.Outcome.panic
        | some qualifier =>
          compiler.Outcome.ok (fieldType, fieldSize, qualifier == "unsigned".toList)

/-- The errors `GetFieldDescriptors` returns: those of the database and
those of `strconv.Atoi`. -/
inductive Error (E : Type) where
  | db (err : E)
  | atoi (err : strconv.NumError)
  deriving DecidableEq, Repr

/-- What the database answers to a query: the error of `Query`, or the rows
fetched by `rows.Next`; for each row the error of `rows.Columns` or
`rows.Scan`, or the columns with the values scanned, `none` being NULL. -/
abbrev Answer (E : Type) := Except E (List (Except E (List (GoString × Option GoString))))

/-- `mysqlSchemaFetcher`: the database handle, as the answer it gives to a
query text. -/
structure mysqlSchemaFetcher (E : Type) where
  db : GoString → Answer E

/-- Lines 91-97: the map `row`, as a list of keys and values in which a key
set later comes first; a NULL value sets no key. -/
def GetFieldDescriptors.row (scanned : List (GoString × Option GoString)) :
    List (GoString × GoString) :=
  scanned.foldl (fun row cv =>
    match cv.2 with
    | some v => (cv.1, v) :: row
    | none => row) []

/-- The expression `row[key]`: the empty string for a key that is not set. -/
def GetFieldDescriptors.get (row : List (GoString × GoString)) (key : GoString) : GoString :=
  (row.lookup key).getD []

/-- Lines 91-119: the descriptor of one scanned row. -/
def GetFieldDescriptors.field (scanned : List (GoString × Option GoString)) :
    compiler.Outcome strconv.NumError fieldDescriptor :=
  let row := GetFieldDescriptors.row scanned
  match GetFieldDescriptors.parseType (GetFieldDescriptors.get row "Type".toList) with
  | compiler.Outcome.panic => compiler.Outcome.panic
  | compiler.Outcome.error err => compiler.Outcome.error err
  | compiler.Outcome.ok (fieldType, fieldSize, unsigned) =>
    compiler.Outcome.ok
      { Name := GetFieldDescriptors.get row "Field".toList
        Type_ := fieldType
        Size := fieldSize
        Unsigned := unsigned
        AllowNull := GetFieldDescriptors.get row "Null".toList == "YES".toList
        Comment := GetFieldDescriptors.get row "Comment".toList }

/-- The loop of `GetFieldDescriptors` over the rows, `result` being the
descriptors appended so far. -/
def GetFieldDescriptors.loop {E : Type} :
    List (Except E (List (GoString × Option GoString))) → List fieldDescriptor →
      compiler.Outcome (Error E) (List fieldDescriptor)
  | [], result => compiler.Outcome.ok result
  | Except.error err :: _, _ => compiler.Outcome.error (Error.db err)
  | Except.ok scanned :: rows, result =>
    match GetFieldDescriptors.field scanned with
    | compiler.Outcome.panic => compiler.Outcome.panic
    | compiler.Outcome.error err => compiler.Outcome.error (Error.atoi err)
    | compiler.Outcome.ok d => GetFieldDescriptors.loop rows (result ++ [d])

/-- `mysqlSchemaFetcher.GetFieldDescriptors`. -/
def GetFieldDescriptors {E : Type} (m : mysqlSchemaFetcher E) (tableName : GoString) :
    compiler.Outcome (Error E) (List fieldDescriptor) :=
  match m.db ("SHOW FULL COLUMNS FROM `".toList ++ tableName ++ "`".toList) with
  | Except.error err => compiler.Outcome.error (Error.db err)
  | Except.ok rows => GetFieldDescriptors.loop rows []

end generator

/-! ## `internal/codegen/golang` -/

/-- The operator `<` of Go on strings: byte-wise lexicographic order, which
on well-formed UTF-8 is the lexicographic order of the code points. -/
def GoString.less : GoString → GoString → Bool
  | _, [] => false
  | [], _ :: _ => true
  | a :: as, b :: bs =>
    if a.toNat < b.toNat then true
    else if b.toNat < a.toNat then false
    else GoString.less as bs

/-- `compiler.Result`: the catalog and the compiled queries, none of which
is a nil pointer. -/
structure compiler.Result (C Cat : Type) where
  Catalog : Cat
  Queries : List (compiler.Query C)

/-- `core.FQN`. -/
structure core.FQN where
  Catalog : GoString
  Schema : GoString
  Rel : GoString
  deriving DecidableEq, Repr

namespace golang

/-- `Field`; `Type_` is the field `Type`, and `Tags` lists the keys of the
map with their values. -/
structure Field where
  Name : GoString
  Type_ : GoString
  Tags : List (GoString × GoString)
  Comment : GoString
  IsSlice : Bool
  deriving DecidableEq, Repr

/-- `Struct`. -/
structure Struct where
  Table : core.FQN
  Name : GoString
  Fields : List Field
  Comment : GoString
  deriving DecidableEq, Repr

/-- `goColumn`; the embedded `*compiler.Column` is `Column`, `none` being
nil. -/
structure goColumn (C : Type) where
  id : Int
  Column : Option (compiler.Column C)
  IsSlice : Bool

/-- `QueryValue`, without the field `Slice`, which is never set. -/
structure QueryValue where
  Emit : Bool
  Name : GoString
  Struct : Option Struct
  Typ : GoString
  IsSlice : Bool
  NameSpace : GoString
  deriving DecidableEq, Repr

/-- `Query`: what is generated for one compiled query. -/
structure Query where
  Cmd : GoString
  Comments : List GoString
  MethodName : GoString
  FieldName : GoString
  ConstantName : GoString
  SQL : GoString
  SourceName : GoString
  Ret : QueryValue
  Arg : QueryValue
  deriving DecidableEq, Repr

/-- The functions and types of other files and packages that this file
uses.  Each function is a parameter of the model. -/
structure Externals where
  /-- The fields of `compiler.Column` other than `Name`. -/
  ColRest : Type
  /-- `*catalog.Catalog`. -/
  Catalog : Type
  /-- `*ast.TableName`. -/
  TableName : Type
  /-- `config.CombinedSettings`. -/
  Settings : Type
  /-- The field `IsSlice` of a column. -/
  Column_IsSlice : ColRest → Bool
  /-- The field `Table` of a column. -/
  Column_Table : ColRest → TableName
  /-- The field `DefaultSchema` of the catalog. -/
  DefaultSchema : Catalog → GoString
  /-- The setting `Go.Package`. -/
  Go_Package : Settings → GoString
  /-- The setting `Go.EmitDBTags`. -/
  Go_EmitDBTags : Settings → Bool
  /-- The setting `Go.EmitJSONTags`. -/
  Go_EmitJSONTags : Settings → Bool
  StructName : GoString → Settings → GoString
  goType : compiler.Result ColRest Catalog → Option (compiler.Column ColRest) → Settings →
    GoString
  sameTableName : TableName → core.FQN → GoString → Bool
  codegen_LowerTitle : GoString → GoString
  strings_ToLower : GoString → GoString
  strings_Title : GoString → GoString

/-- `columnName`: the name of the column, or `column_` and the 1-based
position for a column without a name; `none` is the panic of reading
`c.Name` through a nil pointer. -/
def columnName {C : Type} (c : Option (compiler.Column C)) (pos : Int) : Option GoString :=
  match c with
  | none => none
  | some c =>
    if c.Name != [] then some c.Name
    else some ("column_".toList ++ compiler.formatInt (compiler.wrapInt (pos + 1)))

/-- The loop of `argName` over the parts of the name, from index `i`. -/
def argName.loop (X : Externals) : Nat → List GoString → GoString → GoString
  | _, [], out => out
  | i, p :: ps, out =>
    if i == 0 then argName.loop X (i + 1) ps (out ++ X.strings_ToLower p)
    else if p == "id".toList then argName.loop X (i + 1) ps (out ++ "ID".toList)
    else argName.loop X (i + 1) ps (out ++ X.strings_Title p)

/-- `argName`. -/
def argName (X : Externals) (name : GoString) : GoString :=
  argName.loop X 0 (strings.Split name '_') []

/-- `paramName`. -/
def paramName (X : Externals) (p : compiler.Parameter X.ColRest) : GoString :=
  match p.Column with
  | none => "dollar_Column_".toList ++ compiler.formatInt p.Number
  | some col =>
    if col.Name != [] then argName X col.Name
    else "dollar_".toList ++ compiler.formatInt p.Number

/-- `isSlice`. -/
def isSlice (X : Externals) (col : Option (compiler.Column X.ColRest)) : Bool :=
  match col with
  | none => false
  | some col => X.Column_IsSlice col.rest

/-- The value `m[k]` of a map with `int` values held as a list of keys and
values in which a key set later comes first: 0 for a key that is not set. -/
def mapGet {κ : Type} [DecidableEq κ] (m : List (κ × Int)) (k : κ) : Int :=
  match m.lookup k with
  | some v => v
  | none => 0

/-- The loop of `columnsToStruct` from index `i`, with the maps `seen` and
`suffixes` and the fields appended so far; `none` is a panic.  The counters
are bounded by the number of columns, so that `v + 1` and `seen[colName]++`
do not overflow. -/
def columnsToStruct.loop (X : Externals) (r : compiler.Result X.ColRest X.Catalog)
    (settings : X.Settings) :
    Nat → List (goColumn X.ColRest) → List (GoString × Int) → List (Int × Int) → List Field →
      Option (List Field)
  | _, [], _, _, fields => some fields
  | i, c :: cs, seen, suffixes, fields =>
    match columnName c.Column i with
    | none => none
    | some colName =>
      let tagName := colName
      let fieldName := X.StructName colName settings
      let suffix : Int :=
        match suffixes.lookup c.id with
        | some o => o
        | none => if mapGet seen colName > 0 then mapGet seen colName + 1 else 0
      let suffixes := (c.id, suffix) :: suffixes
      let tagName :=
        if suffix > 0 then tagName ++ "_".toList ++ compiler.formatInt suffix else tagName
      let fieldName :=
        if suffix > 0 then fieldName ++ "_".toList ++ compiler.formatInt suffix else fieldName
      let tags : List (GoString × GoString) :=
        (if X.Go_EmitDBTags settings then [("db:".toList, tagName)] else []) ++
        (if X.Go_EmitJSONTags settings then [("json:".toList, tagName)] else [])
      let field : Field :=
        { Name := fieldName, Type_ := X.goType r c.Column settings, Tags := tags,
          Comment := [], IsSlice := c.IsSlice }
      columnsToStruct.loop X r settings (i + 1) cs
        ((colName, mapGet seen colName + 1) :: seen) suffixes (fields ++ [field])

/-- `columnsToStruct`; `none` is a panic. -/
def columnsToStruct (X : Externals) (r : compiler.Result X.ColRest X.Catalog) (name : GoString)
    (columns : List (goColumn X.ColRest)) (settings : X.Settings) : Option Struct :=
  match columnsToStruct.loop X r settings 0 columns [] [] [] with
  | none => none
  | some fields => some { Table := ⟨[], [], []⟩, Name := name, Fields := fields, Comment := [] }

/-- The loop of lines 212-220 of `buildQueries` from index `i`: whether the
fields of a struct have the names, types and tables of the columns of the
query, given the value of `same` so far; `none` is a panic. -/
def buildQueries.same (X : Externals) (r : compiler.Result X.ColRest X.Catalog)
    (settings : X.Settings) (sTable : core.FQN) :
    Nat → List Field → List (compiler.Column X.ColRest) → Bool → Option Bool
  | _, [], _, same => some same
  | _, _ :: _, [], _ => none
  | i, f :: fs, c :: cs, same =>
    match columnName (some c) i with
    | none => none
    | some colName =>
      let sameName := f.Name == X.StructName colName settings
      let sameType := f.Type_ == X.goType r (some c) settings
      let sameTable := X.sameTableName (X.Column_Table c.rest) sTable (X.DefaultSchema r.Catalog)
      buildQueries.same X r settings sTable (i + 1) fs cs
        (if !sameName || !sameType || !sameTable then false else same)

/-- The loop of lines 207-225 of `buildQueries`: the first struct of
`structs` that matches the columns of the query, `none` inside when there is
none (`gs == nil`); `none` outside is a panic. -/
def buildQueries.find (X : Externals) (r : compiler.Result X.ColRest X.Catalog)
    (settings : X.Settings) (columns : List (compiler.Column X.ColRest)) :
    List Struct → Option (Option Struct)
  | [] => some none
  | s :: structs =>
    if s.Fields.length != columns.length then buildQueries.find X r settings columns structs
    else
      match buildQueries.same X r settings s.Table 0 s.Fields columns true with
      | none => none
      | some true => some (some s)
      | some false => buildQueries.find X r settings columns structs

/-- Lines 170-191 of `buildQueries`: the field `Arg` of the generated
query; `none` is a panic. -/
def buildQueries.arg (X : Externals) (r : compiler.Result X.ColRest X.Catalog)
    (settings : X.Settings) (methodName : GoString)
    (params : List (compiler.Parameter X.ColRest)) : Option QueryValue :=
  match params with
  | [] => some { Emit := false, Name := [], Struct := none, Typ := [], IsSlice := false,
                 NameSpace := [] }
  | [p] =>
    some { Emit := false, Name := paramName X p, Struct := none,
           Typ := X.goType r p.Column settings, IsSlice := isSlice X p.Column,
           NameSpace := X.Go_Package settings }
  | _ =>
    let cols : List (goColumn X.ColRest) :=
      params.map fun p => { id := p.Number, Column := p.Column, IsSlice := isSlice X p.Column }
    match columnsToStruct X r (methodName ++ "Params".toList) cols settings with
    | none => none
    | some s =>
      some { Emit := true, Name := "arg".toList, Struct := some s, Typ := [], IsSlice := false,
             NameSpace := X.Go_Package settings }

/-- Lines 195-245 of `buildQueries`: the field `Ret` of the generated
query; `none` is a panic. -/
def buildQueries.ret (X : Externals) (r : compiler.Result X.ColRest X.Catalog)
    (settings : X.Settings) (structs : List Struct) (methodName : GoString)
    (columns : List (compiler.Column X.ColRest)) : Option QueryValue :=
  match columns with
  | [] => some { Emit := false, Name := [], Struct := none, Typ := [], IsSlice := false,
                 NameSpace := [] }
  | [c] =>
    match columnName (some c) 0 with
    | none => none
    | some name =>
      some { Emit := false, Name := name, Struct := none, Typ := X.goType r (some c) settings,
             IsSlice := isSlice X (some c), NameSpace := X.Go_Package settings }
  | _ =>
    match buildQueries.find X r settings columns structs with
    | none => none
    | some (some gs) =>
      some { Emit := false, Name := "i".toList, Struct := some gs, Typ := [], IsSlice := false,
             NameSpace := X.Go_Package settings }
    | some none =>
      let cols : List (goColumn X.ColRest) :=
        (List.range columns.length).zipWith
          (fun i c => { id := (i : Int), Column := some c, IsSlice := isSlice X (some c) })
          columns
      match columnsToStruct X r (methodName ++ "Row".toList) cols settings with
      | none => none
      | some gs =>
        some { Emit := true, Name := "i".toList, Struct := some gs, Typ := [],
               IsSlice := false, NameSpace := X.Go_Package settings }

/-- Lines 158-246 of `buildQueries`: the query generated for a compiled
query with a name and a command; `none` is a panic. -/
def buildQueries.query (X : Externals) (r : compiler.Result X.ColRest X.Catalog)
    (settings : X.Settings) (structs : List Struct) (query : compiler.Query X.ColRest) :
    Option Query :=
  match buildQueries.arg X r settings query.Name query.Params with
  | none => none
  | some arg =>
    match buildQueries.ret X r settings structs query.Name query.Columns with
    | none => none
    | some ret =>
      some
        { Cmd := query.Cmd
          ConstantName := X.codegen_LowerTitle query.Name
          FieldName := X.codegen_LowerTitle query.Name ++ "Stmt".toList
          MethodName := query.Name
          SourceName := query.Filename
          SQL := query.SQL
          Comments := query.Comments
          Arg := arg
          Ret := ret }

/-- The loop of `buildQueries` over `r.Queries`, `qs` being the queries
appended so far; `none` is a panic. -/
def buildQueries.loop (X : Externals) (r : compiler.Result X.ColRest X.Catalog)
    (settings : X.Settings) (structs : List Struct) :
    List (compiler.Query X.ColRest) → List Query → Option (List Query)
  | [], qs => some qs
  | query :: queries, qs =>
    if query.Name == [] then buildQueries.loop X r settings structs queries qs
    else if query.Cmd == [] then buildQueries.loop X r settings structs queries qs
    else
      match buildQueries.query X r settings structs query with
      | none => none
      | some gq => buildQueries.loop X r settings structs queries (qs ++ [gq])

/-- `buildQueries`; `none` is a panic. -/
def buildQueries (X : Externals) (r : compiler.Result X.ColRest X.Catalog)
    (settings : X.Settings) (structs : List Struct) : Option (List Query) :=
  match buildQueries.loop X r settings structs r.Queries [] with
  | none => none
  | some qs => some (compiler.sortSlice (fun a b => GoString.less a.MethodName b.MethodName) qs)

/-- Lines 286-302 of `columnsToStruct`: the field appended for the column
`c`, given its name `colName` and the value of `suffix`. -/
def columnsToStruct.field (X : Externals) (r : compiler.Result X.ColRest X.Catalog)
    (settings : X.Settings) (c : goColumn X.ColRest) (colName : GoString) (suffix : Int) :
    Field :=
  let tagName := colName
  let fieldName := X.StructName colName settings
  let tagName :=
    if suffix > 0 then tagName ++ "_".toList ++ compiler.formatInt suffix else tagName
  let fieldName :=
    if suffix > 0 then fieldName ++ "_".toList ++ compiler.formatInt suffix else fieldName
  let tags : List (GoString × GoString) :=
    (if X.Go_EmitDBTags settings then [("db:".toList, tagName)] else []) ++
    (if X.Go_EmitJSONTags settings then [("json:".toList, tagName)] else [])
  { Name := fieldName, Type_ := X.goType r c.Column settings, Tags := tags,
    Comment := [], IsSlice := c.IsSlice }

/-- Lines 279-284 of `columnsToStruct`: the value of `suffix` for a column
whose id is not yet in `suffixes`, `v` being `seen[colName]`. -/
def columnsToStruct.fresh (v : Int) : Int :=
  if v > 0 then v + 1 else 0

/-- The names `columnName` gives to the columns of a list whose first
column is at position `i`; the empty name stands for a column whose `Column`
is nil. -/
def columnNames.from {C : Type} : Nat → List (goColumn C) → List GoString
  | _, [] => []
  | i, c :: cs => (columnName c.Column i).getD [] :: columnNames.from (i + 1) cs

/-- The names `columnName` gives to the columns of a list. -/
def columnNames {C : Type} (columns : List (goColumn C)) : List GoString :=
  columnNames.from 0 columns

/-- The name `s` for its `k`-th occurrence: `s` itself for the first, `s_k`
for the others. -/
def withSuffix (s : GoString) (k : Nat) : GoString :=
  if k ≤ 1 then s else s ++ "_".toList ++ Nat.toDigits 10 k

/-- The field the suffixing rule gives to the column `c` when `n` is its
name and it is the `k`-th column with that name. -/
def suffixedField (X : Externals) (r : compiler.Result X.ColRest X.Catalog)
    (settings : X.Settings) (c : goColumn X.ColRest) (n : GoString) (k : Nat) : Field :=
  { Name := withSuffix (X.StructName n settings) k
    Type_ := X.goType r c.Column settings
    Tags :=
      (if X.Go_EmitDBTags settings then [("db:".toList, withSuffix n k)] else []) ++
      (if X.Go_EmitJSONTags settings then [("json:".toList, withSuffix n k)] else [])
    Comment := []
    IsSlice := c.IsSlice }

/-- `formatType`: the type name without a leading `sql.`.  The test
`len(typ) > 4 && typ[:4] == "sql."` is on bytes; the four bytes of `sql.`
are four characters, and more than four bytes means one character more. -/
def formatType (typ : GoString) : GoString :=
  match typ with
  | 's' :: 'q' :: 'l' :: '.' :: c :: rest => c :: rest
  | _ => typ

/-- `QueryValue.ContainSlice`. -/
def QueryValue.ContainSlice (v : QueryValue) : Bool :=
  if (match v.Struct with
      | some s => s.Fields.any fun f => f.IsSlice
      | none => false) then true
  else if v.IsSlice then true
  else false

/-- `genFunctions`: three maps, each a list of keys and values in which a
key set later comes first. -/
structure genFunctions where
  functions : List (GoString × GoString)
  shouldGenFunctions : List (GoString × Bool)
  shouldGenFunctionsImport : List (GoString × Bool)
  deriving DecidableEq, Repr

/-- The state of the package variable `nameSpaceToGenFunctions`: the
`genFunctions` registered for each namespace, the entry set last first. -/
abbrev Registry := List (GoString × genFunctions)

/-- `getGenFunctionsByNs`: the `genFunctions` registered for the namespace,
or a new one with three empty maps, which is not registered yet. -/
def getGenFunctionsByNs (reg : Registry) (ns : GoString) : genFunctions :=
  match reg.lookup ns with
  | some genFunctionsInNS => genFunctionsInNS
  | none => { functions := [], shouldGenFunctions := [], shouldGenFunctionsImport := [] }

/-- The loop of lines 138-149 of `ShouldGenFunctions` over the fields of the
struct, on the value of `result` and the state of the registry. -/
def QueryValue.ShouldGenFunctions.fields (ns : GoString) :
    List Field → Bool × Registry → Bool × Registry
  | [], st => st
  | f :: fs, (result, reg) =>
    if f.IsSlice then
      let functionName := formatType f.Type_ ++ "Slice2interface".toList
      let genFunctionsByNs := getGenFunctionsByNs reg ns
      if (genFunctionsByNs.shouldGenFunctions.lookup functionName).isSome then
        QueryValue.ShouldGenFunctions.fields ns fs (result, reg)
      else
        let genFunctionsByNs :=
          { genFunctionsByNs with
            shouldGenFunctions := (functionName, true) :: genFunctionsByNs.shouldGenFunctions }
        QueryValue.ShouldGenFunctions.fields ns fs (true, (ns, genFunctionsByNs) :: reg)
    else QueryValue.ShouldGenFunctions.fields ns fs (result, reg)

/-- `QueryValue.ShouldGenFunctions`: the value returned and the state of the
registry after the call. -/
def QueryValue.ShouldGenFunctions (v : QueryValue) (reg : Registry) : Bool × Registry :=
  let result := false
  if v.ContainSlice then
    let (result, reg) :=
      match v.Struct with
      | some s => QueryValue.ShouldGenFunctions.fields v.NameSpace s.Fields (result, reg)
      | none => (result, reg)
    if v.IsSlice then
      let functionName := formatType v.Typ ++ "Slice2interface".toList
      let genFunctionsByNs := getGenFunctionsByNs reg v.NameSpace
      if (genFunctionsByNs.shouldGenFunctions.lookup functionName).isSome then
        (false, reg)
      else
        let genFunctionsByNs :=
          { genFunctionsByNs with
            shouldGenFunctions := (functionName, true) :: genFunctionsByNs.shouldGenFunctions }
        (true, (v.NameSpace, genFunctionsByNs) :: reg)
    else (result, reg)
  else (result, reg)

/-- The text `fmt.Sprintf(template, name, typ)` of `GenerateFunctions`. -/
def QueryValue.GenerateFunctions.template (name typ : GoString) : GoString :=
  "func ".toList ++
  name ++
  "Slice2interface(l []".toList ++
  typ ++
  ") []interface\x7b\x7d \x7b\n".toList ++
  "\t\t   v := make([]interface\x7b\x7d, len(l))\n".toList ++
  "\t\t   for i, val := range l \x7b\n\t\t\t   v[i] = val\n".toList ++
  "\t   \n\t\t   \x7d\n\t\t   return v\n\t   \x7d\n\n\t   ".toList

/-- The text `fmt.Sprintf(batchTemplate, name, typ, arg)` of `GenerateFunctions`. -/
def QueryValue.GenerateFunctions.batchTemplate (name typ arg : GoString) : GoString :=
  "\n\t\t//if len(IDs)>65536,mysql will return error\n".toList ++
  "\t\tfunc BatchRun".toList ++
  name ++
  "(batch int, IDs []".toList ++
  typ ++
  ", fn func([]".toList ++
  arg ++
  ") error) error \x7b\n".toList ++
  "\t\tfor i := 0; i <= len(IDs)/batch; i++ \x7b\n".toList ++
  "\t\t\tl := i * batch\n\t\t\tr := (i + 1) * batch\n".toList ++
  "\t\t\tif r > len(IDs) \x7b\n\t\t\t\tr = len(IDs)\n".toList ++
  "\t\t\t\x7d\n\t\t\tif r > l \x7b\n".toList ++
  "\t\t\t\tbatchIDs := IDs[l:r]\n".toList ++
  "\t\t\t\tif err := fn(batchIDs); err != nil \x7b\n".toList ++
  "\t\t\t\t\treturn err\n\t\t\t\t\x7d\n\t\t\t\x7d\n\t\t\x7d\n".toList ++
  "\t\treturn nil\n\t\x7d\n\t   ".toList

/-- The loop of lines 200-213 of `GenerateFunctions` over the fields of the
struct, on the value of `result` and the state of the registry. -/
def QueryValue.GenerateFunctions.fields (ns : GoString) :
    List Field → GoString × Registry → GoString × Registry
  | [], st => st
  | f :: fs, (result, reg) =>
    if f.IsSlice then
      let functionName := formatType f.Type_ ++ "Slice2interface".toList
      let genFunctionsByNs := getGenFunctionsByNs reg ns
      if (genFunctionsByNs.functions.lookup functionName).isSome then
        QueryValue.GenerateFunctions.fields ns fs (result, reg)
      else
        let result := result ++
          QueryValue.GenerateFunctions.template (formatType f.Type_) f.Type_
        let result := result ++
          QueryValue.GenerateFunctions.batchTemplate (formatType f.Type_) f.Type_ f.Type_
        let genFunctionsByNs :=
          { genFunctionsByNs with
            functions := (functionName, result) :: genFunctionsByNs.functions }
        QueryValue.GenerateFunctions.fields ns fs (result, (ns, genFunctionsByNs) :: reg)
    else QueryValue.GenerateFunctions.fields ns fs (result, reg)

/-- `QueryValue.GenerateFunctions`: the text returned and the state of the
registry after the call. -/
def QueryValue.GenerateFunctions (v : QueryValue) (reg : Registry) : GoString × Registry :=
  let result : GoString := []
  if v.ContainSlice then
    let (result, reg) :=
      match v.Struct with
      | some s => QueryValue.GenerateFunctions.fields v.NameSpace s.Fields (result, reg)
      | none => (result, reg)
    if v.IsSlice then
      let functionName := formatType v.Typ ++ "Slice2interface".toList
      let genFunctionsByNs := getGenFunctionsByNs reg v.NameSpace
      if (genFunctionsByNs.functions.lookup functionName).isSome then
        (result, reg)
      else
        let result := result ++
          QueryValue.GenerateFunctions.template (formatType v.Typ) v.Typ
        let result := result ++
          QueryValue.GenerateFunctions.batchTemplate (formatType v.Typ) v.Typ v.Typ
        let genFunctionsByNs :=
          { genFunctionsByNs with
            functions := (functionName, result) :: genFunctionsByNs.functions }
        (result, (v.NameSpace, genFunctionsByNs) :: reg)
    else (result, reg)
  else (result, reg)

/-- An instance for examples: `StructName` capitalises the ASCII letter that
starts each part between underscores and drops the underscores, every column
has the Go type `int32`, and JSON tags are emitted. -/
def demo : Externals where
  ColRest := Unit
  Catalog := Unit
  TableName := Unit
  Settings := Unit
  Column_IsSlice := fun _ => false
  Column_Table := fun _ => ()
  DefaultSchema := fun _ => "public".toList
  Go_Package := fun _ => "db".toList
  Go_EmitDBTags := fun _ => false
  Go_EmitJSONTags := fun _ => true
  StructName := fun name _ =>
    ((strings.Split name '_').map fun part =>
      match part with
      | [] => []
      | c :: cs => c.toUpper :: cs).flatten
  goType := fun _ _ _ => "int32".toList
  sameTableName := fun _ _ _ => true
  codegen_LowerTitle := fun name =>
    match name with
    | [] => []
    | c :: cs => c.toLower :: cs
  strings_ToLower := fun s => s.map Char.toLower
  strings_Title := fun s =>
    match s with
    | [] => []
    | c :: cs => c.toUpper :: cs

/-- Five compiled queries, in the order `Zeta`, a query without a name,
`Alpha` (with two parameters), a query without a command and `Beta`. -/
def demoResult : compiler.Result demo.ColRest demo.Catalog :=
  ⟨(), [{ Cmd := ":one".toList, Comments := [], Name := "Zeta".toList, Params := [],
          Columns := [], SQL := [], InsertValuesLen := 0, InsertValuesParameter := [],
          Omits := [] },
        { Cmd := ":one".toList, Comments := [], Name := [], Params := [],
          Columns := [], SQL := [], InsertValuesLen := 0, InsertValuesParameter := [],
          Omits := [] },
        { Cmd := ":many".toList, Comments := [], Name := "Alpha".toList,
          Params := [⟨1, some ⟨"id".toList, ()⟩⟩, ⟨2, some ⟨"name".toList, ()⟩⟩],
          Columns := [], SQL := [], InsertValuesLen := 0, InsertValuesParameter := [],
          Omits := [] },
        { Cmd := [], Comments := [], Name := "Mid".toList, Params := [],
          Columns := [], SQL := [], InsertValuesLen := 0, InsertValuesParameter := [],
          Omits := [] },
        { Cmd := ":exec".toList, Comments := [], Name := "Beta".toList, Params := [],
          Columns := [], SQL := [], InsertValuesLen := 0, InsertValuesParameter := [],
          Omits := [] }]⟩

/-- What `mysqlType` reads of a column and of the catalog besides what
`Externals` holds.  Each function is a parameter of the model. -/
structure MySQLExternals extends Externals where
  /-- The field `DataType` of a column. -/
  Column_DataType : ColRest → GoString
  /-- The field `NotNull` of a column. -/
  Column_NotNull : ColRest → Bool
  /-- The field `IsArray` of a column. -/
  Column_IsArray : ColRest → Bool
  /-- The field `Length` of a column, a pointer to an `int`; `none` is nil. -/
  Column_Length : ColRest → Option Int
  /-- The field `Schemas` of the catalog: the name of each schema and its
  types, a type being the name of the enum when it is a `*catalog.Enum` and
  `none` when it is not. -/
  Catalog_Schemas : Catalog → List (GoString × List (Option GoString))

/-- The cases of the `switch columnType` of `mysqlType` other than
`default`: the Go type of a built-in MySQL type, and `none` for a type name
that goes to the `default` case. -/
def mysqlType.cases (columnType : GoString) (length : Option Int) (notNull : Bool) :
    Option GoString :=
  if columnType ∈ ["varchar".toList, "text".toList, "char".toList, "tinytext".toList,
      "mediumtext".toList, "longtext".toList] then
    some (if notNull then "string".toList else "sql.NullString".toList)
  else if columnType = "tinyint".toList then
    if length != none && length == some 1 then
      some (if notNull then "bool".toList else "sql.NullBool".toList)
    else
      some (if notNull then "int32".toList else "sql.NullInt32".toList)
  else if columnType ∈ ["int".toList, "integer".toList, "smallint".toList, "mediumint".toList,
      "year".toList] then
    some (if notNull then "int32".toList else "sql.NullInt32".toList)
  else if columnType = "bigint".toList then
    some (if notNull then "int64".toList else "sql.NullInt64".toList)
  else if columnType ∈ ["blob".toList, "binary".toList, "varbinary".toList, "tinyblob".toList,
      "mediumblob".toList, "longblob".toList] then
    some "[]byte".toList
  else if columnType ∈ ["double".toList, "double precision".toList, "real".toList] then
    some (if notNull then "float64".toList else "sql.NullFloat64".toList)
  else if columnType ∈ ["decimal".toList, "dec".toList, "fixed".toList] then
    some (if notNull then "string".toList else "sql.NullString".toList)
  else if columnType = "enum".toList then
    some (if notNull then "string".toList else "sql.NullString".toList)
  else if columnType ∈ ["date".toList, "timestamp".toList, "datetime".toList,
      "time".toList] then
    some (if notNull then "time.Time".toList else "sql.NullTime".toList)
  else if columnType ∈ ["boolean".toList, "bool".toList] then
    some (if notNull then "bool".toList else "sql.NullBool".toList)
  else if columnType = "json".toList then
    some "json.RawMessage".toList
  else if columnType = "any".toList then
    some "interface\x7b\x7d".toList
  else none

/-- The inner loop of the `default` case of `mysqlType`, over the types of
one schema: the struct name of the first enum named `columnType`. -/
def mysqlType.types (X : MySQLExternals) (settings : X.Settings)
    (columnType schemaName defaultSchema : GoString) : List (Option GoString) → Option GoString
  | [] => none
  | none :: types => mysqlType.types X settings columnType schemaName defaultSchema types
  | some tName :: types =>
    if tName = columnType then
      if schemaName = defaultSchema then some (X.StructName tName settings)
      else some (X.StructName (schemaName ++ "_".toList ++ tName) settings)
    else mysqlType.types X settings columnType schemaName defaultSchema types

/-- The outer loop of the `default` case of `mysqlType`, over the schemas. -/
def mysqlType.schemas (X : MySQLExternals) (settings : X.Settings)
    (columnType defaultSchema : GoString) :
    List (GoString × List (Option GoString)) → Option GoString
  | [] => none
  | (schemaName, types) :: schemas =>
    match mysqlType.types X settings columnType schemaName defaultSchema types with
    | some t => some t
    | none => mysqlType.schemas X settings columnType defaultSchema schemas

/-- `mysqlType` (the log calls left out); `none` is the panic of reading
`col.DataType` through a nil pointer. -/
def mysqlType (X : MySQLExternals) (r : compiler.Result X.ColRest X.Catalog)
    (col : Option (compiler.Column X.ColRest)) (settings : X.Settings) : Option GoString :=
  match col with
  | none => none
  | some col =>
    let columnType := X.Column_DataType col.rest
    let notNull := X.Column_NotNull col.rest || X.Column_IsArray col.rest
    match mysqlType.cases columnType (X.Column_Length col.rest) notNull with
    | some t => some t
    | none =>
      match mysqlType.schemas X settings columnType (X.DefaultSchema r.Catalog)
          (X.Catalog_Schemas r.Catalog) with
      | some t => some t
      | none => some "interface\x7b\x7d".toList

/-- The type names that have a case of their own in `mysqlType`. -/
def mysqlType.builtin : List GoString :=
  ["varchar".toList, "text".toList, "char".toList, "tinytext".toList, "mediumtext".toList,
   "longtext".toList, "tinyint".toList, "int".toList, "integer".toList, "smallint".toList,
   "mediumint".toList, "year".toList, "bigint".toList, "blob".toList, "binary".toList,
   "varbinary".toList, "tinyblob".toList, "mediumblob".toList, "longblob".toList,
   "double".toList, "double precision".toList, "real".toList, "decimal".toList, "dec".toList,
   "fixed".toList, "enum".toList, "date".toList, "timestamp".toList, "datetime".toList,
   "time".toList, "boolean".toList, "bool".toList, "json".toList, "any".toList]

/-- The blob and binary type names. -/
def mysqlType.blobs : List GoString :=
  ["blob".toList, "binary".toList, "varbinary".toList, "tinyblob".toList, "mediumblob".toList,
   "longblob".toList]

/-- The type of package `database/sql` that holds a value of the Go type
`t` or NULL; `t` itself for a Go type without one. -/
def sqlNull (t : GoString) : GoString :=
  if t = "string".toList then "sql.NullString".toList
  else if t = "bool".toList then "sql.NullBool".toList
  else if t = "int32".toList then "sql.NullInt32".toList
  else if t = "int64".toList then "sql.NullInt64".toList
  else if t = "float64".toList then "sql.NullFloat64".toList
  else if t = "time.Time".toList then "sql.NullTime".toList
  else t

/-- An instance for examples, in which a column is its `DataType`,
`NotNull`, `IsArray` and `Length`, and the catalog has the one schema
`public` with the enum `mood`. -/
def demoMySQL : MySQLExternals where
  ColRest := GoString × Bool × Bool × Option Int
  Catalog := Unit
  TableName := Unit
  Settings := Unit
  Column_IsSlice := fun _ => false
  Column_Table := fun _ => ()
  DefaultSchema := fun _ => "public".toList
  Go_Package := fun _ => "db".toList
  Go_EmitDBTags := fun _ => false
  Go_EmitJSONTags := fun _ => true
  StructName := demo.StructName
  goType := fun _ _ _ => "int32".toList
  sameTableName := fun _ _ _ => true
  codegen_LowerTitle := demo.codegen_LowerTitle
  strings_ToLower := demo.strings_ToLower
  strings_Title := demo.strings_Title
  Column_DataType := fun c => c.1
  Column_NotNull := fun c => c.2.1
  Column_IsArray := fun c => c.2.2.1
  Column_Length := fun c => c.2.2.2
  Catalog_Schemas := fun _ => [("public".toList, [some "mood".toList])]

/-- The slice `s[lo:hi]` of a string, `lo` and `hi` being byte offsets at
which a character begins or the string ends: the characters that begin at an
offset from `lo` up to `hi`, `i` being the offset of the first character of
the rest. -/
def slice.from : Nat → GoString → Nat → Nat → GoString
  | _, [], _, _ => []
  | i, c :: cs, lo, hi =>
    if lo ≤ i ∧ i < hi then c :: slice.from (i + c.utf8Size) cs lo hi
    else slice.from (i + c.utf8Size) cs lo hi

/-- The slice `s[lo:hi]` of a string. -/
def slice (s : GoString) (lo hi : Nat) : GoString :=
  slice.from 0 s lo hi

/-- The character class of `IdentPattern`, which matches the characters that
are not in it: `[a-zA-Z0-9_]`. -/
def IdentPattern.class (c : Char) : Bool :=
  (0x61 ≤ c.toNat && c.toNat ≤ 0x7A) || (0x41 ≤ c.toNat && c.toNat ≤ 0x5A) ||
  (0x30 ≤ c.toNat && c.toNat ≤ 0x39) || c == '_'

/-- `IdentPattern.ReplaceAllString(src, "")`: every run of characters
outside the class is replaced by the empty string. -/
def IdentPattern.ReplaceAllString (src : GoString) : GoString :=
  src.filter IdentPattern.class

/-- The character class of `reHan`: U+4E00 to U+9FFF. -/
def reHan.class (c : Char) : Bool :=
  0x4E00 ≤ c.toNat && c.toNat ≤ 0x9FFF

/-- `reHan.Match`: whether the text has a character of the class. -/
def reHan.Match (b : GoString) : Bool :=
  b.any reHan.class

/-- The scan of `reHan.FindAllStringIndex` from the byte offset `i`, `start`
being the offset at which the run of class characters that is being read
began. -/
def reHan.FindAllStringIndex.scan : Nat → Option Nat → GoString → List (Nat × Nat)
  | _, none, [] => []
  | i, some s, [] => [(s, i)]
  | i, none, c :: cs =>
    if reHan.class c then reHan.FindAllStringIndex.scan (i + c.utf8Size) (some i) cs
    else reHan.FindAllStringIndex.scan (i + c.utf8Size) none cs
  | i, some s, c :: cs =>
    if reHan.class c then reHan.FindAllStringIndex.scan (i + c.utf8Size) (some s) cs
    else (s, i) :: reHan.FindAllStringIndex.scan (i + c.utf8Size) none cs

/-- `reHan.FindAllStringIndex(s, -1)`: the byte offsets of the begin and the
end of every maximal run of class characters, from left to right. -/
def reHan.FindAllStringIndex (s : GoString) : List (Nat × Nat) :=
  reHan.FindAllStringIndex.scan 0 none s

/-- The loop of lines 34-38 of `EnumReplace` over the matches, on the values
of `val1` and `last`; it returns `val1`. -/
def EnumReplace.loop (pinyin_LazyConvert : GoString → List GoString) (value : GoString) :
    List (Nat × Nat) → GoString → Nat → GoString
  | [], val1, _ => val1
  | m :: matches_, val1, last =>
    let results := pinyin_LazyConvert (slice value m.1 m.2)
    EnumReplace.loop pinyin_LazyConvert value matches_
      (val1 ++ slice value last m.1 ++ strings.Join results "_".toList) m.2

/-- `EnumReplace`.  The function `pinyin.LazyConvert(s, nil)` of the package
`go-pinyin` is a parameter. -/
def EnumReplace (pinyin_LazyConvert : GoString → List GoString) (value : GoString) :
    GoString :=
  let id := strings.Replace value '-' '_'
  let id := strings.Replace id ':' '_'
  let id := strings.Replace id '/' '_'
  let id :=
    if reHan.Match value then
      EnumReplace.loop pinyin_LazyConvert value (reHan.FindAllStringIndex value) [] 0
    else id
  IdentPattern.ReplaceAllString id

/-- `EnumValueName`.  The `unicode` tables that `strings.Title` reads are
parameters. -/
def EnumValueName (T : unicode.Tables) (toTitle : Char → Char) (value : GoString) : GoString :=
  let name : GoString := []
  let id := strings.Replace value '-' '_'
  let id := strings.Replace id ':' '_'
  let id := strings.Replace id '/' '_'
  let id := IdentPattern.ReplaceAllString id
  (strings.Split id '_').foldl (fun name part => name ++ strings.Title T toTitle part) name

/-- What `EnumReplace` makes of one character of a value without Han
characters: `_` of the characters `-`, `:` and `/`, the character itself
when it is of the class of `IdentPattern`, and nothing of the others. -/
def EnumReplace.render (c : Char) : GoString :=
  if c = '-' ∨ c = ':' ∨ c = '/' then ['_']
  else if IdentPattern.class c then [c]
  else []

/-- Whether `c` is an ASCII letter or digit. -/
def isAlnum (c : Char) : Bool :=
  (0x61 ≤ c.toNat && c.toNat ≤ 0x7A) || (0x41 ≤ c.toNat && c.toNat ≤ 0x5A) ||
  (0x30 ≤ c.toNat && c.toNat ≤ 0x39)

/-- A transliteration for examples: `zhong` for U+4E2D and `guo` for U+56FD,
one entry for each of these characters of the text. -/
def demoLazyConvert (s : GoString) : List GoString :=
  s.filterMap fun c =>
    if c.toNat = 0x4E2D then some "zhong".toList
    else if c.toNat = 0x56FD then some "guo".toList
    else none

end golang

/-! # Theorems -/

open metadata compiler

/-! ### Line selection -/

theorem strings.head?_of_HasPrefix {line : GoString} {c : Char} {p : GoString}
    (h : strings.HasPrefix line (c :: p) = true) : line.head? = some c := by
  cases line with
  | nil => simp [strings.HasPrefix, List.isPrefixOf] at h
  | cons a rest =>
    simp only [strings.HasPrefix, List.isPrefixOf, Bool.and_eq_true, beq_iff_eq] at h
    simp [h.1]

theorem strings.HasPrefix_of_append {line p q : GoString}
    (h : strings.HasPrefix line (p ++ q) = true) : strings.HasPrefix line p = true := by
  simp only [strings.HasPrefix, List.isPrefixOf_iff_prefix] at h ⊢
  exact (List.prefix_append p q).trans h

theorem metadata.Parse.selects_eq (line : GoString) (cs : CommentSyntax) :
    Parse.selects line cs = IsDirectiveLine cs line := by
  obtain ⟨d, h, s⟩ := cs
  have hA : strings.HasPrefix line "-- name:".toList = true →
      strings.HasPrefix line "--".toList = true :=
    fun h => strings.HasPrefix_of_append (p := "--".toList) (q := " name:".toList) h
  have hB : strings.HasPrefix line "/* name:".toList = true →
      strings.HasPrefix line "/*".toList = true :=
    fun h => strings.HasPrefix_of_append (p := "/*".toList) (q := " name:".toList) h
  have h1 : strings.HasPrefix line "--".toList = true → line.head? = some '-' :=
    fun h => strings.head?_of_HasPrefix (p := ['-']) h
  have h2 : strings.HasPrefix line "/*".toList = true → line.head? = some '/' :=
    fun h => strings.head?_of_HasPrefix (p := ['*']) h
  have h3 : strings.HasPrefix line "#".toList = true → line.head? = some '#' :=
    fun h => strings.head?_of_HasPrefix (p := []) h
  have h4 : strings.HasPrefix line "# name:".toList = true → line.head? = some '#' :=
    fun h => strings.head?_of_HasPrefix (p := " name:".toList) h
  have h5 : strings.HasPrefix line "# name:".toList = true →
      strings.HasPrefix line "#".toList = true :=
    fun h => strings.HasPrefix_of_append (p := "#".toList) (q := " name:".toList) h
  have n1 : ("-- name:".toList == []) = false := rfl
  have n2 : ("/* name:".toList == []) = false := rfl
  have n3 : ("# name:".toList == []) = false := rfl
  unfold Parse.selects IsDirectiveLine
  generalize strings.HasPrefix line "--".toList = A at *
  generalize strings.HasPrefix line "/*".toList = B at *
  generalize strings.HasPrefix line "#".toList = C at *
  generalize "-- name:".toList = P1 at *
  generalize "/* name:".toList = P2 at *
  generalize "# name:".toList = P3 at *
  generalize e1 : strings.HasPrefix line P1 = A' at *
  generalize e2 : strings.HasPrefix line P2 = B' at *
  generalize e3 : strings.HasPrefix line P3 = C' at *
  cases A <;> cases B <;> cases C <;> simp_all

/-! ### `strings` lemmas -/

theorem strings.Split_ne_nil (s : GoString) (sep : Char) : strings.Split s sep ≠ [] := by
  cases s with
  | nil => simp [strings.Split]
  | cons c cs =>
    unfold strings.Split
    split
    · simp
    · split <;> simp

theorem strings.Split_of_not_mem {s : GoString} {sep : Char} (h : sep ∉ s) :
    strings.Split s sep = [s] := by
  induction s with
  | nil => rfl
  | cons c cs ih =>
    have hc : c ≠ sep := fun e => h (by simp [e])
    have hcs : sep ∉ cs := fun e => h (List.mem_cons_of_mem _ e)
    rw [strings.Split, if_neg hc, ih hcs]

theorem strings.Split_append_sep {a : GoString} {sep : Char} (b : GoString) (h : sep ∉ a) :
    strings.Split (a ++ sep :: b) sep = a :: strings.Split b sep := by
  induction a with
  | nil => simp [strings.Split]
  | cons c cs ih =>
    have hc : c ≠ sep := fun e => h (by simp [e])
    have hcs : sep ∉ cs := fun e => h (List.mem_cons_of_mem _ e)
    rw [List.cons_append, strings.Split, if_neg hc, ih hcs]

theorem strings.Split_Join {ts : List GoString} {sep : Char} (hne : ts ≠ [])
    (hs : ∀ t ∈ ts, sep ∉ t) : strings.Split (strings.Join ts [sep]) sep = ts := by
  induction ts with
  | nil => exact absurd rfl hne
  | cons t rest ih =>
    cases rest with
    | nil => simpa [strings.Join] using strings.Split_of_not_mem (hs t (by simp))
    | cons u rest =>
      have h1 : sep ∉ t := hs t (by simp)
      have h2 := ih (by simp) (fun x hx => hs x (List.mem_cons_of_mem _ hx))
      rw [strings.Join, List.append_assoc, List.singleton_append,
        strings.Split_append_sep _ h1, h2]
      simp

theorem strings.TrimSpace_eq_self {s : GoString}
    (h1 : ∀ c, s.head? = some c → unicode.IsSpace c = false)
    (h2 : ∀ c, s.getLast? = some c → unicode.IsSpace c = false) :
    strings.TrimSpace s = s := by
  have d1 : ∀ l : GoString, (∀ c, l.head? = some c → unicode.IsSpace c = false) →
      l.dropWhile unicode.IsSpace = l := by
    intro l hl
    cases l with
    | nil => rfl
    | cons a r => simp [List.dropWhile, hl a rfl]
  unfold strings.TrimSpace
  rw [d1 s h1, d1 s.reverse (by simpa using h2), List.reverse_reverse]

/-! ### `validateQueryName` -/

theorem metadata.validateQueryName.loop_of_pos (T : unicode.Tables) (name : GoString) :
    ∀ (cs : GoString) (i : Nat), 0 < i →
      validateQueryName.loop T name i cs =
        if cs.all (isIdentPart T) then none else some (Error.invalidQueryName name) := by
  intro cs
  induction cs with
  | nil => intro i _; rfl
  | cons c cs ih =>
    intro i hi
    have hi0 : (i == 0) = false := by simpa using Nat.pos_iff_ne_zero.mp hi
    rw [validateQueryName.loop]
    simp only [hi0, Bool.false_and, Bool.false_eq_true, if_false]
    rw [ih (i + c.utf8Size) (by omega)]
    by_cases hl : unicode.IsLetter T c = true <;> by_cases hd : unicode.IsDigit T c = true <;>
      by_cases hu : c = '_' <;> simp [isIdentPart, hl, hd, hu]

theorem metadata.validateQueryName_eq (T : unicode.Tables) (name : GoString) :
    validateQueryName T name =
      match name with
      | [] => some (Error.invalidQueryNameEmpty [])
      | c :: cs => if IsIdentifier T (c :: cs) then none
                   else some (Error.invalidQueryName (c :: cs)) := by
  cases name with
  | nil => rfl
  | cons c cs =>
    have hpos : 0 < 0 + c.utf8Size := by have := Char.utf8Size_pos c; omega
    simp only [validateQueryName, List.length_cons, Nat.add_one_ne_zero, beq_iff_eq,
      if_false, validateQueryName.loop]
    rw [validateQueryName.loop_of_pos T (c :: cs) cs _ hpos]
    by_cases hl : unicode.IsLetter T c = true <;> by_cases hd : unicode.IsDigit T c = true <;>
      by_cases hu : c = '_' <;> simp [IsIdentifier, isIdentStart, hl, hd, hu]

theorem metadata.validateQueryName_eq_none_iff (T : unicode.Tables) (name : GoString) :
    validateQueryName T name = none ↔ IsIdentifier T name = true := by
  rw [validateQueryName_eq]
  cases name with
  | nil => simp [IsIdentifier]
  | cons c cs => by_cases h : IsIdentifier T (c :: cs) = true <;> simp [h]

theorem metadata.validateQueryName_isInvalidIdentifier (T : unicode.Tables) (name : GoString)
    (e : Error) (h : validateQueryName T name = some e) : e.isInvalidIdentifier = true := by
  rw [validateQueryName_eq] at h
  cases name with
  | nil => simp only [Option.some.injEq] at h; subst h; rfl
  | cons c cs =>
    by_cases hi : IsIdentifier T (c :: cs) = true
    · simp [hi] at h
    · simp only [hi, Bool.false_eq_true, if_false, Option.some.injEq] at h; subst h; rfl

/-! ### `Parse` -/

theorem metadata.Parse.loop_skip (T : unicode.Tables) (cs : CommentSyntax)
    (pre rest : List GoString) (h : ∀ l ∈ pre, IsDirectiveLine cs l = false) :
    Parse.loop T cs (pre ++ rest) = Parse.loop T cs rest := by
  induction pre with
  | nil => rfl
  | cons l pre ih =>
    have hl : IsDirectiveLine cs l = false := h l (by simp)
    rw [List.cons_append, Parse.loop]
    simp only [Parse.body, Parse.selects_eq, hl, Bool.false_eq_true, if_false]
    exact ih (fun x hx => h x (List.mem_cons_of_mem _ hx))

theorem metadata.Parse.loop_first (T : unicode.Tables) (cs : CommentSyntax)
    (pre : List GoString) (line : GoString) (post : List GoString)
    (hpre : ∀ l ∈ pre, IsDirectiveLine cs l = false) (hline : IsDirectiveLine cs line = true) :
    Parse.loop T cs (pre ++ line :: post) = Parse.directive T line (Parse.parts line) := by
  rw [Parse.loop_skip T cs pre _ hpre, Parse.loop]
  simp only [Parse.body, Parse.selects_eq, hline, if_true]
theorem metadata.Commands_chars :
    ∀ C ∈ Commands, C ≠ [] ∧ strings.TrimSpace C = C ∧
      ∀ c ∈ C, unicode.IsSpace c = false ∧ c ≠ ' ' ∧ c ≠ '\n' := by
  decide

theorem metadata.Commands_check {C : GoString} (hC : C ∈ Commands) :
    (C == CmdOne || C == CmdMany || C == CmdExec || C == CmdExecResult || C == CmdExecRows)
      = true := by
  simp only [Commands, List.mem_cons, List.mem_singleton, List.not_mem_nil, or_false] at hC
  simp only [Bool.or_eq_true, beq_iff_eq]
  tauto

theorem metadata.Commands_of_check {C : GoString}
    (h : (C == CmdOne || C == CmdMany || C == CmdExec || C == CmdExecResult || C == CmdExecRows)
      = true) : C ∈ Commands := by
  simp only [Bool.or_eq_true, beq_iff_eq] at h
  simp only [Commands, List.mem_cons, List.mem_singleton, List.not_mem_nil, or_false]
  tauto

theorem metadata.isIdentPart_of_IsIdentifier {T : unicode.Tables} {N : GoString}
    (hN : IsIdentifier T N = true) : N ≠ [] ∧ ∀ c ∈ N, isIdentPart T c = true := by
  cases N with
  | nil => simp [IsIdentifier] at hN
  | cons c cs =>
    simp only [IsIdentifier, Bool.and_eq_true, List.all_eq_true] at hN
    refine ⟨by simp, ?_⟩
    intro d hd
    rcases List.mem_cons.mp hd with rfl | hd
    · have := hN.1
      simp only [isIdentStart, Bool.or_eq_true] at this
      simp only [isIdentPart, Bool.or_eq_true]
      tauto
    · exact hN.2 d hd

theorem metadata.isIdentPart_not_sep {T : unicode.Tables} {c : Char}
    (h : isIdentPart T c = true) : c ≠ ' ' ∧ c ≠ '\n' := by
  constructor <;> rintro rfl <;>
    simp [isIdentPart, unicode.IsLetter, unicode.IsDigit, unicode.latin1Letter] at h

theorem metadata.directive_four (T : unicode.Tables) (line a b N C : GoString)
    (hN : IsIdentifier T N = true) (hC : C ∈ Commands) :
    Parse.directive T line [a, b, N, C] = (N, C, [], none) := by
  have h1 := (Commands_chars C hC).2.1
  have h2 := Commands_check hC
  have h3 := (validateQueryName_eq_none_iff T N).mpr hN
  simp [Parse.directive, List.getD, h1, h2, h3]

theorem metadata.Parse_of_first_line (T : unicode.Tables) (cs : CommentSyntax)
    (line : GoString) (hnl : '\n' ∉ line) (hline : IsDirectiveLine cs line = true) :
    Parse T line cs = Parse.directive T line (Parse.parts line) ∧
    ∀ R, Parse T (line ++ '\n' :: R) cs = Parse.directive T line (Parse.parts line) := by
  constructor
  · rw [Parse, strings.Split_of_not_mem hnl]
    exact Parse.loop_first T cs [] line [] (by simp) hline
  · intro R
    rw [Parse, strings.Split_append_sep R hnl]
    exact Parse.loop_first T cs [] line _ (by simp) hline

theorem strings.not_mem_Join {c : Char} {sep : GoString} (hsep : c ∉ sep) :
    ∀ ts : List GoString, (∀ t ∈ ts, c ∉ t) → c ∉ strings.Join ts sep
  | [], _ => by simp [strings.Join]
  | [t], h => by simpa [strings.Join] using h t (by simp)
  | t :: u :: rest, h => by
    have ih := strings.not_mem_Join hsep (u :: rest) (fun x hx => h x (List.mem_cons_of_mem _ hx))
    rw [strings.Join]
    · simp only [List.mem_append, not_or]
      exact ⟨⟨h t (by simp), hsep⟩, ih⟩
    · simp

theorem metadata.tokens_line (ts : List GoString) (hne : ts ≠ [])
    (hts : ∀ t ∈ ts, ' ' ∉ t ∧ '\n' ∉ t)
    (hhead : ∀ c, (strings.Join ts [' ']).head? = some c → unicode.IsSpace c = false)
    (hlast : ∀ c, (strings.Join ts [' ']).getLast? = some c → unicode.IsSpace c = false) :
    '\n' ∉ strings.Join ts [' '] ∧
    strings.Split (strings.TrimSpace (strings.Join ts [' '])) ' ' = ts := by
  constructor
  · exact strings.not_mem_Join (by decide) ts (fun t ht => (hts t ht).2)
  · rw [strings.TrimSpace_eq_self hhead hlast]
    exact strings.Split_Join hne (fun t ht => (hts t ht).1)

theorem metadata.wellformed_tokens (T : unicode.Tables) {N C : GoString}
    (hN : IsIdentifier T N = true) (hC : C ∈ Commands) :
    (' ' ∉ N ∧ '\n' ∉ N) ∧ (' ' ∉ C ∧ '\n' ∉ C) ∧
    (∀ (X : GoString) (c : Char), (X ++ C).getLast? = some c → unicode.IsSpace c = false) := by
  have hNc := (isIdentPart_of_IsIdentifier hN).2
  have hCc := Commands_chars C hC
  refine ⟨⟨fun h => (isIdentPart_not_sep (hNc _ h)).1 rfl,
    fun h => (isIdentPart_not_sep (hNc _ h)).2 rfl⟩,
    ⟨fun h => (hCc.2.2 _ h).2.1 rfl, fun h => (hCc.2.2 _ h).2.2 rfl⟩, ?_⟩
  intro X c hc
  rw [List.getLast?_append_of_ne_nil _ hCc.1] at hc
  exact (hCc.2.2 c (List.mem_of_getLast?_eq_some hc)).1

/-- C1: a well-formed 4-token directive round-trips.  For a valid identifier
`N`, a command `C` of the fixed set and any following text `R`, `Parse`
returns `(N, C, nil, nil)` for `-- name: N C` when `Dash` is enabled, for
`# name: N C` when `Hash` is enabled and for `/* name: N C */` when
`SlashStar` is enabled, with or without a newline and `R` after the line. -/
theorem metadata.Parse_wellformed_directive (T : unicode.Tables) (commentStyle : CommentSyntax)
    (N C R : GoString) (hN : IsIdentifier T N = true) (hC : C ∈ Commands) :
    (commentStyle.Dash = true →
      Parse T ("-- name: ".toList ++ N ++ " ".toList ++ C) commentStyle = (N, C, [], none) ∧
      Parse T ("-- name: ".toList ++ N ++ " ".toList ++ C ++ "\n".toList ++ R) commentStyle
        = (N, C, [], none)) ∧
    (commentStyle.Hash = true →
      Parse T ("# name: ".toList ++ N ++ " ".toList ++ C) commentStyle = (N, C, [], none) ∧
      Parse T ("# name: ".toList ++ N ++ " ".toList ++ C ++ "\n".toList ++ R) commentStyle
        = (N, C, [], none)) ∧
    (commentStyle.SlashStar = true →
      Parse T ("/* name: ".toList ++ N ++ " ".toList ++ C ++ " */".toList) commentStyle
        = (N, C, [], none) ∧
      Parse T ("/* name: ".toList ++ N ++ " ".toList ++ C ++ " */".toList ++ "\n".toList ++ R)
        commentStyle = (N, C, [], none)) := by
  obtain ⟨hNs, hCs, hlast⟩ := wellformed_tokens T hN hC
  refine ⟨fun hd => ?_, fun hh => ?_, fun hs => ?_⟩
  · have e : "-- name: ".toList ++ N ++ " ".toList ++ C
        = strings.Join ["--".toList, "name:".toList, N, C] [' '] := by simp [strings.Join]
    obtain ⟨hnl, hsplit⟩ := tokens_line ["--".toList, "name:".toList, N, C] (by simp)
      (by
        intro t ht
        simp only [List.mem_cons, List.mem_singleton, List.not_mem_nil, or_false] at ht
        rcases ht with rfl | rfl | rfl | rfl
        · decide
        · decide
        · exact hNs
        · exact hCs)
      (by rw [← e]; intro c hc; simp at hc; subst hc; decide)
      (by rw [← e]; intro c hc; exact hlast _ c hc)
    rw [← e] at hnl hsplit
    have hdir : IsDirectiveLine commentStyle ("-- name: ".toList ++ N ++ " ".toList ++ C) = true := by
      simp [IsDirectiveLine, hd, strings.HasPrefix, List.isPrefixOf]
    have hparts : Parse.parts ("-- name: ".toList ++ N ++ " ".toList ++ C)
        = ["--".toList, "name:".toList, N, C] := by
      rw [Parse.parts, hsplit]
      simp [strings.HasPrefix, List.isPrefixOf]
    obtain ⟨h1, h2⟩ := Parse_of_first_line T commentStyle _ hnl hdir
    have h2R := h2 R
    rw [hparts, directive_four T _ _ _ N C hN hC] at h1 h2R
    exact ⟨h1, by simpa using h2R⟩
  · have e : "# name: ".toList ++ N ++ " ".toList ++ C
        = strings.Join ["#".toList, "name:".toList, N, C] [' '] := by simp [strings.Join]
    obtain ⟨hnl, hsplit⟩ := tokens_line ["#".toList, "name:".toList, N, C] (by simp)
      (by
        intro t ht
        simp only [List.mem_cons, List.mem_singleton, List.not_mem_nil, or_false] at ht
        rcases ht with rfl | rfl | rfl | rfl
        · decide
        · decide
        · exact hNs
        · exact hCs)
      (by rw [← e]; intro c hc; simp at hc; subst hc; decide)
      (by rw [← e]; intro c hc; exact hlast _ c hc)
    rw [← e] at hnl hsplit
    have hdir : IsDirectiveLine commentStyle ("# name: ".toList ++ N ++ " ".toList ++ C) = true := by
      simp [IsDirectiveLine, hh, strings.HasPrefix, List.isPrefixOf]
    have hparts : Parse.parts ("# name: ".toList ++ N ++ " ".toList ++ C)
        = ["#".toList, "name:".toList, N, C] := by
      rw [Parse.parts, hsplit]
      simp [strings.HasPrefix, List.isPrefixOf]
    obtain ⟨h1, h2⟩ := Parse_of_first_line T commentStyle _ hnl hdir
    have h2R := h2 R
    rw [hparts, directive_four T _ _ _ N C hN hC] at h1 h2R
    exact ⟨h1, by simpa using h2R⟩
  · have e : "/* name: ".toList ++ N ++ " ".toList ++ C ++ " */".toList
        = strings.Join ["/*".toList, "name:".toList, N, C, "*/".toList] [' '] := by
      simp [strings.Join]
    obtain ⟨hnl, hsplit⟩ := tokens_line ["/*".toList, "name:".toList, N, C, "*/".toList]
      (by simp)
      (by
        intro t ht
        simp only [List.mem_cons, List.mem_singleton, List.not_mem_nil, or_false] at ht
        rcases ht with rfl | rfl | rfl | rfl | rfl
        · decide
        · decide
        · exact hNs
        · exact hCs
        · decide)
      (by rw [← e]; intro c hc; simp at hc; subst hc; decide)
      (by
        rw [← e, List.getLast?_append_of_ne_nil _ (by decide)]
        intro c hc
        have hc2 : c = '/' := by simpa using hc.symm
        subst hc2; decide)
    rw [← e] at hnl hsplit
    have hdir : IsDirectiveLine commentStyle
        ("/* name: ".toList ++ N ++ " ".toList ++ C ++ " */".toList) = true := by
      simp [IsDirectiveLine, hs, strings.HasPrefix, List.isPrefixOf]
    have hparts : Parse.parts ("/* name: ".toList ++ N ++ " ".toList ++ C ++ " */".toList)
        = ["/*".toList, "name:".toList, N, C] := by
      rw [Parse.parts, hsplit]
      simp [strings.HasPrefix, List.isPrefixOf]
    obtain ⟨h1, h2⟩ := Parse_of_first_line T commentStyle _ hnl hdir
    have h2R := h2 R
    rw [hparts, directive_four T _ _ _ N C hN hC] at h1 h2R
    exact ⟨h1, by simpa using h2R⟩

/-- C1 at `GetUser` and `:one` in the three comment styles, each enabled
alone, with and without a statement on the next line. -/
theorem metadata.Parse_wellformed_directive_witness :
    (Parse unicode.latin1Only "-- name: GetUser :one".toList ⟨true, false, false⟩
        = ("GetUser".toList, ":one".toList, [], none) ∧
      Parse unicode.latin1Only "-- name: GetUser :one\nSELECT 1;".toList ⟨true, false, false⟩
        = ("GetUser".toList, ":one".toList, [], none)) ∧
    (Parse unicode.latin1Only "# name: GetUser :one".toList ⟨false, true, false⟩
        = ("GetUser".toList, ":one".toList, [], none) ∧
      Parse unicode.latin1Only "# name: GetUser :one\nSELECT 1;".toList ⟨false, true, false⟩
        = ("GetUser".toList, ":one".toList, [], none)) ∧
    (Parse unicode.latin1Only "/* name: GetUser :one */".toList ⟨false, false, true⟩
        = ("GetUser".toList, ":one".toList, [], none) ∧
      Parse unicode.latin1Only "/* name: GetUser :one */\nSELECT 1;".toList
        ⟨false, false, true⟩ = ("GetUser".toList, ":one".toList, [], none)) :=
  ⟨(Parse_wellformed_directive unicode.latin1Only ⟨true, false, false⟩ "GetUser".toList
      ":one".toList "SELECT 1;".toList (by decide) (by decide)).1 rfl,
   (Parse_wellformed_directive unicode.latin1Only ⟨false, true, false⟩ "GetUser".toList
      ":one".toList "SELECT 1;".toList (by decide) (by decide)).2.1 rfl,
   (Parse_wellformed_directive unicode.latin1Only ⟨false, false, true⟩ "GetUser".toList
      ":one".toList "SELECT 1;".toList (by decide) (by decide)).2.2 rfl⟩

/-- C2: a text none of whose lines starts with `-- name:` while `Dash` is
enabled, with `# name:` while `Hash` is enabled or with `/* name:` while
`SlashStar` is enabled has no directive: `Parse` returns `("", "", nil, nil)`.
With the three styles disabled this is so for every text. -/
theorem metadata.Parse_no_directive (T : unicode.Tables) :
    (∀ (t : GoString) (commentStyle : CommentSyntax),
      (∀ line ∈ strings.Split t '\n',
        ¬(commentStyle.Dash = true ∧ strings.HasPrefix line "-- name:".toList = true) ∧
        ¬(commentStyle.Hash = true ∧ strings.HasPrefix line "# name:".toList = true) ∧
        ¬(commentStyle.SlashStar = true ∧ strings.HasPrefix line "/* name:".toList = true)) →
      Parse T t commentStyle = ([], [], [], none)) ∧
    (∀ t : GoString, Parse T t ⟨false, false, false⟩ = ([], [], [], none)) := by
  have key : ∀ (t : GoString) (cs : CommentSyntax),
      (∀ line ∈ strings.Split t '\n', IsDirectiveLine cs line = false) →
      Parse T t cs = ([], [], [], none) := by
    intro t cs h
    have := Parse.loop_skip T cs (strings.Split t '\n') [] h
    rw [List.append_nil] at this
    rw [Parse, this, Parse.loop]
  constructor
  · intro t cs h
    apply key
    intro line hl
    obtain ⟨h1, h2, h3⟩ := h line hl
    simp only [IsDirectiveLine, Bool.or_eq_false_iff, Bool.and_eq_false_iff]
    simp only [not_and, Bool.not_eq_true] at h1 h2 h3
    refine ⟨⟨?_, ?_⟩, ?_⟩
    · cases hd : cs.Dash
      · exact Or.inl rfl
      · exact Or.inr (h1 hd)
    · cases hd : cs.Hash
      · exact Or.inl rfl
      · exact Or.inr (h2 hd)
    · cases hd : cs.SlashStar
      · exact Or.inl rfl
      · exact Or.inr (h3 hd)
  · intro t
    apply key
    intro line _
    simp [IsDirectiveLine]

/-- C2 on a statement whose directive is written in the disabled block
style, and on the same text with every style disabled. -/
theorem metadata.Parse_no_directive_witness :
    Parse unicode.latin1Only "/* name: GetUser :one */\nSELECT 1;".toList ⟨true, true, false⟩
        = ([], [], [], none) ∧
    Parse unicode.latin1Only "/* name: GetUser :one */\nSELECT 1;".toList ⟨false, false, false⟩
        = ([], [], [], none) :=
  ⟨(Parse_no_directive unicode.latin1Only).1 "/* name: GetUser :one */\nSELECT 1;".toList
      ⟨true, true, false⟩ (by decide),
   (Parse_no_directive unicode.latin1Only).2 "/* name: GetUser :one */\nSELECT 1;".toList⟩

/-- C3: when the first line of the text that begins with an enabled
directive prefix has a number of tokens (`Parse.parts`: the trimmed line split
on single spaces, the last token dropped for a block comment) that is
neither 4 nor 6, `Parse` returns no name, command or omits and fails with
"missing query type" when there are exactly 2 tokens and with "invalid
query comment" otherwise. -/
theorem metadata.Parse_invalid_directive (T : unicode.Tables) (t : GoString)
    (commentStyle : CommentSyntax) (pre : List GoString) (line : GoString)
    (post : List GoString)
    (hsplit : strings.Split t '\n' = pre ++ line :: post)
    (hpre : ∀ l ∈ pre, IsDirectiveLine commentStyle l = false)
    (hline : IsDirectiveLine commentStyle line = true)
    (h4 : (Parse.parts line).length ≠ 4) (h6 : (Parse.parts line).length ≠ 6) :
    Parse T t commentStyle =
      ([], [], [], some (if (Parse.parts line).length = 2 then Error.missingQueryType line
                         else Error.invalidQueryComment line)) ∧
    ∃ e, (Parse T t commentStyle).2.2.2 = some e ∧ e.isInvalidDirective = true := by
  have h : Parse T t commentStyle =
      ([], [], [], some (if (Parse.parts line).length = 2 then Error.missingQueryType line
                         else Error.invalidQueryComment line)) := by
    rw [Parse, hsplit, Parse.loop_first T commentStyle pre line post hpre hline, Parse.directive]
    by_cases h2 : (Parse.parts line).length = 2
    · simp [h2]
    · simp [h2, h4, h6]
  refine ⟨h, ?_⟩
  rw [h]
  by_cases h2 : (Parse.parts line).length = 2
  · exact ⟨Error.missingQueryType line, by simp only [h2, if_true], rfl⟩
  · exact ⟨Error.invalidQueryComment line, by simp only [h2, if_false], rfl⟩

/-- C3 at the 5-token directive `-- name: Bad :one :two` and at the 2-token
directive `-- name:`. -/
theorem metadata.Parse_invalid_directive_witness :
    (Parse unicode.latin1Only "-- name: Bad :one :two".toList ⟨true, false, false⟩ =
      ([], [], [], some (Error.invalidQueryComment "-- name: Bad :one :two".toList))) ∧
    (Parse unicode.latin1Only "SELECT 1;\n-- name:\nSELECT 2;".toList ⟨true, false, false⟩ =
      ([], [], [], some (Error.missingQueryType "-- name:".toList))) :=
  ⟨(Parse_invalid_directive unicode.latin1Only "-- name: Bad :one :two".toList
      ⟨true, false, false⟩ [] "-- name: Bad :one :two".toList [] (by decide) (by decide)
      (by decide) (by decide) (by decide)).1,
   (Parse_invalid_directive unicode.latin1Only "SELECT 1;\n-- name:\nSELECT 2;".toList
      ⟨true, false, false⟩ ["SELECT 1;".toList] "-- name:".toList ["SELECT 2;".toList]
      (by decide) (by decide) (by decide) (by decide) (by decide)).1⟩

theorem metadata.Parse.directive_of_length (T : unicode.Tables) (line : GoString)
    (part : List GoString) (hlen : part.length = 4 ∨ part.length = 6) :
    Parse.directive T line part =
      if strings.TrimSpace (part.getD 3 []) ∈ Commands then
        match validateQueryName T (part.getD 2 []) with
        | some err => ([], [], [], some err)
        | none => (part.getD 2 [], strings.TrimSpace (part.getD 3 []),
            (if part.length = 6 then parseOmits (part.getD 5 []) else []), none)
      else ([], [], [], some (Error.invalidQueryType (strings.TrimSpace (part.getD 3 [])))) := by
  by_cases hcmd : strings.TrimSpace (part.getD 3 []) ∈ Commands
  · have hc := Commands_check hcmd
    rw [if_pos hcmd, Parse.directive]
    rcases hlen with h | h <;> rw [h] <;>
      simp only [Nat.reduceBEq, Nat.reduceBNe, Nat.reduceEqDiff, bne_self_eq_false,
        beq_self_eq_true, Bool.false_and, Bool.and_false, Bool.false_eq_true, if_false, if_true,
        hc, Bool.not_true]
  · have hc : (strings.TrimSpace (part.getD 3 []) == CmdOne ||
        strings.TrimSpace (part.getD 3 []) == CmdMany ||
        strings.TrimSpace (part.getD 3 []) == CmdExec ||
        strings.TrimSpace (part.getD 3 []) == CmdExecResult ||
        strings.TrimSpace (part.getD 3 []) == CmdExecRows) = false := by
      rw [Bool.eq_false_iff]
      exact fun h => hcmd (Commands_of_check h)
    rw [if_neg hcmd, Parse.directive]
    rcases hlen with h | h <;> rw [h] <;>
      simp only [Nat.reduceBEq, Nat.reduceBNe, Nat.reduceEqDiff, bne_self_eq_false,
        beq_self_eq_true, Bool.false_and, Bool.and_false, Bool.false_eq_true, if_false, if_true,
        hc, Bool.not_false]

/-- C4 as stated fails: in `-- name: N \t:one` the 4th token is a tab
followed by `:one`, which is not a command keyword, yet `Parse` succeeds and
returns the command `:one`; the command token is trimmed before it is
compared. -/
theorem metadata.Parse_command_token_counterexample :
    IsDirectiveLine ⟨true, false, false⟩ "-- name: N \t:one".toList = true ∧
    (Parse.parts "-- name: N \t:one".toList).length = 4 ∧
    (Parse.parts "-- name: N \t:one".toList).getD 3 [] = "\t:one".toList ∧
    "\t:one".toList ∉ Commands ∧
    Parse unicode.latin1Only "-- name: N \t:one".toList ⟨true, false, false⟩
      = ("N".toList, ":one".toList, [], none) := by
  decide

/-- C4, amended: when the first directive line of the text has 4 or 6 tokens
and its 4th token, with surrounding white space trimmed, is not one of
`:exec`, `:execresult`, `:execrows`, `:many`, `:one`, `Parse` fails with
"invalid query type" naming the trimmed token, whatever the name token is,
and returns no name, command or omits. -/
theorem metadata.Parse_invalid_command (T : unicode.Tables) (t : GoString)
    (commentStyle : CommentSyntax) (pre : List GoString) (line : GoString)
    (post : List GoString)
    (hsplit : strings.Split t '\n' = pre ++ line :: post)
    (hpre : ∀ l ∈ pre, IsDirectiveLine commentStyle l = false)
    (hline : IsDirectiveLine commentStyle line = true)
    (hlen : (Parse.parts line).length = 4 ∨ (Parse.parts line).length = 6)
    (hcmd : strings.TrimSpace ((Parse.parts line).getD 3 []) ∉ Commands) :
    Parse T t commentStyle =
      ([], [], [],
        some (Error.invalidQueryType (strings.TrimSpace ((Parse.parts line).getD 3 [])))) := by
  rw [Parse, hsplit, Parse.loop_first T commentStyle pre line post hpre hline,
    Parse.directive_of_length T line _ hlen, if_neg hcmd]

/-- C4 (amended) at `-- name: GetUser :select`. -/
theorem metadata.Parse_invalid_command_witness :
    Parse unicode.latin1Only "-- name: GetUser :select".toList ⟨true, false, false⟩ =
      ([], [], [], some (Error.invalidQueryType ":select".toList)) :=
  Parse_invalid_command unicode.latin1Only "-- name: GetUser :select".toList
    ⟨true, false, false⟩ [] "-- name: GetUser :select".toList [] (by decide) (by decide)
    (by decide) (by decide) (by decide)

/-- C5: when the first directive line of the text has 4 or 6 tokens and a
valid command, `Parse` fails with an "invalid query name" error exactly when
the name token (the 3rd token) is empty, or its first character is neither a
letter nor an underscore, or a later character is not a letter, a digit or an
underscore; otherwise it succeeds and the name it returns is that token. -/
theorem metadata.Parse_invalid_identifier_iff (T : unicode.Tables) (t : GoString)
    (commentStyle : CommentSyntax) (pre : List GoString) (line : GoString)
    (post : List GoString)
    (hsplit : strings.Split t '\n' = pre ++ line :: post)
    (hpre : ∀ l ∈ pre, IsDirectiveLine commentStyle l = false)
    (hline : IsDirectiveLine commentStyle line = true)
    (hlen : (Parse.parts line).length = 4 ∨ (Parse.parts line).length = 6)
    (hcmd : strings.TrimSpace ((Parse.parts line).getD 3 []) ∈ Commands) :
    ((∃ e, Parse T t commentStyle = ([], [], [], some e) ∧ e.isInvalidIdentifier = true) ↔
      ((Parse.parts line).getD 2 [] = [] ∨
        ∃ c rest, (Parse.parts line).getD 2 [] = c :: rest ∧
          ((unicode.IsLetter T c = false ∧ c ≠ '_') ∨
            ∃ d ∈ rest, unicode.IsLetter T d = false ∧ unicode.IsDigit T d = false ∧ d ≠ '_'))) ∧
    (¬((Parse.parts line).getD 2 [] = [] ∨
        ∃ c rest, (Parse.parts line).getD 2 [] = c :: rest ∧
          ((unicode.IsLetter T c = false ∧ c ≠ '_') ∨
            ∃ d ∈ rest, unicode.IsLetter T d = false ∧ unicode.IsDigit T d = false ∧ d ≠ '_')) →
      (Parse T t commentStyle).1 = (Parse.parts line).getD 2 [] ∧
      (Parse T t commentStyle).2.1 = strings.TrimSpace ((Parse.parts line).getD 3 []) ∧
      (Parse T t commentStyle).2.2.2 = none) := by
  have hP : Parse T t commentStyle =
      match validateQueryName T ((Parse.parts line).getD 2 []) with
      | some err => ([], [], [], some err)
      | none => ((Parse.parts line).getD 2 [],
          strings.TrimSpace ((Parse.parts line).getD 3 []),
          (if (Parse.parts line).length = 6 then parseOmits ((Parse.parts line).getD 5 [])
           else []), none) := by
    rw [Parse, hsplit, Parse.loop_first T commentStyle pre line post hpre hline,
      Parse.directive_of_length T line _ hlen, if_pos hcmd]
  have hbad : ((Parse.parts line).getD 2 [] = [] ∨
        ∃ c rest, (Parse.parts line).getD 2 [] = c :: rest ∧
          ((unicode.IsLetter T c = false ∧ c ≠ '_') ∨
            ∃ d ∈ rest, unicode.IsLetter T d = false ∧ unicode.IsDigit T d = false ∧ d ≠ '_'))
      ↔ IsIdentifier T ((Parse.parts line).getD 2 []) = false := by
    generalize (Parse.parts line).getD 2 [] = name
    cases name with
    | nil => simp [IsIdentifier]
    | cons c rest =>
      simp only [IsIdentifier, isIdentStart, isIdentPart, reduceCtorEq, false_or,
        List.cons.injEq, Bool.and_eq_false_iff, Bool.or_eq_false_iff, List.all_eq_false,
        Bool.not_eq_true, beq_eq_false_iff_ne, ne_eq]
      constructor
      · rintro ⟨c', rest', ⟨rfl, rfl⟩, h⟩
        rcases h with h | ⟨d, hd, h1, h2, h3⟩
        · exact Or.inl h
        · exact Or.inr ⟨d, hd, ⟨h1, h2⟩, h3⟩
      · rintro (h | ⟨d, hd, ⟨h1, h2⟩, h3⟩)
        · exact ⟨c, rest, ⟨rfl, rfl⟩, Or.inl h⟩
        · exact ⟨c, rest, ⟨rfl, rfl⟩, Or.inr ⟨d, hd, h1, h2, h3⟩⟩
  rw [hbad]
  clear hbad
  generalize (Parse.parts line).getD 2 [] = name at hP ⊢
  generalize strings.TrimSpace ((Parse.parts line).getD 3 []) = cmd at hP ⊢
  cases hv : validateQueryName T name with
  | none =>
    have hid := (validateQueryName_eq_none_iff T _).mp hv
    rw [hv] at hP
    rw [hP]
    simp [hid]
  | some err =>
    have hinv := validateQueryName_isInvalidIdentifier T _ err hv
    have hid : IsIdentifier T name = false := by
      rw [Bool.eq_false_iff]
      intro h
      rw [(validateQueryName_eq_none_iff T _).mpr h] at hv
      exact Option.noConfusion hv
    rw [hv] at hP
    rw [hP]
    simp [hid, hinv]

/-- C5 at `/* name: 9lives :one */`, whose name starts with a digit. -/
theorem metadata.Parse_invalid_identifier_iff_witness :
    (∃ e, Parse unicode.latin1Only "/* name: 9lives :one */".toList ⟨false, false, true⟩
        = ([], [], [], some e) ∧ e.isInvalidIdentifier = true) :=
  (Parse_invalid_identifier_iff unicode.latin1Only "/* name: 9lives :one */".toList
    ⟨false, false, true⟩ [] "/* name: 9lives :one */".toList [] (by decide) (by decide)
    (by decide) (by decide) (by decide)).1.mpr
    (Or.inr ⟨'9', "lives".toList, by decide, Or.inl (by decide)⟩)

/-- C6 as stated fails on its own example: the line
`-- name: ListUsers :many [password, secret]` splits on spaces into the 6
tokens `--`, `name:`, `ListUsers`, `:many`, `[password,` and `secret]`;
`Parse` reads the omit list from the 6th token alone and returns `[secret]`,
which does not name `password`. -/
theorem metadata.Parse_omits_counterexample :
    Parse.parts "-- name: ListUsers :many [password, secret]".toList =
      ["--".toList, "name:".toList, "ListUsers".toList, ":many".toList, "[password,".toList,
        "secret]".toList] ∧
    Parse unicode.latin1Only "-- name: ListUsers :many [password, secret]".toList
        ⟨true, false, false⟩
      = ("ListUsers".toList, ":many".toList, ["secret".toList], none) ∧
    "password".toList ∉
      (Parse unicode.latin1Only "-- name: ListUsers :many [password, secret]".toList
        ⟨true, false, false⟩).2.2.1 := by
  decide

/-- C6, amended: when the first directive line of the text has 6 tokens, a
valid command and a valid name, the omit list `Parse` returns is read from the
6th token alone: that token with surrounding white space, leading `[` and
trailing `]` trimmed, split on commas.  The 5th token is not read. -/
theorem metadata.Parse_omits_sixth_token (T : unicode.Tables) (t : GoString)
    (commentStyle : CommentSyntax) (pre : List GoString) (line : GoString)
    (post : List GoString)
    (hsplit : strings.Split t '\n' = pre ++ line :: post)
    (hpre : ∀ l ∈ pre, IsDirectiveLine commentStyle l = false)
    (hline : IsDirectiveLine commentStyle line = true)
    (hlen : (Parse.parts line).length = 6)
    (hcmd : strings.TrimSpace ((Parse.parts line).getD 3 []) ∈ Commands)
    (hname : IsIdentifier T ((Parse.parts line).getD 2 []) = true) :
    Parse T t commentStyle =
      ((Parse.parts line).getD 2 [], strings.TrimSpace ((Parse.parts line).getD 3 []),
        strings.Split
          (strings.TrimRight
            (strings.TrimLeft (strings.TrimSpace ((Parse.parts line).getD 5 [])) '[') ']') ',',
        none) := by
  rw [Parse, hsplit, Parse.loop_first T commentStyle pre line post hpre hline,
    Parse.directive_of_length T line _ (Or.inr hlen), if_pos hcmd,
    (validateQueryName_eq_none_iff T _).mpr hname, if_pos hlen]
  rfl

/-- C6 (amended) at `-- name: ListUsers :many omit [password,secret]`, where
the bracketed list is one token: both entries are returned. -/
theorem metadata.Parse_omits_sixth_token_witness :
    Parse unicode.latin1Only "-- name: ListUsers :many omit [password,secret]".toList
        ⟨true, false, false⟩
      = ("ListUsers".toList, ":many".toList, ["password".toList, "secret".toList], none) :=
  Parse_omits_sixth_token unicode.latin1Only
    "-- name: ListUsers :many omit [password,secret]".toList ⟨true, false, false⟩ []
    "-- name: ListUsers :many omit [password,secret]".toList [] (by decide) (by decide)
    (by decide) (by decide) (by decide) (by decide)

/-- C7 as stated fails: the directive `-- name: Del :exec [missing_col]` has 5
tokens, so `metadata.Parse` rejects it and `parseQuery` returns the "invalid
query comment" error before any parameter is resolved; the error is not
`ColumnNotFound`.  Here the statement is a DELETE whose only parameter
resolves to a column named `id`. -/
theorem compiler.parseQuery_missing_col_counterexample :
    parseQuery (demo [⟨1, 57⟩]) (demoCompiler [⟨1, 57⟩])
        (ast.Node.RawStmt (ast.Node.DeleteStmt ()) 0 60)
        "-- name: Del :exec [missing_col]\nDELETE FROM t WHERE id = $1;".toList ⟨false, false⟩
      = Outcome.error
          (Error.metadata (Error.invalidQueryComment "-- name: Del :exec [missing_col]".toList)) ∧
    parseQuery (demo [⟨1, 57⟩]) (demoCompiler [⟨1, 57⟩])
        (ast.Node.RawStmt (ast.Node.DeleteStmt ()) 0 60)
        "-- name: Del :exec [missing_col]\nDELETE FROM t WHERE id = $1;".toList ⟨false, false⟩
      ≠ Outcome.error (Error.ColumnNotFound [] "missing_col".toList) := by
  have h : parseQuery (demo [⟨1, 57⟩]) (demoCompiler [⟨1, 57⟩])
        (ast.Node.RawStmt (ast.Node.DeleteStmt ()) 0 60)
        "-- name: Del :exec [missing_col]\nDELETE FROM t WHERE id = $1;".toList ⟨false, false⟩
      = Outcome.error
          (Error.metadata (Error.invalidQueryComment "-- name: Del :exec [missing_col]".toList)) :=
    rfl
  refine ⟨h, ?_⟩
  rw [h]
  intro e
  cases e

/-- C7, amended: compiling a statement whose directive is the 5-token line
`-- name: Del :exec [missing_col]` (the first directive line of the trimmed
raw SQL, dash comments enabled) fails, once the checks before the metadata
parser have passed, with the invalid-directive error "invalid query comment"
naming that line, whatever the parameters resolve to. -/
theorem compiler.parseQuery_five_token_directive (X : Externals) (c : Compiler X)
    (stmt : ast.Node X.Payload X.RangeVar) (src : GoString) (o : opts.Parser)
    (raw : ast.RawStmt X.Payload X.RangeVar) (rawSQL : GoString)
    (pre post : List GoString)
    (hchecks : parseQuery.checks X c stmt src = Except.ok (raw, rawSQL))
    (hsplit : strings.Split (strings.TrimSpace rawSQL) '\n'
      = pre ++ "-- name: Del :exec [missing_col]".toList :: post)
    (hpre : ∀ l ∈ pre, IsDirectiveLine c.parser.CommentSyntax l = false)
    (hdash : c.parser.CommentSyntax.Dash = true) :
    parseQuery X c stmt src o
      = Outcome.error
          (Error.metadata
            (Error.invalidQueryComment "-- name: Del :exec [missing_col]".toList)) := by
  have hline : IsDirectiveLine c.parser.CommentSyntax
      "-- name: Del :exec [missing_col]".toList = true := by
    simp only [IsDirectiveLine, hdash, Bool.true_and, Bool.or_eq_true]
    exact Or.inl (Or.inl (by decide))
  have hP2 : Parse X.tables (strings.TrimSpace rawSQL) c.parser.CommentSyntax =
      ([], [], [],
        some (Error.invalidQueryComment "-- name: Del :exec [missing_col]".toList)) := by
    rw [Parse, hsplit, Parse.loop_first X.tables c.parser.CommentSyntax pre _ post hpre hline]
    rfl
  simp only [parseQuery, parseQuery.front, hchecks, parseQuery.resolve, hP2]

/-- C7 (amended) on a DELETE statement with one parameter. -/
theorem compiler.parseQuery_five_token_directive_witness :
    parseQuery (demo [⟨1, 57⟩]) (demoCompiler [⟨1, 57⟩])
        (ast.Node.RawStmt (ast.Node.DeleteStmt ()) 0 60)
        "-- name: Del :exec [missing_col]\nDELETE FROM t WHERE id = $1;".toList ⟨false, false⟩
      = Outcome.error
          (Error.metadata
            (Error.invalidQueryComment "-- name: Del :exec [missing_col]".toList)) :=
  parseQuery_five_token_directive (demo [⟨1, 57⟩]) (demoCompiler [⟨1, 57⟩])
    (ast.Node.RawStmt (ast.Node.DeleteStmt ()) 0 60)
    "-- name: Del :exec [missing_col]\nDELETE FROM t WHERE id = $1;".toList ⟨false, false⟩
    ⟨ast.Node.DeleteStmt (), 0, 60⟩
    "-- name: Del :exec [missing_col]\nDELETE FROM t WHERE id = $1;".toList
    [] ["DELETE FROM t WHERE id = $1;".toList] rfl (by decide) (by decide) rfl

/-! ### `uniqueParamRefs` -/

theorem compiler.uniqueParamRefs.loop_acc {A : Type} (vs : List (paramRef A)) :
    ∀ (m : List Int) (o : List (paramRef A)),
      uniqueParamRefs.loop m o vs = o ++ uniqueParamRefs.loop m [] vs := by
  induction vs with
  | nil => intro m o; simp [uniqueParamRefs.loop]
  | cons v vs ih =>
    intro m o
    by_cases h : v.ref.Number ∈ m
    · simp only [uniqueParamRefs.loop, h, if_true]
      exact ih m o
    · simp only [uniqueParamRefs.loop, h, if_false]
      rw [ih _ (o ++ [v]), ih _ ([] ++ [v])]
      simp

theorem compiler.uniqueParamRefs.loop_cons {A : Type} (m : List Int) (v : paramRef A)
    (vs : List (paramRef A)) :
    uniqueParamRefs.loop m [] (v :: vs) =
      if v.ref.Number ∈ m then uniqueParamRefs.loop m [] vs
      else v :: uniqueParamRefs.loop (v.ref.Number :: m) [] vs := by
  by_cases h : v.ref.Number ∈ m
  · simp only [uniqueParamRefs.loop, h, if_true]
  · simp only [uniqueParamRefs.loop, h, if_false]
    rw [uniqueParamRefs.loop_acc vs _ ([] ++ [v])]
    simp

theorem compiler.uniqueParamRefs.loop_sublist {A : Type} (vs : List (paramRef A)) :
    ∀ m : List Int, (uniqueParamRefs.loop m [] vs).Sublist vs := by
  induction vs with
  | nil => intro m; simp [uniqueParamRefs.loop]
  | cons v vs ih =>
    intro m
    rw [uniqueParamRefs.loop_cons]
    split
    · exact (ih m).cons v
    · exact (ih _).cons₂ v

theorem compiler.uniqueParamRefs.loop_filter {A : Type} (n : Int) (vs : List (paramRef A)) :
    ∀ m : List Int,
      (uniqueParamRefs.loop m [] vs).filter (fun v => v.ref.Number == n) =
        if n ∈ m then [] else (vs.find? (fun v => v.ref.Number == n)).toList := by
  induction vs with
  | nil => intro m; simp [uniqueParamRefs.loop]
  | cons v vs ih =>
    intro m
    rw [uniqueParamRefs.loop_cons]
    by_cases hv : v.ref.Number ∈ m
    · rw [if_pos hv, ih m]
      by_cases hn : n ∈ m
      · simp [hn]
      · have hne : v.ref.Number ≠ n := fun e => hn (e ▸ hv)
        simp [hn, List.find?_cons, hne]
    · rw [if_neg hv]
      by_cases hvn : v.ref.Number = n
      · subst hvn
        simp [List.filter_cons, List.find?_cons, hv, ih]
      · have hne : (v.ref.Number == n) = false := by simpa using hvn
        rw [List.filter_cons, hne, ih, List.find?_cons, hne]
        simp only [Bool.false_eq_true, if_false, List.mem_cons]
        by_cases hn : n ∈ m
        · simp [hn]
        · simp [hn, Ne.symm hvn]

theorem compiler.uniqueParamRefs.loop_snoc {A : Type} (v : paramRef A) (pre : List (paramRef A)) :
    ∀ m : List Int,
      uniqueParamRefs.loop m [] (pre ++ [v]) =
        if v.ref.Number ∈ m ∨ ∃ w ∈ pre, w.ref.Number = v.ref.Number then
          uniqueParamRefs.loop m [] pre
        else uniqueParamRefs.loop m [] pre ++ [v] := by
  induction pre with
  | nil =>
    intro m
    by_cases h : v.ref.Number ∈ m <;> simp [uniqueParamRefs.loop, h]
  | cons w pre ih =>
    intro m
    rw [List.cons_append, uniqueParamRefs.loop_cons, uniqueParamRefs.loop_cons, ih m,
      ih (w.ref.Number :: m)]
    by_cases hw : w.ref.Number ∈ m
    · simp only [hw, if_true, List.mem_cons, exists_eq_or_imp]
      by_cases hvm : v.ref.Number ∈ m
      · simp [hvm]
      · have : w.ref.Number ≠ v.ref.Number := fun e => hvm (e ▸ hw)
        simp [hvm, this]
    · simp only [hw, if_false, List.mem_cons, exists_eq_or_imp]
      by_cases hvw : v.ref.Number = w.ref.Number
      · simp [hvw]
      · by_cases hvm : v.ref.Number ∈ m
        · simp [hvm]
        · by_cases hex : ∃ a ∈ pre, a.ref.Number = v.ref.Number
          · simp [hex]
          · simp [hvw, Ne.symm hvw, hvm, hex]

theorem compiler.uniqueParamRefs.loop_numbers {A : Type} (vs : List (paramRef A)) :
    ∀ m : List Int,
      ((uniqueParamRefs.loop m [] vs).map (fun v => v.ref.Number)).Nodup ∧
      ∀ n, n ∈ (uniqueParamRefs.loop m [] vs).map (fun v => v.ref.Number) ↔
        n ∈ vs.map (fun v => v.ref.Number) ∧ n ∉ m := by
  induction vs with
  | nil => intro m; simp [uniqueParamRefs.loop]
  | cons v vs ih =>
    intro m
    rw [uniqueParamRefs.loop_cons]
    by_cases hv : v.ref.Number ∈ m
    · rw [if_pos hv]
      refine ⟨(ih m).1, fun n => ?_⟩
      rw [(ih m).2 n, List.map_cons, List.mem_cons]
      constructor
      · rintro ⟨h1, h2⟩; exact ⟨Or.inr h1, h2⟩
      · rintro ⟨h1 | h1, h2⟩
        · exact absurd (h1 ▸ hv) h2
        · exact ⟨h1, h2⟩
    · rw [if_neg hv]
      obtain ⟨ih1, ih2⟩ := ih (v.ref.Number :: m)
      refine ⟨?_, fun n => ?_⟩
      · rw [List.map_cons, List.nodup_cons]
        refine ⟨fun h => ?_, ih1⟩
        exact ((ih2 _).mp h).2 (List.mem_cons_self _ _)
      · rw [List.map_cons, List.mem_cons, ih2 n, List.map_cons, List.mem_cons, List.mem_cons]
        constructor
        · rintro (h | ⟨h1, h2⟩)
          · exact ⟨Or.inl h, h ▸ hv⟩
          · exact ⟨Or.inr h1, fun hm => h2 (Or.inr hm)⟩
        · rintro ⟨h1 | h1, h2⟩
          · exact Or.inl h1
          · by_cases hn : n = v.ref.Number
            · exact Or.inl hn
            · exact Or.inr ⟨h1, fun hm => hm.elim hn h2⟩

/-- C9: `uniqueParamRefs` keeps, for each ordinal, exactly the first
reference of the input with that ordinal and preserves the order of the
references it keeps.  Its output is a subsequence of its input; among the
references kept, those with ordinal `n` are the first reference of the input
with ordinal `n` and no other; and a reference appended to a list is kept
exactly when no reference of that list has its ordinal, what is kept of the
list staying as it is. -/
theorem compiler.uniqueParamRefs_first_occurrences {A : Type} (in_ : List (paramRef A)) :
    (uniqueParamRefs in_).Sublist in_ ∧
    (∀ n : Int, (uniqueParamRefs in_).filter (fun v => v.ref.Number == n) =
      (in_.find? (fun v => v.ref.Number == n)).toList) ∧
    (∀ (pre : List (paramRef A)) (v : paramRef A),
      uniqueParamRefs (pre ++ [v]) =
        if ∃ w ∈ pre, w.ref.Number = v.ref.Number then uniqueParamRefs pre
        else uniqueParamRefs pre ++ [v]) := by
  refine ⟨uniqueParamRefs.loop_sublist in_ [], fun n => ?_, fun pre v => ?_⟩
  · simpa using uniqueParamRefs.loop_filter n in_ []
  · simpa [uniqueParamRefs] using uniqueParamRefs.loop_snoc v pre []

/-! ### `sortSlice` -/

theorem compiler.sortSlice.insert_perm {α : Type} (less : α → α → Bool) (x : α) (l : List α) :
    (sortSlice.insert less x l).Perm (x :: l) := by
  induction l with
  | nil => exact List.Perm.refl _
  | cons y ys ih =>
    unfold sortSlice.insert
    split
    · exact List.Perm.refl _
    · exact (List.Perm.cons y ih).trans (List.Perm.swap x y ys)

theorem compiler.sortSlice_perm {α : Type} (less : α → α → Bool) (l : List α) :
    (sortSlice less l).Perm l := by
  induction l with
  | nil => exact List.Perm.refl _
  | cons x xs ih =>
    exact (sortSlice.insert_perm less x _).trans (List.Perm.cons x ih)

theorem compiler.sortSlice.insert_sorted {α : Type} (key : α → Int) (x : α) (l : List α)
    (h : l.Pairwise (fun a b => key a ≤ key b)) :
    (sortSlice.insert (fun a b => decide (key a < key b)) x l).Pairwise
      (fun a b => key a ≤ key b) := by
  induction l with
  | nil => simp [sortSlice.insert]
  | cons y ys ih =>
    rw [List.pairwise_cons] at h
    unfold sortSlice.insert
    by_cases hxy : key x < key y
    · simp only [hxy, decide_True, if_true]
      refine List.Pairwise.cons ?_ (List.Pairwise.cons h.1 h.2)
      intro b hb
      rcases List.mem_cons.mp hb with rfl | hb
      · omega
      · have := h.1 b hb; omega
    · simp only [hxy, decide_False, Bool.false_eq_true, if_false]
      refine List.Pairwise.cons ?_ (ih h.2)
      intro b hb
      rcases List.mem_cons.mp ((sortSlice.insert_perm _ x ys).subset hb) with rfl | hb
      · omega
      · exact h.1 b hb

theorem compiler.sortSlice_sorted {α : Type} (key : α → Int) (l : List α) :
    (sortSlice (fun a b => decide (key a < key b)) l).Pairwise (fun a b => key a ≤ key b) := by
  induction l with
  | nil => exact List.Pairwise.nil
  | cons x xs ih => exact sortSlice.insert_sorted key x _ ih

theorem compiler.sortSlice_strict {A : Type} (l : List (paramRef A))
    (hnd : (l.map (fun v => v.ref.Number)).Nodup) :
    (sortSlice (fun a b => decide (a.ref.Number < b.ref.Number)) l).Pairwise
      (fun a b => a.ref.Number < b.ref.Number) := by
  have hperm := sortSlice_perm (fun a b : paramRef A => decide (a.ref.Number < b.ref.Number)) l
  have hs := sortSlice_sorted (fun v : paramRef A => v.ref.Number) l
  have hnd2 : ((sortSlice (fun a b : paramRef A => decide (a.ref.Number < b.ref.Number))
      l).map (fun v => v.ref.Number)).Nodup :=
    (hperm.map _).nodup_iff.mpr hnd
  rw [List.Nodup, List.pairwise_map] at hnd2
  exact (hs.and hnd2).imp (fun h => lt_of_le_of_ne h.1 h.2)

theorem compiler.uniqueParamRefs_numbers_nodup {A : Type} (in_ : List (paramRef A)) :
    ((uniqueParamRefs in_).map (fun v => v.ref.Number)).Nodup :=
  (uniqueParamRefs.loop_numbers in_ []).1

/-- The outcome of `sort.Slice` on the output of `uniqueParamRefs` does not
depend on the sorting algorithm: a permutation of it in which no reference
has a smaller ordinal than one before it is the list `sortSlice` yields. -/
theorem compiler.sortSlice_unique {A : Type} (in_ out : List (paramRef A))
    (hperm : out.Perm (uniqueParamRefs in_))
    (hsorted : out.Pairwise (fun a b => ¬ b.ref.Number < a.ref.Number)) :
    out = sortSlice (fun a b => decide (a.ref.Number < b.ref.Number)) (uniqueParamRefs in_) := by
  have hnd : ((uniqueParamRefs in_).map (fun v => v.ref.Number)).Nodup :=
    (uniqueParamRefs.loop_numbers in_ []).1
  have hnd2 : (out.map (fun v => v.ref.Number)).Nodup := (hperm.map _).nodup_iff.mpr hnd
  rw [List.Nodup, List.pairwise_map] at hnd2
  have h1 : out.Pairwise (fun a b => a.ref.Number < b.ref.Number) :=
    (hsorted.and hnd2).imp (fun h => lt_of_le_of_ne (not_lt.mp h.1) h.2)
  have h2 := sortSlice_strict _ hnd
  have hp := hperm.trans
    (sortSlice_perm (fun a b : paramRef A => decide (a.ref.Number < b.ref.Number))
      (uniqueParamRefs in_)).symm
  haveI : IsAntisymm (paramRef A) (fun a b => a.ref.Number < b.ref.Number) :=
    ⟨fun _ _ hab hba => absurd hab (lt_asymm hba)⟩
  exact List.eq_of_perm_of_sorted hp h1 h2

/-! ### `validateOmits` -/

theorem compiler.validateOmits.columns_of_resolved {C : Type} (params : List (Parameter C))
    (hres : ∀ p ∈ params, p.Column ≠ none) :
    ∀ column : List GoString, ∃ column',
      validateOmits.columns column params = some column' ∧
      ∀ o, o ∈ column' ↔
        o ∈ column ∨ ∃ p ∈ params, ∃ col, p.Column = some col ∧ col.Name = o := by
  induction params with
  | nil => intro column; exact ⟨column, rfl, fun o => by simp⟩
  | cons p ps ih =>
    intro column
    cases hp : p.Column with
    | none => exact absurd hp (hres p (by simp))
    | some col =>
      obtain ⟨column', h1, h2⟩ :=
        ih (fun q hq => hres q (List.mem_cons_of_mem _ hq)) (col.Name :: column)
      refine ⟨column', by simp only [validateOmits.columns, hp, h1], fun o => ?_⟩
      rw [h2 o, List.mem_cons]
      constructor
      · rintro ((h | h) | ⟨q, hq, c', hc, hn⟩)
        · exact Or.inr ⟨p, by simp, col, hp, h.symm⟩
        · exact Or.inl h
        · exact Or.inr ⟨q, List.mem_cons_of_mem _ hq, c', hc, hn⟩
      · rintro (h | ⟨q, hq, c', hc, hn⟩)
        · exact Or.inl (Or.inr h)
        · rcases List.mem_cons.mp hq with rfl | hq
          · rw [hp] at hc
            cases hc
            exact Or.inl (Or.inl hn.symm)
          · exact Or.inr ⟨q, hq, c', hc, hn⟩

theorem compiler.validateOmits.check_iff (column omits : List GoString) :
    validateOmits.check column omits = true ↔ ∀ o ∈ omits, o ∈ column := by
  induction omits with
  | nil => simp [validateOmits.check]
  | cons o os ih =>
    by_cases h : o ∈ column
    · simp [validateOmits.check, h, ih]
    · simp [validateOmits.check, h]

theorem compiler.parseQuery_of_front {X : Externals} {c : Compiler X}
    {stmt : ast.Node X.Payload X.RangeVar} {src : GoString} {o : opts.Parser}
    {l : parseQuery.Locals X} (h : parseQuery.front X c stmt src o = Except.ok l) :
    parseQuery X c stmt src o = parseQuery.back X c l := by
  simp only [parseQuery, h]

/-- C10: for every omit list and every list of resolved parameters (each
with a `Column`), `validateOmits` returns a boolean, and it returns true
exactly when every omit name is the `Column.Name` of some parameter; when it
returns false at line 112, `parseQuery` fails, with the `ColumnNotFound`
error. -/
theorem compiler.validateOmits_iff_subset (X : Externals) (omits : List GoString)
    (params : List (Parameter X.ColRest)) (hres : ∀ p ∈ params, p.Column ≠ none) :
    (∃ b, validateOmits omits params = some b) ∧
    (validateOmits omits params = some true ↔
      ∀ o ∈ omits, ∃ p ∈ params, ∃ col, p.Column = some col ∧ col.Name = o) ∧
    (∀ (c : Compiler X) (stmt : ast.Node X.Payload X.RangeVar) (src : GoString)
      (o : opts.Parser) (l : parseQuery.Locals X),
      parseQuery.front X c stmt src o = Except.ok l → l.omits = omits → l.params = params →
      validateOmits omits params = some false →
      parseQuery X c stmt src o
        = Outcome.error (Error.ColumnNotFound [] (strings.Join omits ",".toList))) := by
  obtain ⟨column, h1, h2⟩ := validateOmits.columns_of_resolved params hres []
  have hv : validateOmits omits params = some (validateOmits.check column omits) := by
    simp only [validateOmits, h1]
  refine ⟨⟨_, hv⟩, ?_, ?_⟩
  · rw [hv, Option.some.injEq, validateOmits.check_iff]
    constructor
    · intro h o ho
      simpa using (h2 o).mp (h o ho)
    · intro h o ho
      exact (h2 o).mpr (Or.inr (h o ho))
  · intro c stmt src o l hfront ho hp hfalse
    rw [parseQuery_of_front hfront, parseQuery.back, ho, hp, hfalse]

/-- C10 on the omit list `[missing_col]` and one parameter whose column is
named `id`: `validateOmits` returns false and `parseQuery` fails. -/
theorem compiler.validateOmits_iff_subset_witness :
    validateOmits ["missing_col".toList]
        [(⟨1, some ⟨"id".toList, ()⟩⟩ : Parameter (demo [⟨1, 62⟩]).ColRest)] = some false ∧
    parseQuery (demo [⟨1, 62⟩]) (demoCompiler [⟨1, 62⟩])
        (ast.Node.RawStmt (ast.Node.DeleteStmt ()) 0 65)
        "-- name: Del :exec omit [missing_col]\nDELETE FROM t WHERE id = $1;".toList
        ⟨false, false⟩
      = Outcome.error (Error.ColumnNotFound [] "missing_col".toList) :=
  ⟨rfl,
   (validateOmits_iff_subset (demo [⟨1, 62⟩]) ["missing_col".toList]
      [⟨1, some ⟨"id".toList, ()⟩⟩]
      (by intro p hp; rw [List.mem_singleton.mp hp]; exact Option.some_ne_none _)).2.2
      (demoCompiler [⟨1, 62⟩]) (ast.Node.RawStmt (ast.Node.DeleteStmt ()) 0 65)
      "-- name: Del :exec omit [missing_col]\nDELETE FROM t WHERE id = $1;".toList
      ⟨false, false⟩
      { raw := ⟨ast.Node.DeleteStmt (), 0, 65⟩
        rawSQL := "-- name: Del :exec omit [missing_col]\nDELETE FROM t WHERE id = $1;".toList
        name := "Del".toList
        cmd := ":exec".toList
        omits := ["missing_col".toList]
        namedParams := ()
        edits := []
        rvs := []
        refs := [⟨⟨1, 62⟩, (0 : Nat)⟩]
        params := [⟨1, some ⟨"id".toList, ()⟩⟩] }
      rfl rfl rfl rfl⟩

theorem compiler.parseQuery.back_eq (X : Externals) (c : Compiler X) (l : parseQuery.Locals X) :
    parseQuery.back X c l =
      match parseQuery.expandStage X c l with
      | Outcome.ok e => parseQuery.finish X c l e
      | Outcome.error err => Outcome.error err
      | Outcome.panic => Outcome.panic := by
  unfold parseQuery.back parseQuery.expandStage parseQuery.finish
  cases validateOmits l.omits l.params with
  | none => rfl
  | some b =>
    cases b with
    | false => rfl
    | true =>
      simp only
      cases X.resolveCatalogValuesRefs c.catalog l.rvs l.refs l.namedParams with
      | error err => rfl
      | ok v =>
        obtain ⟨valuesParams, length⟩ := v
        simp only
        cases X.buildQueryCatalog c.catalog l.raw.Stmt with
        | error err => rfl
        | ok qc =>
          simp only
          cases X.outputColumns qc l.raw.Stmt with
          | error err => rfl
          | ok cols =>
            simp only
            cases c.expand qc l.raw with
            | error err => rfl
            | ok expandEdits => rfl

theorem compiler.validateOmits.resolved_of_columns {C : Type} (params : List (Parameter C)) :
    ∀ (column column' : List GoString), validateOmits.columns column params = some column' →
      ∀ p ∈ params, p.Column ≠ none := by
  induction params with
  | nil => intro _ _ _ p hp; cases hp
  | cons q qs ih =>
    intro column column' h p hp
    cases hq : q.Column with
    | none => simp [validateOmits.columns, hq] at h
    | some col =>
      simp only [validateOmits.columns, hq] at h
      rcases List.mem_cons.mp hp with rfl | hp
      · rw [hq]; exact Option.some_ne_none _
      · exact ih _ _ h p hp

theorem compiler.mem_offendingOmits {C : Type} (omits : List GoString)
    (params : List (Parameter C)) (o : GoString) :
    o ∈ offendingOmits omits params ↔
      o ∈ omits ∧ ¬ ∃ p ∈ params, ∃ col, p.Column = some col ∧ col.Name = o := by
  simp only [offendingOmits, List.mem_filter, Bool.not_eq_true', List.any_eq_false,
    and_congr_right_iff]
  intro _
  constructor
  · rintro h ⟨p, hp, col, hcol, hname⟩
    have := h p hp
    simp [hcol, hname] at this
  · intro h p hp
    cases hcol : p.Column with
    | none => simp
    | some col =>
      simp only [beq_iff_eq]
      exact fun hname => h ⟨p, hp, col, hcol, hname⟩

/-- C11 as stated fails: with the omit list `[id, missing_col]` and one
parameter whose column is named `id`, the only offending entry is
`missing_col`, but the `ColumnNotFound` error `parseQuery` returns names
`id,missing_col`, the whole omit list. -/
theorem compiler.parseQuery_omit_error_counterexample :
    parseQuery (demo [⟨1, 65⟩]) (demoCompiler [⟨1, 65⟩])
        (ast.Node.RawStmt (ast.Node.DeleteStmt ()) 0 68)
        "-- name: Del :exec omit [id,missing_col]\nDELETE FROM t WHERE id = $1;".toList
        ⟨false, false⟩
      = Outcome.error (Error.ColumnNotFound [] "id,missing_col".toList) ∧
    strings.Join
        (offendingOmits ["id".toList, "missing_col".toList]
          [(⟨1, some ⟨"id".toList, ()⟩⟩ : Parameter Unit)]) ",".toList
      = "missing_col".toList ∧
    "id,missing_col".toList ≠ "missing_col".toList := by
  refine ⟨rfl, by decide, by decide⟩

/-- C11, amended: whenever omit validation fails in `parseQuery` (line 112),
the `ColumnNotFound` error it returns names every entry of the omit list,
joined with commas, whether or not the entry matches a parameter column;
at least one of the entries named is offending, and when all of them are
the error names exactly the offending entries. -/
theorem compiler.parseQuery_omit_error_names_all (X : Externals) (c : Compiler X)
    (stmt : ast.Node X.Payload X.RangeVar) (src : GoString) (o : opts.Parser)
    (l : parseQuery.Locals X)
    (hfront : parseQuery.front X c stmt src o = Except.ok l)
    (hfail : validateOmits l.omits l.params = some false) :
    parseQuery X c stmt src o
      = Outcome.error (Error.ColumnNotFound [] (strings.Join l.omits ",".toList)) ∧
    offendingOmits l.omits l.params ≠ [] ∧
    (offendingOmits l.omits l.params = l.omits →
      parseQuery X c stmt src o
        = Outcome.error (Error.ColumnNotFound []
            (strings.Join (offendingOmits l.omits l.params) ",".toList))) := by
  have hq : parseQuery X c stmt src o
      = Outcome.error (Error.ColumnNotFound [] (strings.Join l.omits ",".toList)) := by
    rw [parseQuery_of_front hfront, parseQuery.back, hfail]
  refine ⟨hq, ?_, fun h => by rw [h]; exact hq⟩
  cases hcols : validateOmits.columns [] l.params with
  | none => simp [validateOmits, hcols] at hfail
  | some column =>
    have hres := validateOmits.resolved_of_columns l.params [] column hcols
    obtain ⟨column', h1, h2⟩ := validateOmits.columns_of_resolved l.params hres []
    rw [hcols] at h1
    cases h1
    simp only [validateOmits, hcols, Option.some.injEq] at hfail
    have hnot : ¬ ∀ x ∈ l.omits, x ∈ column := by
      rw [← validateOmits.check_iff, hfail]
      exact Bool.false_ne_true
    intro hnil
    apply hnot
    intro x hx
    by_contra hxc
    have : x ∈ offendingOmits l.omits l.params := by
      rw [mem_offendingOmits]
      refine ⟨hx, fun hex => hxc ((h2 x).mpr (Or.inr hex))⟩
    rw [hnil] at this
    cases this

/-- C11 (amended) on the omit list `[id, missing_col]` and one parameter
whose column is named `id`. -/
theorem compiler.parseQuery_omit_error_names_all_witness :
    parseQuery (demo [⟨1, 65⟩]) (demoCompiler [⟨1, 65⟩])
        (ast.Node.RawStmt (ast.Node.DeleteStmt ()) 0 68)
        "-- name: Del :exec omit [id,missing_col]\nDELETE FROM t WHERE id = $1;".toList
        ⟨false, false⟩
      = Outcome.error (Error.ColumnNotFound [] "id,missing_col".toList) :=
  (parseQuery_omit_error_names_all (demo [⟨1, 65⟩]) (demoCompiler [⟨1, 65⟩])
    (ast.Node.RawStmt (ast.Node.DeleteStmt ()) 0 68)
    "-- name: Del :exec omit [id,missing_col]\nDELETE FROM t WHERE id = $1;".toList
    ⟨false, false⟩
    { raw := ⟨ast.Node.DeleteStmt (), 0, 68⟩
      rawSQL := "-- name: Del :exec omit [id,missing_col]\nDELETE FROM t WHERE id = $1;".toList
      name := "Del".toList
      cmd := ":exec".toList
      omits := ["id".toList, "missing_col".toList]
      namedParams := ()
      edits := []
      rvs := []
      refs := [⟨⟨1, 65⟩, (0 : Nat)⟩]
      params := [⟨1, some ⟨"id".toList, ()⟩⟩] }
    rfl rfl).1

theorem compiler.wrapInt_of_inRange (z : Int) (h1 : -(2 ^ 63) ≤ z) (h2 : z < 2 ^ 63) :
    wrapInt z = z := by
  unfold wrapInt
  omega

/-- C12: for every list of parameter references and every raw statement,
`rewriteNumberedParameters` returns without error a list with exactly one
edit per reference, in the same order; the i-th edit has `Location` = the
location of the i-th reference minus the statement start, as Go computes it
(64-bit `int` subtraction, which is the exact difference whenever that
difference is an `int`), `Old` = `$` followed by the decimal ordinal of the
i-th reference, and `New` = `?`. -/
theorem compiler.rewriteNumberedParameters_edits {A P RV E : Type} (refs : List (paramRef A))
    (raw : ast.RawStmt P RV) (sql : GoString) :
    ∃ edits : List source.Edit,
      (rewriteNumberedParameters refs raw sql : Except E (List source.Edit)) = Except.ok edits ∧
      edits.length = refs.length ∧
      ∀ (i : Nat) (ref : paramRef A), refs[i]? = some ref →
        ∃ e, edits[i]? = some e ∧
          e.Location = wrapInt (ref.ref.Location - raw.StmtLocation) ∧
          (-(2 ^ 63) ≤ ref.ref.Location - raw.StmtLocation →
            ref.ref.Location - raw.StmtLocation < 2 ^ 63 →
            e.Location = ref.ref.Location - raw.StmtLocation) ∧
          e.Old = "$".toList ++ formatInt ref.ref.Number ∧
          e.New = "?".toList := by
  refine ⟨_, rfl, by simp, ?_⟩
  intro i ref hi
  refine ⟨_, by rw [List.getElem?_map, hi]; rfl, rfl, ?_, rfl, rfl⟩
  intro h1 h2
  exact wrapInt_of_inRange _ h1 h2

/-- C12 on the references `$2` at offset 40 and `$1` at offset 52 of a
statement that starts at offset 10: the first edit replaces `$2` with `?` at
offset 30. -/
theorem compiler.rewriteNumberedParameters_edits_witness :
    ∃ edits : List source.Edit,
      (rewriteNumberedParameters [(⟨⟨2, 40⟩, ()⟩ : paramRef Unit), ⟨⟨1, 52⟩, ()⟩]
        (⟨ast.Node.SelectStmt (), 10, 60⟩ : ast.RawStmt Unit Unit) [] :
        Except Unit (List source.Edit)) = Except.ok edits ∧
      edits.length = 2 ∧
      ∃ e, edits[0]? = some e ∧ e.Location = 30 ∧ e.Old = "$2".toList ∧ e.New = "?".toList := by
  obtain ⟨edits, h, hlen, hi⟩ := rewriteNumberedParameters_edits (E := Unit)
    [(⟨⟨2, 40⟩, ()⟩ : paramRef Unit), ⟨⟨1, 52⟩, ()⟩]
    (⟨ast.Node.SelectStmt (), 10, 60⟩ : ast.RawStmt Unit Unit) []
  obtain ⟨e, he, _, hexact, hold, hnew⟩ := hi 0 ⟨⟨2, 40⟩, ()⟩ rfl
  exact ⟨edits, h, hlen, e, he, (hexact (by decide) (by decide)).trans (by decide),
    hold.trans (by decide), hnew⟩

theorem compiler.parseQuery.resolve_ok (X : Externals) (c : Compiler X)
    (raw : ast.RawStmt X.Payload X.RangeVar) (rawSQL : GoString) (o : opts.Parser)
    (l : parseQuery.Locals X) (h : parseQuery.resolve X c raw rawSQL o = Except.ok l) :
    ∃ name cmd omits edits refs params,
      metadata.Parse X.tables (strings.TrimSpace rawSQL) c.parser.CommentSyntax
        = (name, cmd, omits, none) ∧
      X.validate_Cmd raw.Stmt name cmd = none ∧
      parseQuery.style X o (X.rewrite_NamedParameters c.engine raw).1 rawSQL
          (X.rewrite_NamedParameters c.engine raw).2.2
          (X.findParameters (X.rewrite_NamedParameters c.engine raw).1.Stmt)
        = Except.ok (edits, refs) ∧
      X.resolveCatalogRefs c.catalog (rangeVars X (X.rewrite_NamedParameters c.engine raw).1.Stmt)
          refs (X.rewrite_NamedParameters c.engine raw).2.1 = Except.ok params ∧
      l = { raw := (X.rewrite_NamedParameters c.engine raw).1, rawSQL := rawSQL, name := name,
            cmd := cmd, omits := omits,
            namedParams := (X.rewrite_NamedParameters c.engine raw).2.1, edits := edits,
            rvs := rangeVars X (X.rewrite_NamedParameters c.engine raw).1.Stmt, refs := refs,
            params := params } := by
  unfold parseQuery.resolve at h
  split at h
  · cases h
  · rename_i name cmd omits hP
    split at h
    · cases h
    · rename_i hcmd
      split at h
      rename_i raw' namedParams namedEdits hnamed
      simp only at h
      split at h
      · cases h
      · rename_i edits refs hstyle
        split at h
        · cases h
        · rename_i params hparams
          simp only [Except.ok.injEq] at h
          refine ⟨name, cmd, omits, edits, refs, params, hP, hcmd, ?_, ?_, ?_⟩
          · rw [hnamed]; exact hstyle
          · rw [hnamed]; exact hparams
          · rw [hnamed]; exact h.symm

theorem compiler.parseQuery.style_numbered (X : Externals) (o : opts.Parser)
    (raw : ast.RawStmt X.Payload X.RangeVar) (rawSQL : GoString) (edits : List source.Edit)
    (refs : List (paramRef X.RefRest)) (hnum : o.UsePositionalParameters = false) :
    parseQuery.style X o raw rawSQL edits refs
      = Except.ok (edits,
          sortSlice (fun a b => decide (a.ref.Number < b.ref.Number)) (uniqueParamRefs refs)) := by
  simp only [parseQuery.style, hnum, Bool.false_eq_true, if_false]

/-- C8: `uniqueParamRefs` followed by the ascending sort on the ordinal
yields a list whose length is the number of distinct ordinals of the input
and whose ordinals are strictly ascending; and these are the two steps of
`parseQuery` in numbered style: lines 100-103 hand on that list for the
references found in the statement, and it is the list that is resolved
against the catalog. -/
theorem compiler.uniqueParamRefs_sorted {A : Type} (in_ : List (paramRef A)) :
    (sortSlice (fun a b => decide (a.ref.Number < b.ref.Number)) (uniqueParamRefs in_)).length
      = (in_.map (fun v => v.ref.Number)).toFinset.card ∧
    (sortSlice (fun a b => decide (a.ref.Number < b.ref.Number)) (uniqueParamRefs in_)).Pairwise
      (fun a b => a.ref.Number < b.ref.Number) ∧
    (∀ (X : Externals) (o : opts.Parser) (raw : ast.RawStmt X.Payload X.RangeVar)
      (rawSQL : GoString) (edits : List source.Edit) (refs : List (paramRef X.RefRest)),
      o.UsePositionalParameters = false →
      ∃ out, parseQuery.style X o raw rawSQL edits refs = Except.ok (edits, out) ∧
        out = sortSlice (fun a b => decide (a.ref.Number < b.ref.Number))
          (uniqueParamRefs refs) ∧
        out.length = (refs.map (fun v => v.ref.Number)).toFinset.card ∧
        out.Pairwise (fun a b => a.ref.Number < b.ref.Number)) ∧
    (∀ (X : Externals) (c : Compiler X) (raw : ast.RawStmt X.Payload X.RangeVar)
      (rawSQL : GoString) (o : opts.Parser) (l : parseQuery.Locals X),
      o.UsePositionalParameters = false →
      parseQuery.resolve X c raw rawSQL o = Except.ok l →
      l.refs = sortSlice (fun a b => decide (a.ref.Number < b.ref.Number))
          (uniqueParamRefs (X.findParameters (X.rewrite_NamedParameters c.engine raw).1.Stmt)) ∧
      X.resolveCatalogRefs c.catalog l.rvs l.refs l.namedParams = Except.ok l.params ∧
      l.refs.length
        = ((X.findParameters (X.rewrite_NamedParameters c.engine raw).1.Stmt).map
            (fun v => v.ref.Number)).toFinset.card ∧
      l.refs.Pairwise (fun a b => a.ref.Number < b.ref.Number)) := by
  have key : ∀ {B : Type} (l : List (paramRef B)),
      (sortSlice (fun a b => decide (a.ref.Number < b.ref.Number)) (uniqueParamRefs l)).length
        = (l.map (fun v => v.ref.Number)).toFinset.card ∧
      (sortSlice (fun a b => decide (a.ref.Number < b.ref.Number)) (uniqueParamRefs l)).Pairwise
        (fun a b => a.ref.Number < b.ref.Number) := by
    intro B l
    obtain ⟨hnd, hmem⟩ := uniqueParamRefs.loop_numbers l []
    change ((uniqueParamRefs l).map (fun v => v.ref.Number)).Nodup at hnd
    have hperm := sortSlice_perm (fun a b : paramRef B => decide (a.ref.Number < b.ref.Number))
      (uniqueParamRefs l)
    constructor
    · rw [hperm.length_eq]
      have hset : ((uniqueParamRefs l).map (fun v => v.ref.Number)).toFinset
          = (l.map (fun v => v.ref.Number)).toFinset := by
        ext n
        simp only [List.mem_toFinset]
        have := hmem n
        simpa [uniqueParamRefs] using this
      rw [← hset, List.toFinset_card_of_nodup hnd, List.length_map]
    · exact sortSlice_strict _ hnd
  refine ⟨(key in_).1, (key in_).2, ?_, ?_⟩
  · intro X o raw rawSQL edits refs hnum
    exact ⟨_, parseQuery.style_numbered X o raw rawSQL edits refs hnum, rfl, (key refs).1,
      (key refs).2⟩
  · intro X c raw rawSQL o l hnum hres
    obtain ⟨name, cmd, omits, edits, refs, params, _, _, hstyle, hcat, hl⟩ :=
      parseQuery.resolve_ok X c raw rawSQL o l hres
    rw [parseQuery.style_numbered X o _ rawSQL _ _ hnum] at hstyle
    simp only [Except.ok.injEq, Prod.mk.injEq] at hstyle
    obtain ⟨_, hrefs⟩ := hstyle
    subst hl
    simp only
    rw [← hrefs] at hcat ⊢
    exact ⟨rfl, hcat, (key _).1, (key _).2⟩

/-- C8 on the references `$3`, `$1`, `$3`, `$2`: in numbered style lines
100-103 of `parseQuery` hand on the references `$1`, `$2`, `$3`, the first
reference of each ordinal, in ascending order, and these are the references
of the statement that are resolved. -/
theorem compiler.uniqueParamRefs_sorted_witness :
    parseQuery.style (demo []) ⟨false, false⟩ ⟨ast.Node.SelectStmt (), 0, 40⟩ [] []
        [⟨⟨3, 10⟩, (0 : Nat)⟩, ⟨⟨1, 20⟩, (1 : Nat)⟩, ⟨⟨3, 30⟩, (2 : Nat)⟩, ⟨⟨2, 35⟩, (3 : Nat)⟩]
      = Except.ok ([], [⟨⟨1, 20⟩, (1 : Nat)⟩, ⟨⟨2, 35⟩, (3 : Nat)⟩, ⟨⟨3, 10⟩, (0 : Nat)⟩]) ∧
    ∃ l, parseQuery.resolve (demo [⟨3, 10⟩, ⟨1, 20⟩, ⟨3, 30⟩, ⟨2, 35⟩])
        (demoCompiler [⟨3, 10⟩, ⟨1, 20⟩, ⟨3, 30⟩, ⟨2, 35⟩]) ⟨ast.Node.SelectStmt (), 0, 40⟩
        "-- name: Get :many\nSELECT $3, $1, $3, $2;".toList ⟨false, false⟩ = Except.ok l ∧
      l.refs = [⟨⟨1, 20⟩, (1 : Nat)⟩, ⟨⟨2, 35⟩, (3 : Nat)⟩, ⟨⟨3, 10⟩, (0 : Nat)⟩] := by
  constructor
  · obtain ⟨out, h, he, _, _⟩ :=
      (compiler.uniqueParamRefs_sorted ([] : List (paramRef Nat))).2.2.1 (demo [])
        ⟨false, false⟩ ⟨ast.Node.SelectStmt (), 0, 40⟩ [] []
        [⟨⟨3, 10⟩, (0 : Nat)⟩, ⟨⟨1, 20⟩, (1 : Nat)⟩, ⟨⟨3, 30⟩, (2 : Nat)⟩, ⟨⟨2, 35⟩, (3 : Nat)⟩]
        rfl
    rw [h, he]
    rfl
  · refine ⟨_, rfl, ?_⟩
    exact ((compiler.uniqueParamRefs_sorted ([] : List (paramRef Nat))).2.2.2
      (demo [⟨3, 10⟩, ⟨1, 20⟩, ⟨3, 30⟩, ⟨2, 35⟩])
      (demoCompiler [⟨3, 10⟩, ⟨1, 20⟩, ⟨3, 30⟩, ⟨2, 35⟩]) ⟨ast.Node.SelectStmt (), 0, 40⟩
      "-- name: Get :many\nSELECT $3, $1, $3, $2;".toList ⟨false, false⟩ _ rfl rfl).1.trans rfl

theorem compiler.parseQuery.expandStage_ok (X : Externals) (c : Compiler X)
    (l : parseQuery.Locals X) (e : parseQuery.Expanded X)
    (h : parseQuery.expandStage X c l = Outcome.ok e) :
    validateOmits l.omits l.params = some true ∧
    ∃ valuesParams length qc cols expandEdits,
      X.resolveCatalogValuesRefs c.catalog l.rvs l.refs l.namedParams
        = Except.ok (valuesParams, length) ∧
      X.buildQueryCatalog c.catalog l.raw.Stmt = Except.ok qc ∧
      X.outputColumns qc l.raw.Stmt = Except.ok cols ∧
      c.expand qc l.raw = Except.ok expandEdits ∧
      e = { valuesParams := valuesParams, length := length, cols := cols,
            edits := l.edits ++ expandEdits } := by
  unfold parseQuery.expandStage at h
  split at h
  · cases h
  · cases h
  · rename_i hv
    split at h
    · cases h
    · rename_i valuesParams length hvals
      split at h
      · cases h
      · rename_i qc hqc
        split at h
        · cases h
        · rename_i cols hcols
          split at h
          · cases h
          · rename_i expandEdits hexp
            simp only [Outcome.ok.injEq] at h
            exact ⟨hv, valuesParams, length, qc, cols, expandEdits, hvals, hqc, hcols, hexp,
              h.symm⟩

/-- C13: the edit list `parseQuery` hands to `source.Mutate`.  When
`UsePositionalParameters` is set it is the list of `$N` to `?` edits, one
per parameter reference found, followed by the column-expansion edits, and
the edits of the named-parameter rewriter are not part of it; when it is not
set, it is the edits of the named-parameter rewriter, unchanged, followed by
the column-expansion edits. -/
theorem compiler.parseQuery_edit_list (X : Externals) (c : Compiler X)
    (raw : ast.RawStmt X.Payload X.RangeVar) (rawSQL : GoString) (o : opts.Parser)
    (l : parseQuery.Locals X) (e : parseQuery.Expanded X)
    (raw' : ast.RawStmt X.Payload X.RangeVar) (namedParams : X.NamedParams)
    (namedEdits : List source.Edit)
    (hnamed : X.rewrite_NamedParameters c.engine raw = (raw', namedParams, namedEdits))
    (hres : parseQuery.resolve X c raw rawSQL o = Except.ok l)
    (hstage : parseQuery.expandStage X c l = Outcome.ok e) :
    parseQuery.back X c l = parseQuery.finish X c l e ∧
    ∃ qc expandEdits, c.expand qc raw' = Except.ok expandEdits ∧
      (o.UsePositionalParameters = true →
        e.edits =
          (X.findParameters raw'.Stmt).map (fun ref =>
            (⟨wrapInt (ref.ref.Location - raw'.StmtLocation),
              "$".toList ++ formatInt ref.ref.Number, "?".toList⟩ : source.Edit))
          ++ expandEdits) ∧
      (o.UsePositionalParameters = false → e.edits = namedEdits ++ expandEdits) := by
  refine ⟨by rw [parseQuery.back_eq, hstage], ?_⟩
  obtain ⟨name, cmd, omits, edits, refs, params, _, _, hstyle, _, hl⟩ :=
    parseQuery.resolve_ok X c raw rawSQL o l hres
  obtain ⟨_, valuesParams, length, qc, cols, expandEdits, _, _, _, hexp, he⟩ :=
    parseQuery.expandStage_ok X c l e hstage
  rw [hnamed] at hstyle hl
  have hraw : l.raw = raw' := by rw [hl]
  have hedits : l.edits = edits := by rw [hl]
  rw [hraw] at hexp
  refine ⟨qc, expandEdits, hexp, fun hpos => ?_, fun hpos => ?_⟩
  · simp only [parseQuery.style, hpos, if_true, rewriteNumberedParameters,
      Except.ok.injEq, Prod.mk.injEq] at hstyle
    rw [he, hedits, ← hstyle.1]
    rfl
  · simp only [parseQuery.style, hpos, Bool.false_eq_true, if_false,
      Except.ok.injEq, Prod.mk.injEq] at hstyle
    rw [he, hedits, ← hstyle.1]

/-- C13 on a SELECT with one parameter, in positional style: the list handed
to `source.Mutate` is the `$1` to `?` edit followed by the column-expansion
edit, without the edit of the named-parameter rewriter. -/
theorem compiler.parseQuery_edit_list_witness :
    ∃ expandEdits : List source.Edit,
      ([⟨57, "$1".toList, "?".toList⟩, ⟨7, "*".toList, "id, name".toList⟩] : List source.Edit)
        = [⟨57, "$1".toList, "?".toList⟩] ++ expandEdits ∧
      (⟨27, "@id".toList, "$1".toList⟩ : source.Edit) ∉
        ([⟨57, "$1".toList, "?".toList⟩] ++ expandEdits : List source.Edit) := by
  obtain ⟨_, _, expandEdits, hexp, hpos, _⟩ :=
    parseQuery_edit_list (demoNamed [⟨1, 57⟩]) (demoNamedCompiler [⟨1, 57⟩])
      ⟨ast.Node.SelectStmt (), 0, 60⟩
      "-- name: Get :one\nSELECT * FROM t WHERE id = @id;".toList ⟨false, true⟩
      { raw := ⟨ast.Node.SelectStmt (), 0, 60⟩
        rawSQL := "-- name: Get :one\nSELECT * FROM t WHERE id = @id;".toList
        name := "Get".toList
        cmd := ":one".toList
        omits := []
        namedParams := ()
        edits := [⟨57, "$1".toList, "?".toList⟩]
        rvs := []
        refs := [⟨⟨1, 57⟩, (0 : Nat)⟩]
        params := [⟨1, some ⟨"id".toList, ()⟩⟩] }
      { valuesParams := []
        length := 0
        cols := []
        edits := [⟨57, "$1".toList, "?".toList⟩, ⟨7, "*".toList, "id, name".toList⟩] }
      ⟨ast.Node.SelectStmt (), 0, 60⟩ () [⟨27, "@id".toList, "$1".toList⟩] rfl rfl rfl
  have h : ([⟨57, "$1".toList, "?".toList⟩, ⟨7, "*".toList, "id, name".toList⟩] :
      List source.Edit) = [⟨57, "$1".toList, "?".toList⟩] ++ expandEdits := hpos rfl
  refine ⟨expandEdits, h, ?_⟩
  rw [← h]
  decide

theorem compiler.parseQuery.kind_of_unsupported (X : Externals)
    (n : ast.Node X.Payload X.RangeVar) (h : n.isSupportedStatement = false) :
    parseQuery.kind X n = some Error.ErrUnsupportedStatementType := by
  cases n <;> first | rfl | (simp [ast.Node.isSupportedStatement] at h)

/-- C14 as stated fails: the statement kind is not validated first.  With a
parameter-style validator that rejects the statement, `parseQuery` on a raw
statement of an unsupported kind returns the validator's error, not
`ErrUnsupportedStatementType`. -/
theorem compiler.parseQuery_unsupported_counterexample :
    (ast.Node.other () : ast.Node demoRejecting.Payload demoRejecting.RangeVar).isSupportedStatement
      = false ∧
    parseQuery demoRejecting demoRejectingCompiler
        (ast.Node.RawStmt (ast.Node.other ()) 0 12) "CREATE TABLE".toList ⟨false, false⟩
      = Outcome.error (Error.collaborator "mixed parameter styles".toList) ∧
    parseQuery demoRejecting demoRejectingCompiler
        (ast.Node.RawStmt (ast.Node.other ()) 0 12) "CREATE TABLE".toList ⟨false, false⟩
      ≠ Outcome.error Error.ErrUnsupportedStatementType := by
  have h : parseQuery demoRejecting demoRejectingCompiler
        (ast.Node.RawStmt (ast.Node.other ()) 0 12) "CREATE TABLE".toList ⟨false, false⟩
      = Outcome.error (Error.collaborator "mixed parameter styles".toList) := rfl
  refine ⟨rfl, h, ?_⟩
  rw [h]
  intro e
  cases e

/-- C14, amended: for every raw statement whose kind is not one of SELECT,
INSERT, UPDATE, DELETE, TRUNCATE, `parseQuery` produces no `Query`; it fails
with `ErrUnsupportedStatementType` when the parameter-style and the
parameter-reference validators, which run before the statement kind is
looked at, both accept the statement, and with the error of the first of the
two validators that rejects it otherwise. -/
theorem compiler.parseQuery_unsupported_statement (X : Externals) (c : Compiler X)
    (Stmt : ast.Node X.Payload X.RangeVar) (StmtLocation StmtLen : Int) (src : GoString)
    (o : opts.Parser) (hkind : Stmt.isSupportedStatement = false) :
    (X.validate_ParamStyle (ast.Node.RawStmt Stmt StmtLocation StmtLen) = none →
      X.validate_ParamRef (ast.Node.RawStmt Stmt StmtLocation StmtLen) = none →
      parseQuery X c (ast.Node.RawStmt Stmt StmtLocation StmtLen) src o
        = Outcome.error Error.ErrUnsupportedStatementType) ∧
    (∀ err, X.validate_ParamStyle (ast.Node.RawStmt Stmt StmtLocation StmtLen) = some err →
      parseQuery X c (ast.Node.RawStmt Stmt StmtLocation StmtLen) src o
        = Outcome.error (Error.collaborator err)) ∧
    (∀ err, X.validate_ParamStyle (ast.Node.RawStmt Stmt StmtLocation StmtLen) = none →
      X.validate_ParamRef (ast.Node.RawStmt Stmt StmtLocation StmtLen) = some err →
      parseQuery X c (ast.Node.RawStmt Stmt StmtLocation StmtLen) src o
        = Outcome.error (Error.collaborator err)) := by
  have hk := parseQuery.kind_of_unsupported X Stmt hkind
  refine ⟨fun h1 h2 => ?_, fun err h1 => ?_, fun err h1 h2 => ?_⟩
  · simp only [parseQuery, parseQuery.front, parseQuery.checks, h1, h2, hk]
  · simp only [parseQuery, parseQuery.front, parseQuery.checks, h1]
  · simp only [parseQuery, parseQuery.front, parseQuery.checks, h1, h2]

/-- C14 (amended) on a raw statement of an unsupported kind that the
validators accept. -/
theorem compiler.parseQuery_unsupported_statement_witness :
    parseQuery (demo []) (demoCompiler [])
        (ast.Node.RawStmt (ast.Node.other ()) 0 12) "CREATE TABLE".toList ⟨false, false⟩
      = Outcome.error Error.ErrUnsupportedStatementType :=
  (parseQuery_unsupported_statement (demo []) (demoCompiler []) (ast.Node.other ()) 0 12
    "CREATE TABLE".toList ⟨false, false⟩ rfl).1 rfl rfl

/-- C15: in `parseQuery`, when the text obtained by applying the edits
differs from the raw statement text it is re-parsed, and if the re-parse
fails `parseQuery` returns the "edited query syntax is invalid" error and no
`Query`; when the text is unchanged the parser is not called (the result is
the same with any other parser) and that error is not returned. -/
theorem compiler.parseQuery_reparse (X : Externals) (c : Compiler X)
    (stmt : ast.Node X.Payload X.RangeVar) (src : GoString) (o : opts.Parser)
    (l : parseQuery.Locals X) (e : parseQuery.Expanded X) (expanded : GoString)
    (hfront : parseQuery.front X c stmt src o = Except.ok l)
    (hstage : parseQuery.expandStage X c l = Outcome.ok e)
    (hmut : X.source_Mutate l.rawSQL e.edits = Except.ok expanded) :
    (expanded ≠ l.rawSQL → ∀ err, c.parser.Parse expanded = some err →
      parseQuery X c stmt src o = Outcome.error (Error.editedQuerySyntaxInvalid err)) ∧
    (expanded = l.rawSQL →
      (∀ err, parseQuery X c stmt src o ≠ Outcome.error (Error.editedQuerySyntaxInvalid err)) ∧
      ∀ reparse : GoString → Option X.Err,
        parseQuery X
            { catalog := c.catalog, engine := c.engine,
              parser := ⟨c.parser.CommentSyntax, reparse⟩, expand := c.expand } stmt src o
          = parseQuery X c stmt src o) := by
  have hq : parseQuery X c stmt src o = parseQuery.finish X c l e := by
    rw [parseQuery_of_front hfront, parseQuery.back_eq, hstage]
  constructor
  · intro hne err herr
    have hb : (expanded != l.rawSQL) = true := by simpa using hne
    rw [hq]
    simp only [parseQuery.finish, hmut, hb, if_true, herr]
  · intro heq
    have hb : (expanded != l.rawSQL) = false := by simpa using heq
    have hfin : ∀ c' : Compiler X, parseQuery.finish X c' l e =
        match X.source_StripComments expanded with
        | Except.error err => Outcome.error (Error.collaborator err)
        | Except.ok (trimmed, comments) =>
          Outcome.ok
            { Cmd := l.cmd, Comments := comments, Name := l.name, Params := l.params,
              Columns := e.cols, SQL := trimmed, InsertValuesLen := e.length,
              InsertValuesParameter := e.valuesParams, Omits := l.omits } := by
      intro c'
      simp only [parseQuery.finish, hmut, hb, Bool.false_eq_true, if_false]
    constructor
    · intro err
      rw [hq, hfin c]
      split
      · intro h; cases h
      · intro h; cases h
    · intro reparse
      have hfront' : parseQuery.front X
          { catalog := c.catalog, engine := c.engine,
            parser := ⟨c.parser.CommentSyntax, reparse⟩, expand := c.expand } stmt src o
          = Except.ok l := hfront
      have hstage' : parseQuery.expandStage X
          { catalog := c.catalog, engine := c.engine,
            parser := ⟨c.parser.CommentSyntax, reparse⟩, expand := c.expand } l
          = Outcome.ok e := hstage
      rw [hq, parseQuery_of_front hfront', parseQuery.back_eq, hstage', hfin c]
      exact hfin _

/-- C15 on a SELECT whose edited text differs from the raw text, with a
parser that rejects it. -/
theorem compiler.parseQuery_reparse_witness :
    parseQuery (demoNamed [⟨1, 57⟩]) (demoNamedCompiler [⟨1, 57⟩])
        (ast.Node.RawStmt (ast.Node.SelectStmt ()) 0 60)
        "-- name: Get :one\nSELECT * FROM t WHERE id = @id;".toList ⟨false, false⟩
      = Outcome.error (Error.editedQuerySyntaxInvalid "syntax error".toList) :=
  (parseQuery_reparse (demoNamed [⟨1, 57⟩]) (demoNamedCompiler [⟨1, 57⟩])
    (ast.Node.RawStmt (ast.Node.SelectStmt ()) 0 60)
    "-- name: Get :one\nSELECT * FROM t WHERE id = @id;".toList ⟨false, false⟩
    { raw := ⟨ast.Node.SelectStmt (), 0, 60⟩
      rawSQL := "-- name: Get :one\nSELECT * FROM t WHERE id = @id;".toList
      name := "Get".toList
      cmd := ":one".toList
      omits := []
      namedParams := ()
      edits := [⟨27, "@id".toList, "$1".toList⟩]
      rvs := []
      refs := [⟨⟨1, 57⟩, (0 : Nat)⟩]
      params := [⟨1, some ⟨"id".toList, ()⟩⟩] }
    { valuesParams := []
      length := 0
      cols := []
      edits := [⟨27, "@id".toList, "$1".toList⟩, ⟨7, "*".toList, "id, name".toList⟩] }
    "$1-- name: Get :one\nSELECT * FROM t WHERE id = @id;".toList
    rfl rfl rfl).1 (by decide) "syntax error".toList rfl

theorem generator.span_append (p : Char → Bool) (a b : GoString)
    (ha : ∀ c ∈ a, p c = true) (hb : ∀ c, b.head? = some c → p c = false) :
    (a ++ b).takeWhile p = a ∧ (a ++ b).dropWhile p = b := by
  induction a with
  | nil =>
    cases b with
    | nil => simp
    | cons c cs => simp [List.takeWhile, List.dropWhile, hb c rfl]
  | cons c cs ih =>
    have hc := ha c (by simp)
    obtain ⟨h1, h2⟩ := ih (fun x hx => ha x (List.mem_cons_of_mem _ hx))
    simp [List.takeWhile, List.dropWhile, hc, h1, h2]

theorem generator.FindStringSubmatch_of_type (ty rest : GoString) (hne : ty ≠ [])
    (hty : ∀ c ∈ ty, generator.isLower c = true)
    (hrest : ∀ c, rest.head? = some c → generator.isLower c = false) :
    generator.FindStringSubmatch (ty ++ rest) =
      [ty ++ (generator.typePattern.size rest).1
          ++ (generator.typePattern.qualifier (generator.typePattern.size rest).2.2).1,
        ty, (generator.typePattern.size rest).1, (generator.typePattern.size rest).2.1,
        (generator.typePattern.qualifier (generator.typePattern.size rest).2.2).1,
        (generator.typePattern.qualifier (generator.typePattern.size rest).2.2).2] := by
  obtain ⟨c, cs, rfl⟩ := List.exists_cons_of_ne_nil hne
  have hc := hty c (by simp)
  obtain ⟨h1, h2⟩ := generator.span_append generator.isLower (c :: cs) rest hty hrest
  have hd : ((c :: cs) ++ rest).dropWhile (fun x => !generator.isLower x) = (c :: cs) ++ rest := by
    simp [List.dropWhile, hc]
  unfold generator.FindStringSubmatch
  rw [hd]
  simp only [List.cons_append] at h1 h2 ⊢
  rw [h1, h2]
  simp

theorem generator.typePattern.size_of_digits (ds rest : GoString) (hne : ds ≠ [])
    (hds : ∀ c ∈ ds, strconv.isDigit c = true) :
    generator.typePattern.size ("(".toList ++ ds ++ ")".toList ++ rest) =
      ("(".toList ++ ds ++ ")".toList, ds, rest) := by
  obtain ⟨d, ds', rfl⟩ := List.exists_cons_of_ne_nil hne
  obtain ⟨h1, h2⟩ := generator.span_append strconv.isDigit (d :: ds') (')' :: rest) hds
    (by intro c hc; simp at hc; subst hc; rfl)
  have e : "(".toList ++ (d :: ds') ++ ")".toList ++ rest = '(' :: ((d :: ds') ++ (')' :: rest)) := by
    simp
  rw [e]
  unfold generator.typePattern.size
  simp only [h1, h2]
  simp

theorem strconv.Atoi_of_digits (ds : GoString) (hne : ds ≠ [])
    (hds : ∀ c ∈ ds, strconv.isDigit c = true) :
    strconv.Atoi ds =
      if (strconv.decimal ds : Int) ≤ 2 ^ 63 - 1 then Except.ok (strconv.decimal ds : Int)
      else Except.error (strconv.NumError.ErrRange ds) := by
  obtain ⟨d, ds', rfl⟩ := List.exists_cons_of_ne_nil hne
  have hd := hds d (by simp)
  have hplus : d ≠ '+' := by rintro rfl; exact absurd hd (by decide)
  have hminus : d ≠ '-' := by rintro rfl; exact absurd hd (by decide)
  have hall : (d :: ds').all strconv.isDigit = true := List.all_eq_true.mpr hds
  unfold strconv.Atoi
  split
  · rename_i r h; exact absurd (List.cons.inj h).1 hplus
  · rename_i r h; exact absurd (List.cons.inj h).1 hminus
  · simp only [hall, Bool.not_true, Bool.or_false, Bool.false_eq_true, if_false]
    have hnn : (0 : Int) ≤ (strconv.decimal (d :: ds') : Int) := Int.ofNat_nonneg _
    by_cases hle : (strconv.decimal (d :: ds') : Int) ≤ 2 ^ 63 - 1
    · have : ¬ ((strconv.decimal (d :: ds') : Int) < -(2 ^ 63) ∨
          2 ^ 63 - 1 < (strconv.decimal (d :: ds') : Int)) := by omega
      rw [if_neg this, if_pos hle]
      rfl
    · have : ((strconv.decimal (d :: ds') : Int) < -(2 ^ 63) ∨
          2 ^ 63 - 1 < (strconv.decimal (d :: ds') : Int)) := by omega
      rw [if_pos this, if_neg hle]
      rfl

theorem generator.parseType_of_submatches (typ m g1 g2 g3 g4 g5 : GoString)
    (h : generator.FindStringSubmatch typ = [m, g1, g2, g3, g4, g5]) :
    generator.GetFieldDescriptors.parseType typ =
      match (if g3 != [] then strconv.Atoi g3 else Except.ok 0) with
      | Except.error err => Outcome.error err
      | Except.ok n => Outcome.ok (g1, n, g5 == "unsigned".toList) := by
  unfold generator.GetFieldDescriptors.parseType
  rw [h]
  rfl

theorem generator.parseType_sized (typ m g1 g2 ds g4 g5 : GoString)
    (h : generator.FindStringSubmatch typ = [m, g1, g2, ds, g4, g5])
    (hne : ds ≠ []) (hds : ∀ c ∈ ds, strconv.isDigit c = true) :
    generator.GetFieldDescriptors.parseType typ =
      if (strconv.decimal ds : Int) ≤ 2 ^ 63 - 1 then
        Outcome.ok (g1, (strconv.decimal ds : Int), g5 == "unsigned".toList)
      else Outcome.error (strconv.NumError.ErrRange ds) := by
  have hb : (ds != []) = true := by simpa using hne
  rw [generator.parseType_of_submatches typ m g1 g2 ds g4 g5 h, hb, if_pos rfl,
    strconv.Atoi_of_digits ds hne hds]
  by_cases hle : (strconv.decimal ds : Int) ≤ 2 ^ 63 - 1
  · rw [if_pos hle, if_pos hle]
  · rw [if_neg hle, if_neg hle]

/-- C19 as stated fails for a size that is not a Go `int`: the type string
`int(9223372036854775808)` has the shape `<type>(<size>)`, but
`strconv.Atoi` fails on its size and the parsing returns that range error
instead of a type, a size and an unsigned flag. -/
theorem generator.parseType_size_counterexample :
    generator.GetFieldDescriptors.parseType "int(9223372036854775808)".toList
      = Outcome.error (strconv.NumError.ErrRange "9223372036854775808".toList) ∧
    strconv.decimal "9223372036854775808".toList = 2 ^ 63 := by
  constructor
  · rfl
  · decide

/-- C19, amended: for a non-empty run `ty` of lowercase letters and a
non-empty run `ds` of decimal digits, the type-string parsing of
`GetFieldDescriptors` yields on `ty`, `ty(ds)`, `ty unsigned` and
`ty(ds) unsigned` the type `ty`, the size 0 when no size is given and the
value of `ds` when that value is at most 9223372036854775807 (the largest
`int`), and `Unsigned` = true exactly for the two strings ending in
` unsigned`; for a larger size it returns the range error of
`strconv.Atoi`. -/
theorem generator.parseType_shapes (ty ds : GoString)
    (hty_ne : ty ≠ []) (hty : ∀ c ∈ ty, generator.isLower c = true)
    (hds_ne : ds ≠ []) (hds : ∀ c ∈ ds, strconv.isDigit c = true) :
    generator.GetFieldDescriptors.parseType ty = Outcome.ok (ty, 0, false) ∧
    generator.GetFieldDescriptors.parseType (ty ++ "(".toList ++ ds ++ ")".toList) =
      (if (strconv.decimal ds : Int) ≤ 2 ^ 63 - 1 then
        Outcome.ok (ty, (strconv.decimal ds : Int), false)
      else Outcome.error (strconv.NumError.ErrRange ds)) ∧
    generator.GetFieldDescriptors.parseType (ty ++ " unsigned".toList) =
      Outcome.ok (ty, 0, true) ∧
    generator.GetFieldDescriptors.parseType
        (ty ++ "(".toList ++ ds ++ ")".toList ++ " unsigned".toList) =
      (if (strconv.decimal ds : Int) ≤ 2 ^ 63 - 1 then
        Outcome.ok (ty, (strconv.decimal ds : Int), true)
      else Outcome.error (strconv.NumError.ErrRange ds)) := by
  refine ⟨?_, ?_, ?_, ?_⟩
  · have h := generator.FindStringSubmatch_of_type ty [] hty_ne hty (by simp)
    rw [List.append_nil] at h
    rw [generator.parseType_of_submatches ty _ _ _ _ _ _ h]
    rfl
  · have h := generator.FindStringSubmatch_of_type ty ("(".toList ++ ds ++ ")".toList ++ [])
      hty_ne hty (by intro c hc; simp at hc; subst hc; rfl)
    rw [generator.typePattern.size_of_digits ds [] hds_ne hds] at h
    have e : ty ++ "(".toList ++ ds ++ ")".toList
        = ty ++ ("(".toList ++ ds ++ ")".toList ++ []) := by simp
    rw [e, generator.parseType_sized _ _ _ _ ds _ _ h hds_ne hds]
    rfl
  · have h := generator.FindStringSubmatch_of_type ty " unsigned".toList hty_ne hty (by decide)
    rw [generator.parseType_of_submatches _ _ _ _ _ _ _ h]
    rfl
  · have h := generator.FindStringSubmatch_of_type ty
      ("(".toList ++ ds ++ ")".toList ++ " unsigned".toList)
      hty_ne hty (by intro c hc; simp at hc; subst hc; rfl)
    rw [generator.typePattern.size_of_digits ds " unsigned".toList hds_ne hds] at h
    have e : ty ++ "(".toList ++ ds ++ ")".toList ++ " unsigned".toList
        = ty ++ ("(".toList ++ ds ++ ")".toList ++ " unsigned".toList) := by simp
    rw [e, generator.parseType_sized _ _ _ _ ds _ _ h hds_ne hds]
    rfl

/-- C19 (amended) at `varchar(255)` and `int(10) unsigned`. -/
theorem generator.parseType_shapes_witness :
    generator.GetFieldDescriptors.parseType "varchar(255)".toList
      = Outcome.ok ("varchar".toList, 255, false) ∧
    generator.GetFieldDescriptors.parseType "int(10) unsigned".toList
      = Outcome.ok ("int".toList, 10, true) :=
  ⟨(generator.parseType_shapes "varchar".toList "255".toList (by decide) (by decide)
      (by decide) (by decide)).2.1,
   (generator.parseType_shapes "int".toList "10".toList (by decide) (by decide)
      (by decide) (by decide)).2.2.2⟩

theorem compiler.formatInt_natCast (k : Nat) : formatInt (k : Int) = Nat.toDigits 10 k := by
  unfold formatInt
  have h : ¬ ((k : Int) < 0) := by omega
  rw [if_neg h]
  simp

/-- C17: for an output column `c` at the zero-based index `pos` (an index
of a Go slice), `columnName(c, pos)` is `c.Name` when that name is not empty
and otherwise `column_` followed by the decimal digits of `pos + 1`. -/
theorem golang.columnName_spec {C : Type} (c : compiler.Column C) (pos : Int)
    (h0 : 0 ≤ pos) (h1 : pos < 2 ^ 63 - 1) :
    golang.columnName (some c) pos =
      some (if c.Name = [] then "column_".toList ++ Nat.toDigits 10 (pos.toNat + 1)
            else c.Name) := by
  unfold golang.columnName
  by_cases hn : c.Name = []
  · have hb : (c.Name != []) = false := by simp [hn]
    have hw : wrapInt (pos + 1) = ((pos.toNat + 1 : Nat) : Int) := by
      unfold wrapInt
      omega
    simp only [hb, Bool.false_eq_true, if_false, hn, if_true, hw, formatInt_natCast]
    rfl
  · have hb : (c.Name != []) = true := by simp [hn]
    simp only [hb, if_true, hn, if_false]

/-- C17 on an unnamed column at index 2 and on a column named `id`. -/
theorem golang.columnName_spec_witness :
    golang.columnName (some (⟨[], ()⟩ : compiler.Column Unit)) 2 = some "column_3".toList ∧
    golang.columnName (some (⟨"id".toList, ()⟩ : compiler.Column Unit)) 0 = some "id".toList :=
  ⟨golang.columnName_spec ⟨[], ()⟩ 2 (by decide) (by decide),
   golang.columnName_spec ⟨"id".toList, ()⟩ 0 (by decide) (by decide)⟩

theorem golang.mapGet_cons {κ : Type} [DecidableEq κ] (m : List (κ × Int)) (k k' : κ) (v : Int) :
    golang.mapGet ((k', v) :: m) k = if k = k' then v else golang.mapGet m k := by
  unfold golang.mapGet
  by_cases h : k = k'
  · subst h; simp [List.lookup]
  · have hb : (k == k') = false := by simpa using h
    simp [List.lookup, hb, h]

theorem golang.columnName_some {C : Type} (col : compiler.Column C) (pos : Int) :
    ∃ n, golang.columnName (some col) pos = some n := by
  by_cases h : (col.Name != []) = true
  · exact ⟨col.Name, by simp only [golang.columnName, h, if_true]⟩
  · exact ⟨"column_".toList ++ formatInt (wrapInt (pos + 1)),
      by simp only [golang.columnName, h, Bool.false_eq_true, if_false]⟩

theorem golang.columnsToStruct.loop_step (X : golang.Externals)
    (r : compiler.Result X.ColRest X.Catalog) (settings : X.Settings) (i : Nat)
    (c : golang.goColumn X.ColRest) (cs : List (golang.goColumn X.ColRest))
    (seen : List (GoString × Int)) (suffixes : List (Int × Int)) (fields : List golang.Field)
    (n : GoString) (m : Nat)
    (hn : golang.columnName c.Column i = some n)
    (hsuf : suffixes.lookup c.id = none)
    (hseen : golang.mapGet seen n = (m : Int)) :
    golang.columnsToStruct.loop X r settings i (c :: cs) seen suffixes fields =
      golang.columnsToStruct.loop X r settings (i + 1) cs
        ((n, ((m + 1 : Nat) : Int)) :: seen)
        ((c.id, if m = 0 then (0 : Int) else ((m + 1 : Nat) : Int)) :: suffixes)
        (fields ++ [golang.suffixedField X r settings c n (m + 1)]) := by
  rw [golang.columnsToStruct.loop]
  simp only [hn, hsuf, hseen]
  by_cases hm : m = 0
  · subst hm
    simp [golang.suffixedField, golang.withSuffix]
  · have hpos : ((m : Nat) : Int) > 0 := by omega
    have hpos2 : ((m : Int) + 1) > 0 := by omega
    have hk : ¬ (m + 1 ≤ 1) := by omega
    have hf : formatInt ((m : Int) + 1) = Nat.toDigits 10 (m + 1) := by
      have := formatInt_natCast (m + 1)
      simpa using this
    simp only [hpos, if_true, hpos2, hf, hm, if_false, golang.suffixedField, golang.withSuffix,
      hk, Nat.cast_add, Nat.cast_one]

theorem golang.columnsToStruct.loop_spec (X : golang.Externals)
    (r : compiler.Result X.ColRest X.Catalog) (settings : X.Settings) :
    ∀ (cs : List (golang.goColumn X.ColRest)) (i : Nat) (seen : List (GoString × Int))
      (suffixes : List (Int × Int)) (fields : List golang.Field) (pn : List GoString),
      (∀ n, golang.mapGet seen n = ((pn.count n : Nat) : Int)) →
      (∀ c ∈ cs, suffixes.lookup c.id = none) →
      (cs.map (fun c => c.id)).Nodup →
      (∀ c ∈ cs, c.Column ≠ none) →
      ∃ out, golang.columnsToStruct.loop X r settings i cs seen suffixes fields
          = some (fields ++ out) ∧
        out.length = cs.length ∧
        ∀ pre c post, cs = pre ++ c :: post →
          ∀ n, golang.columnName c.Column ((i + pre.length : Nat) : Int) = some n →
            out[pre.length]? = some (golang.suffixedField X r settings c n
              ((pn ++ golang.columnNames.from i pre).count n + 1)) := by
  intro cs
  induction cs with
  | nil =>
    intro i seen suffixes fields pn _ _ _ _
    refine ⟨[], by simp [golang.columnsToStruct.loop], rfl, ?_⟩
    intro pre c post h
    cases pre <;> cases h
  | cons c cs ih =>
    intro i seen suffixes fields pn hseen hsuf hid hcol
    obtain ⟨col, hc⟩ := Option.ne_none_iff_exists'.mp (hcol c (by simp))
    obtain ⟨n0, hn0⟩ : ∃ n0, golang.columnName c.Column (i : Int) = some n0 := by
      rw [hc]
      exact golang.columnName_some col i
    rw [List.map_cons, List.nodup_cons] at hid
    have hstep := golang.columnsToStruct.loop_step X r settings i c cs seen suffixes fields n0
      (pn.count n0) hn0 (hsuf c (by simp)) (hseen n0)
    obtain ⟨out, hout, hlen, hspec⟩ := ih (i + 1)
      ((n0, ((pn.count n0 + 1 : Nat) : Int)) :: seen)
      ((c.id, if pn.count n0 = 0 then (0 : Int) else ((pn.count n0 + 1 : Nat) : Int)) :: suffixes)
      (fields ++ [golang.suffixedField X r settings c n0 (pn.count n0 + 1)]) (pn ++ [n0])
      (by
        intro n
        rw [golang.mapGet_cons, hseen n, List.count_append]
        by_cases hnn : n = n0
        · subst hnn; simp
        · have : List.count n [n0] = 0 := by
            simp [List.count_cons, Ne.symm hnn]
          simp [hnn, this])
      (by
        intro c' hc'
        have hne : c'.id ≠ c.id := by
          intro e
          exact hid.1 (e ▸ List.mem_map_of_mem (fun c => c.id) hc')
        have hb : (c'.id == c.id) = false := by simpa using hne
        simp only [List.lookup, hb]
        exact hsuf c' (List.mem_cons_of_mem _ hc'))
      hid.2
      (fun c' hc' => hcol c' (List.mem_cons_of_mem _ hc'))
    refine ⟨golang.suffixedField X r settings c n0 (pn.count n0 + 1) :: out, ?_, by simp [hlen], ?_⟩
    · rw [hstep, hout]
      simp
    · intro pre c2 post hdecomp n hn
      cases pre with
      | nil =>
        simp only [List.nil_append, List.cons.injEq] at hdecomp
        obtain ⟨rfl, _⟩ := hdecomp
        simp only [List.length_nil, Nat.add_zero] at hn
        rw [hn0] at hn
        cases hn
        simp [golang.columnNames.from]
      | cons p pre' =>
        simp only [List.cons_append, List.cons.injEq] at hdecomp
        obtain ⟨hp, hcs⟩ := hdecomp
        subst hp
        have hidx : ((i + 1 + pre'.length : Nat) : Int) = ((i + (c :: pre').length : Nat) : Int) := by
          simp only [List.length_cons]; congr 1; omega
        have := hspec pre' c2 post hcs n (by rw [hidx]; exact hn)
        simp only [List.length_cons, List.getElem?_cons_succ]
        rw [this]
        simp [golang.columnNames.from, hn0]

/-- C18: for a column list whose ids are pairwise distinct (each column
carrying a `Column`), `columnsToStruct` yields exactly one field per column,
in column order.  The column named `n` (by `columnName`) that is the `k`-th
column of the list with that name gets, for `k` = 1, the tag `n` and the
field name `StructName(n)`, and for `k` ≥ 2 the tag `n_k` and the field name
`StructName(n)_k`. -/
theorem golang.columnsToStruct_suffixes (X : golang.Externals)
    (r : compiler.Result X.ColRest X.Catalog) (name : GoString)
    (columns : List (golang.goColumn X.ColRest)) (settings : X.Settings)
    (hid : (columns.map (fun c => c.id)).Nodup)
    (hcol : ∀ c ∈ columns, c.Column ≠ none) :
    ∃ fields, golang.columnsToStruct X r name columns settings
        = some { Table := ⟨[], [], []⟩, Name := name, Fields := fields, Comment := [] } ∧
      fields.length = columns.length ∧
      ∀ pre c post, columns = pre ++ c :: post →
        ∀ n, golang.columnName c.Column (pre.length : Int) = some n →
          fields[pre.length]? = some (golang.suffixedField X r settings c n
            ((golang.columnNames pre).count n + 1)) := by
  obtain ⟨out, hout, hlen, hspec⟩ := golang.columnsToStruct.loop_spec X r settings columns 0
    [] [] [] [] (by intro n; simp [golang.mapGet]) (by intro c _; rfl) hid hcol
  refine ⟨out, ?_, hlen, ?_⟩
  · simp only [golang.columnsToStruct, hout, List.nil_append]
  · intro pre c post hdecomp n hn
    have := hspec pre c post hdecomp n (by simpa using hn)
    simpa [golang.columnNames] using this

/-- C18 on the columns `count`, `count`, `count_2` with ids 0, 1, 2: the
JSON tags are `count`, `count_2`, `count_2` and the field names `Count`,
`Count_2`, `Count2`. -/
theorem golang.columnsToStruct_suffixes_witness :
    ∃ fields, golang.columnsToStruct golang.demo ⟨(), []⟩ "GetRow".toList
        [⟨0, some ⟨"count".toList, ()⟩, false⟩, ⟨1, some ⟨"count".toList, ()⟩, false⟩,
          ⟨2, some ⟨"count_2".toList, ()⟩, false⟩] ()
        = some { Table := ⟨[], [], []⟩, Name := "GetRow".toList, Fields := fields,
                 Comment := [] } ∧
      fields.length = 3 ∧
      fields[0]? = some ⟨"Count".toList, "int32".toList, [("json:".toList, "count".toList)], [],
        false⟩ ∧
      fields[1]? = some ⟨"Count_2".toList, "int32".toList,
        [("json:".toList, "count_2".toList)], [], false⟩ ∧
      fields[2]? = some ⟨"Count2".toList, "int32".toList,
        [("json:".toList, "count_2".toList)], [], false⟩ := by
  obtain ⟨fields, h, hlen, hspec⟩ := golang.columnsToStruct_suffixes golang.demo ⟨(), []⟩
    "GetRow".toList
    [⟨0, some ⟨"count".toList, ()⟩, false⟩, ⟨1, some ⟨"count".toList, ()⟩, false⟩,
      ⟨2, some ⟨"count_2".toList, ()⟩, false⟩] () (by decide)
    (by
      intro c hc
      simp only [List.mem_cons, List.mem_singleton, List.not_mem_nil, or_false] at hc
      rcases hc with rfl | rfl | rfl <;> exact Option.some_ne_none _)
  exact ⟨fields, h, hlen,
    hspec [] ⟨0, some ⟨"count".toList, ()⟩, false⟩
      [⟨1, some ⟨"count".toList, ()⟩, false⟩, ⟨2, some ⟨"count_2".toList, ()⟩, false⟩] rfl
      "count".toList rfl,
    hspec [⟨0, some ⟨"count".toList, ()⟩, false⟩] ⟨1, some ⟨"count".toList, ()⟩, false⟩
      [⟨2, some ⟨"count_2".toList, ()⟩, false⟩] rfl "count".toList rfl,
    hspec [⟨0, some ⟨"count".toList, ()⟩, false⟩, ⟨1, some ⟨"count".toList, ()⟩, false⟩]
      ⟨2, some ⟨"count_2".toList, ()⟩, false⟩ [] rfl "count_2".toList rfl⟩

theorem GoString.less_asymm : ∀ (a b : GoString), GoString.less a b = true →
    GoString.less b a = false
  | _, [], h => by simp [GoString.less] at h
  | [], _ :: _, _ => by simp [GoString.less]
  | x :: as, y :: bs, h => by
    unfold GoString.less at h ⊢
    by_cases h1 : x.toNat < y.toNat
    · have h2 : ¬ y.toNat < x.toNat := by omega
      simp [h1, h2]
    · by_cases h2 : y.toNat < x.toNat
      · simp [h1, h2] at h
      · simp only [h1, h2, if_false] at h ⊢
        exact GoString.less_asymm as bs h

theorem GoString.less_le_trans : ∀ (a b c : GoString), GoString.less b a = false →
    GoString.less c b = false → GoString.less c a = false
  | [], _, c, _, _ => by cases c <;> simp [GoString.less]
  | _ :: _, [], _, h1, _ => by simp [GoString.less] at h1
  | _ :: _, _ :: _, [], _, h2 => by simp [GoString.less] at h2
  | x :: as, y :: bs, z :: cs, h1, h2 => by
    unfold GoString.less at h1 h2 ⊢
    by_cases hyx : y.toNat < x.toNat
    · simp [hyx] at h1
    · by_cases hzy : z.toNat < y.toNat
      · simp [hzy] at h2
      · simp only [hyx, hzy, if_false] at h1 h2
        have hzx : ¬ z.toNat < x.toNat := by omega
        simp only [hzx, if_false]
        by_cases hxz : x.toNat < z.toNat
        · simp [hxz]
        · have hxy : ¬ x.toNat < y.toNat := by omega
          have hyz : ¬ y.toNat < z.toNat := by omega
          simp only [hxy, hyz, if_false] at h1 h2
          simp only [hxz, if_false]
          exact GoString.less_le_trans as bs cs h1 h2

theorem compiler.sortSlice.insert_sorted_of {α : Type} (less : α → α → Bool)
    (hasymm : ∀ a b, less a b = true → less b a = false)
    (htrans : ∀ a b c, less b a = false → less c b = false → less c a = false)
    (x : α) (l : List α) (h : l.Pairwise (fun a b => less b a = false)) :
    (sortSlice.insert less x l).Pairwise (fun a b => less b a = false) := by
  induction l with
  | nil => simp [sortSlice.insert]
  | cons y ys ih =>
    rw [List.pairwise_cons] at h
    unfold sortSlice.insert
    by_cases hxy : less x y = true
    · simp only [hxy, if_true]
      refine List.Pairwise.cons ?_ (List.Pairwise.cons h.1 h.2)
      intro b hb
      rcases List.mem_cons.mp hb with rfl | hb
      · exact hasymm _ _ hxy
      · exact htrans x y b (hasymm _ _ hxy) (h.1 b hb)
    · simp only [hxy, Bool.false_eq_true, if_false]
      refine List.Pairwise.cons ?_ (ih h.2)
      intro b hb
      rcases List.mem_cons.mp ((sortSlice.insert_perm _ x ys).subset hb) with rfl | hb
      · simpa using hxy
      · exact h.1 b hb

theorem compiler.sortSlice_sorted_of {α : Type} (less : α → α → Bool)
    (hasymm : ∀ a b, less a b = true → less b a = false)
    (htrans : ∀ a b c, less b a = false → less c b = false → less c a = false)
    (l : List α) : (sortSlice less l).Pairwise (fun a b => less b a = false) := by
  induction l with
  | nil => exact List.Pairwise.nil
  | cons x xs ih => exact sortSlice.insert_sorted_of less hasymm htrans x _ ih

theorem golang.buildQueries.query_fields (X : golang.Externals)
    (r : compiler.Result X.ColRest X.Catalog) (settings : X.Settings)
    (structs : List golang.Struct) (q : compiler.Query X.ColRest) (gq : golang.Query)
    (h : golang.buildQueries.query X r settings structs q = some gq) :
    gq.MethodName = q.Name ∧ gq.Cmd = q.Cmd ∧ gq.SQL = q.SQL ∧ gq.SourceName = q.Filename := by
  unfold golang.buildQueries.query at h
  split at h
  · cases h
  · split at h
    · cases h
    · simp only [Option.some.injEq] at h
      subst h
      exact ⟨rfl, rfl, rfl, rfl⟩

theorem golang.buildQueries.loop_built (X : golang.Externals)
    (r : compiler.Result X.ColRest X.Catalog) (settings : X.Settings)
    (structs : List golang.Struct) :
    ∀ (queries : List (compiler.Query X.ColRest)) (qs out : List golang.Query),
      golang.buildQueries.loop X r settings structs queries qs = some out →
      ∃ built, out = qs ++ built ∧
        List.Forall₂
          (fun (q : compiler.Query X.ColRest) (gq : golang.Query) =>
            golang.buildQueries.query X r settings structs q = some gq)
          (queries.filter (fun q => q.Name != [] && q.Cmd != [])) built := by
  intro queries
  induction queries with
  | nil =>
    intro qs out h
    simp only [golang.buildQueries.loop, Option.some.injEq] at h
    exact ⟨[], by simp [h], List.Forall₂.nil⟩
  | cons q queries ih =>
    intro qs out h
    rw [golang.buildQueries.loop] at h
    by_cases hn : q.Name = []
    · have hb : (q.Name == []) = true := by simp [hn]
      simp only [hb, if_true] at h
      obtain ⟨built, h1, h2⟩ := ih qs out h
      refine ⟨built, h1, ?_⟩
      have hf : (q.Name != [] && q.Cmd != []) = false := by simp [hn]
      rw [List.filter_cons, hf]
      exact h2
    · have hb : (q.Name == []) = false := by simp [hn]
      by_cases hc : q.Cmd = []
      · have hb2 : (q.Cmd == []) = true := by simp [hc]
        simp only [hb, hb2, Bool.false_eq_true, if_false, if_true] at h
        obtain ⟨built, h1, h2⟩ := ih qs out h
        refine ⟨built, h1, ?_⟩
        have hf : (q.Name != [] && q.Cmd != []) = false := by simp [hc]
        rw [List.filter_cons, hf]
        exact h2
      · have hb2 : (q.Cmd == []) = false := by simp [hc]
        simp only [hb, hb2, Bool.false_eq_true, if_false] at h
        have hf : (q.Name != [] && q.Cmd != []) = true := by simp [hn, hc]
        cases hq : golang.buildQueries.query X r settings structs q with
        | none => simp [hq] at h
        | some gq =>
          simp only [hq] at h
          obtain ⟨built, h1, h2⟩ := ih (qs ++ [gq]) out h
          refine ⟨gq :: built, by simp [h1], ?_⟩
          rw [List.filter_cons, hf]
          exact List.Forall₂.cons hq h2

theorem golang.columnsToStruct.loop_total (X : golang.Externals)
    (r : compiler.Result X.ColRest X.Catalog) (settings : X.Settings) :
    ∀ (cs : List (golang.goColumn X.ColRest)) (i : Nat) (seen : List (GoString × Int))
      (suffixes : List (Int × Int)) (fields : List golang.Field),
      (∀ c ∈ cs, c.Column ≠ none) →
      ∃ out, golang.columnsToStruct.loop X r settings i cs seen suffixes fields = some out := by
  intro cs
  induction cs with
  | nil => intro i seen suffixes fields _; exact ⟨fields, rfl⟩
  | cons c cs ih =>
    intro i seen suffixes fields hcol
    obtain ⟨col, hc⟩ := Option.ne_none_iff_exists'.mp (hcol c (by simp))
    obtain ⟨n0, hn0⟩ := golang.columnName_some col (i : Int)
    rw [← hc] at hn0
    rw [golang.columnsToStruct.loop]
    simp only [hn0]
    exact ih _ _ _ _ (fun c' hc' => hcol c' (List.mem_cons_of_mem _ hc'))

theorem golang.columnsToStruct_total (X : golang.Externals)
    (r : compiler.Result X.ColRest X.Catalog) (name : GoString)
    (columns : List (golang.goColumn X.ColRest)) (settings : X.Settings)
    (hcol : ∀ c ∈ columns, c.Column ≠ none) :
    ∃ s, golang.columnsToStruct X r name columns settings = some s := by
  obtain ⟨out, h⟩ := golang.columnsToStruct.loop_total X r settings columns 0 [] [] [] hcol
  unfold golang.columnsToStruct
  rw [h]
  exact ⟨_, rfl⟩

theorem golang.buildQueries.same_total (X : golang.Externals)
    (r : compiler.Result X.ColRest X.Catalog) (settings : X.Settings) (sTable : core.FQN) :
    ∀ (fs : List golang.Field) (cs : List (compiler.Column X.ColRest)) (i : Nat) (same : Bool),
      fs.length = cs.length →
      ∃ b, golang.buildQueries.same X r settings sTable i fs cs same = some b := by
  intro fs
  induction fs with
  | nil => intro cs i same _; exact ⟨same, by simp [golang.buildQueries.same]⟩
  | cons f fs ih =>
    intro cs i same hlen
    cases cs with
    | nil => simp at hlen
    | cons c cs =>
      obtain ⟨n0, hn0⟩ := golang.columnName_some c (i : Int)
      rw [golang.buildQueries.same]
      simp only [hn0]
      exact ih cs _ _ (by simpa using hlen)

theorem golang.buildQueries.find_total (X : golang.Externals)
    (r : compiler.Result X.ColRest X.Catalog) (settings : X.Settings)
    (columns : List (compiler.Column X.ColRest)) :
    ∀ structs : List golang.Struct,
      ∃ g, golang.buildQueries.find X r settings columns structs = some g := by
  intro structs
  induction structs with
  | nil => exact ⟨none, rfl⟩
  | cons s structs ih =>
    rw [golang.buildQueries.find]
    by_cases hlen : s.Fields.length = columns.length
    · have hb : (s.Fields.length != columns.length) = false := by simp [hlen]
      obtain ⟨b, hsame⟩ := golang.buildQueries.same_total X r settings s.Table s.Fields columns
        0 true hlen
      simp only [hb, Bool.false_eq_true, if_false, hsame]
      cases b with
      | true => exact ⟨some s, rfl⟩
      | false => exact ih
    · have hb : (s.Fields.length != columns.length) = true := by simp [hlen]
      simp only [hb, if_true]
      exact ih

theorem golang.exists_of_mem_zipWith {α β γ : Type} (f : α → β → γ) :
    ∀ (l₁ : List α) (l₂ : List β) (c : γ), c ∈ List.zipWith f l₁ l₂ → ∃ a b, f a b = c
  | [], _, _, h => by simp at h
  | _ :: _, [], _, h => by simp at h
  | a :: l₁, b :: l₂, c, h => by
    rw [List.zipWith_cons_cons, List.mem_cons] at h
    rcases h with h | h
    · exact ⟨a, b, h.symm⟩
    · exact golang.exists_of_mem_zipWith f l₁ l₂ c h

theorem golang.buildQueries.ret_total (X : golang.Externals)
    (r : compiler.Result X.ColRest X.Catalog) (settings : X.Settings)
    (structs : List golang.Struct) (methodName : GoString)
    (columns : List (compiler.Column X.ColRest)) :
    ∃ v, golang.buildQueries.ret X r settings structs methodName columns = some v := by
  unfold golang.buildQueries.ret
  split
  · exact ⟨_, rfl⟩
  · rename_i c
    obtain ⟨n0, hn0⟩ := golang.columnName_some c 0
    rw [hn0]
    exact ⟨_, rfl⟩
  · obtain ⟨g, hg⟩ := golang.buildQueries.find_total X r settings columns structs
    rw [hg]
    cases g with
    | some gs => exact ⟨_, rfl⟩
    | none =>
      obtain ⟨s, hs⟩ := golang.columnsToStruct_total X r (methodName ++ "Row".toList)
        ((List.range columns.length).zipWith
          (fun i c => (⟨(i : Int), some c, golang.isSlice X (some c)⟩ :
            golang.goColumn X.ColRest)) columns)
        settings
        (by
          intro c hc
          obtain ⟨i, c', rfl⟩ := golang.exists_of_mem_zipWith _ _ _ c hc
          exact Option.some_ne_none _)
      simp only [hs]
      exact ⟨_, rfl⟩

theorem golang.buildQueries.arg_total (X : golang.Externals)
    (r : compiler.Result X.ColRest X.Catalog) (settings : X.Settings) (methodName : GoString)
    (params : List (compiler.Parameter X.ColRest))
    (hres : 2 ≤ params.length → ∀ p ∈ params, p.Column ≠ none) :
    ∃ v, golang.buildQueries.arg X r settings methodName params = some v := by
  unfold golang.buildQueries.arg
  split
  · exact ⟨_, rfl⟩
  · exact ⟨_, rfl⟩
  · rename_i h0 h1
    have hlen : 2 ≤ params.length := by
      cases params with
      | nil => exact absurd rfl h0
      | cons p ps =>
        cases ps with
        | nil => exact absurd rfl (h1 p)
        | cons p2 ps => simp
    obtain ⟨s, hs⟩ := golang.columnsToStruct_total X r (methodName ++ "Params".toList)
      (params.map fun p => (⟨p.Number, p.Column, golang.isSlice X p.Column⟩ :
        golang.goColumn X.ColRest)) settings
      (by
        intro c hc
        obtain ⟨p, hp, rfl⟩ := List.mem_map.mp hc
        exact hres hlen p hp)
    simp only [hs]
    exact ⟨_, rfl⟩

theorem golang.buildQueries.loop_returns (X : golang.Externals)
    (r : compiler.Result X.ColRest X.Catalog) (settings : X.Settings)
    (structs : List golang.Struct) :
    ∀ (queries : List (compiler.Query X.ColRest)) (qs : List golang.Query),
      (∀ q ∈ queries, 2 ≤ q.Params.length → ∀ p ∈ q.Params, p.Column ≠ none) →
      ∃ out, golang.buildQueries.loop X r settings structs queries qs = some out := by
  intro queries
  induction queries with
  | nil => intro qs _; exact ⟨qs, rfl⟩
  | cons q queries ih =>
    intro qs hres
    have hres' : ∀ q' ∈ queries, 2 ≤ q'.Params.length → ∀ p ∈ q'.Params, p.Column ≠ none :=
      fun q' hq' => hres q' (List.mem_cons_of_mem _ hq')
    rw [golang.buildQueries.loop]
    split
    · exact ih qs hres'
    · split
      · exact ih qs hres'
      · obtain ⟨a, ha⟩ := golang.buildQueries.arg_total X r settings q.Name q.Params
          (hres q (by simp))
        obtain ⟨v, hv⟩ := golang.buildQueries.ret_total X r settings structs q.Name q.Columns
        simp only [golang.buildQueries.query, ha, hv]
        exact ih _ hres'

/-- C16: the list `buildQueries` returns is sorted in ascending order of
`MethodName`, whatever the order of the compiled queries, and it holds, up to
that reordering, exactly one generated query for each compiled query that has
a non-empty name and a non-empty command, with that name as `MethodName`, and
none for the other compiled queries.  `buildQueries` does return a list when
the parameters of the queries with two or more parameters all carry a
`Column`. -/
theorem golang.buildQueries_sorted (X : golang.Externals)
    (r : compiler.Result X.ColRest X.Catalog) (settings : X.Settings)
    (structs : List golang.Struct) :
    (∀ qs, golang.buildQueries X r settings structs = some qs →
      qs.Pairwise (fun a b => GoString.less b.MethodName a.MethodName = false) ∧
      ∃ built, qs.Perm built ∧
        List.Forall₂
          (fun (q : compiler.Query X.ColRest) (gq : golang.Query) =>
            gq.MethodName = q.Name ∧ gq.Cmd = q.Cmd ∧ gq.SQL = q.SQL)
          (r.Queries.filter (fun q => q.Name != [] && q.Cmd != [])) built) ∧
    ((∀ q ∈ r.Queries, 2 ≤ q.Params.length → ∀ p ∈ q.Params, p.Column ≠ none) →
      ∃ qs, golang.buildQueries X r settings structs = some qs) := by
  constructor
  · intro qs h
    unfold golang.buildQueries at h
    cases hl : golang.buildQueries.loop X r settings structs r.Queries [] with
    | none => simp [hl] at h
    | some out =>
      simp only [hl, Option.some.injEq] at h
      subst h
      obtain ⟨built, h1, h2⟩ := golang.buildQueries.loop_built X r settings structs r.Queries
        [] out hl
      rw [List.nil_append] at h1
      subst h1
      refine ⟨?_, out, sortSlice_perm _ out, ?_⟩
      · exact sortSlice_sorted_of
          (fun a b : golang.Query => GoString.less a.MethodName b.MethodName)
          (fun a b => GoString.less_asymm a.MethodName b.MethodName)
          (fun a b c => GoString.less_le_trans a.MethodName b.MethodName c.MethodName) out
      · refine h2.imp ?_
        intro q gq hq
        obtain ⟨e1, e2, e3, _⟩ := golang.buildQueries.query_fields X r settings structs q gq hq
        exact ⟨e1, e2, e3⟩
  · intro hres
    obtain ⟨out, hout⟩ := golang.buildQueries.loop_returns X r settings structs r.Queries []
      hres
    unfold golang.buildQueries
    rw [hout]
    exact ⟨_, rfl⟩

/-- C16 on five compiled queries, in the order `Zeta`, a query without a
name, `Alpha`, a query without a command and `Beta`: the method names of the
generated queries are `Alpha`, `Beta`, `Zeta`. -/
theorem golang.buildQueries_sorted_witness :
    ∃ qs, golang.buildQueries golang.demo golang.demoResult () [] = some qs ∧
      qs.map (fun gq => gq.MethodName) = ["Alpha".toList, "Beta".toList, "Zeta".toList] := by
  obtain ⟨qs, h⟩ := (golang.buildQueries_sorted golang.demo golang.demoResult () []).2
    (by
      intro q hq _ p hp
      simp only [golang.demoResult, List.mem_cons, List.mem_singleton, List.not_mem_nil,
        or_false] at hq
      rcases hq with rfl | rfl | rfl | rfl | rfl
      · cases hp
      · cases hp
      · simp only [List.mem_cons, List.mem_singleton, List.not_mem_nil, or_false] at hp
        rcases hp with rfl | rfl <;> exact Option.some_ne_none _
      · cases hp
      · cases hp)
  refine ⟨qs, h, ?_⟩
  have h2 : (golang.buildQueries golang.demo golang.demoResult () []).map
      (fun qs => qs.map (fun gq => gq.MethodName))
      = some ["Alpha".toList, "Beta".toList, "Zeta".toList] := by decide
  rw [h] at h2
  simpa using h2

theorem generator.FindStringSubmatch_cases (typ : GoString) :
    ((∀ c ∈ typ, generator.isLower c = false) ∧ generator.FindStringSubmatch typ = []) ∨
    ((∃ c ∈ typ, generator.isLower c = true) ∧
      ∃ m g1 g2 g3 g4 g5, generator.FindStringSubmatch typ = [m, g1, g2, g3, g4, g5]) := by
  unfold generator.FindStringSubmatch
  cases h : typ.dropWhile (fun c => !generator.isLower c) with
  | nil =>
    left
    refine ⟨?_, rfl⟩
    intro c hc
    have := List.dropWhile_eq_nil_iff.mp h c hc
    simpa using this
  | cons a t =>
    right
    refine ⟨?_, _, _, _, _, _, _, rfl⟩
    by_contra hno
    have hall : ∀ c ∈ typ, (!generator.isLower c) = true := by
      intro c hc
      by_contra hcl
      exact hno ⟨c, hc, by simpa using hcl⟩
    rw [List.dropWhile_eq_nil_iff.mpr hall] at h
    cases h

/-- C20 fails on the code: the type-string parsing of `GetFieldDescriptors`
panics exactly on the type strings that contain no lowercase letter.  There
`FindStringSubmatch` returns nil and `submatches[1]` is out of range; the
empty string, which is what `row["Type"]` is when the `Type` value is NULL
or missing, and `INT` are such strings, and `GetFieldDescriptors` panics on a
row whose `Type` is NULL. -/
theorem generator.parseType_panic_iff :
    (∀ typ : GoString, generator.GetFieldDescriptors.parseType typ = Outcome.panic ↔
      ∀ c ∈ typ, generator.isLower c = false) ∧
    generator.GetFieldDescriptors.parseType [] = Outcome.panic ∧
    generator.GetFieldDescriptors.parseType "INT".toList = Outcome.panic ∧
    generator.GetFieldDescriptors.parseType "decimal(10,2) unsigned".toList
      = Outcome.ok ("decimal".toList, 0, false) ∧
    generator.GetFieldDescriptors
        (⟨fun _ => Except.ok [Except.ok [("Field".toList, some "id".toList),
          ("Type".toList, none), ("Null".toList, some "NO".toList)]]⟩ :
          generator.mysqlSchemaFetcher Unit) "users".toList
      = Outcome.panic := by
  refine ⟨fun typ => ?_, rfl, rfl, rfl, rfl⟩
  rcases generator.FindStringSubmatch_cases typ with ⟨hno, hnil⟩ | ⟨⟨c, hc, hl⟩, hsub⟩
  · constructor
    · intro _; exact hno
    · intro _
      unfold generator.GetFieldDescriptors.parseType
      rw [hnil]
      rfl
  · obtain ⟨m, g1, g2, g3, g4, g5, h⟩ := hsub
    constructor
    · intro hp
      rw [generator.parseType_of_submatches typ m g1 g2 g3 g4 g5 h] at hp
      split at hp <;> cases hp
    · intro hno
      rw [hno c hc] at hl
      cases hl

theorem strings.TrimLeft_cons_of_head {s : GoString} {cut : Char}
    (h : ∀ c, s.head? = some c → c ≠ cut) : strings.TrimLeft (cut :: s) cut = s := by
  unfold strings.TrimLeft
  rw [List.dropWhile_cons_of_pos (by simp)]
  cases s with
  | nil => rfl
  | cons a r =>
    have : (a == cut) = false := by simpa using h a rfl
    simp only [List.dropWhile, this]

theorem strings.TrimRight_concat_of_getLast {s : GoString} {cut : Char}
    (h : ∀ c, s.getLast? = some c → c ≠ cut) : strings.TrimRight (s ++ [cut]) cut = s := by
  unfold strings.TrimRight
  rw [List.reverse_append, List.reverse_singleton, List.singleton_append,
    List.dropWhile_cons_of_pos (by simp)]
  have : s.reverse.dropWhile (· == cut) = s.reverse := by
    cases hr : s.reverse with
    | nil => rfl
    | cons a r =>
      have hl : s.getLast? = some a := by
        rw [List.getLast?_eq_head?_reverse, hr]; rfl
      have : (a == cut) = false := by simpa using h a hl
      simp only [List.dropWhile, this]
  rw [this, List.reverse_reverse]

/-- C21: for every non-empty list of omit names none of which contains a
comma or a square bracket, `parseOmits` applied to `[`, the names joined by
commas, and `]` returns exactly that list of names, in order. -/
theorem metadata.parseOmits_bracketed (names : List GoString) (hne : names ≠ [])
    (hchars : ∀ n ∈ names, ',' ∉ n ∧ '[' ∉ n ∧ ']' ∉ n) :
    parseOmits ("[".toList ++ strings.Join names ",".toList ++ "]".toList) = names := by
  have hl : '[' ∉ strings.Join names [','] :=
    strings.not_mem_Join (by decide) names (fun n hn => (hchars n hn).2.1)
  have hr : ']' ∉ strings.Join names [','] :=
    strings.not_mem_Join (by decide) names (fun n hn => (hchars n hn).2.2)
  have e : ("[".toList ++ strings.Join names ",".toList ++ "]".toList : GoString)
      = '[' :: (strings.Join names [','] ++ [']']) := by
    simp
  have hts : strings.TrimSpace ('[' :: (strings.Join names [','] ++ [']']))
      = '[' :: (strings.Join names [','] ++ [']']) := by
    apply strings.TrimSpace_eq_self
    · intro c hc
      simp only [List.head?_cons, Option.some.injEq] at hc
      subst hc
      decide
    · intro c hc
      rw [← List.cons_append, List.getLast?_append, List.getLast?_singleton] at hc
      cases hc
      decide
  unfold parseOmits
  simp only [e, hts]
  rw [strings.TrimLeft_cons_of_head, strings.TrimRight_concat_of_getLast]
  · exact strings.Split_Join hne (fun n hn => (hchars n hn).1)
  · intro c hc e
    exact hr (e ▸ List.mem_of_mem_getLast? hc)
  · intro c hc e
    cases hj : strings.Join names [','] with
    | nil => rw [hj] at hc; simp at hc; subst hc; exact absurd e (by decide)
    | cons a r =>
      rw [hj] at hc
      simp at hc
      subst hc
      exact hl (by rw [hj, e]; simp)

/-- C21 on the names `id`, `created_at`: the tail `[id,created_at]` parses
back to the two names; and on the one empty name. -/
theorem metadata.parseOmits_bracketed_witness :
    parseOmits "[id,created_at]".toList = ["id".toList, "created_at".toList] ∧
    parseOmits "[]".toList = [[]] :=
  ⟨metadata.parseOmits_bracketed ["id".toList, "created_at".toList] (by decide) (by decide),
   metadata.parseOmits_bracketed [[]] (by decide) (by decide)⟩

theorem compiler.validateOmits.columns_eq_none_iff {C : Type} (params : List (Parameter C)) :
    ∀ column : List GoString,
      validateOmits.columns column params = none ↔ ∃ p ∈ params, p.Column = none := by
  induction params with
  | nil => intro column; simp [validateOmits.columns]
  | cons p ps ih =>
    intro column
    cases hp : p.Column with
    | none =>
      simp only [validateOmits.columns, hp, true_iff]
      exact ⟨p, by simp, hp⟩
    | some col =>
      simp only [validateOmits.columns, hp, ih, List.mem_cons, exists_eq_or_imp, reduceCtorEq,
        false_or]

/-- C24 fails on the code: `validateOmits` reads `p.Column.Name` for every
parameter before it looks at the omit list, so it panics (nil pointer
dereference) exactly when some parameter has a nil `Column`, whatever the
omit list is.  With an empty omit list and the one parameter `$1` without a
column it panics instead of returning true. -/
theorem compiler.validateOmits_panic_iff {C : Type} (omits : List GoString)
    (params : List (Parameter C)) :
    (validateOmits omits params = none ↔ ∃ p ∈ params, p.Column = none) ∧
    validateOmits [] [(⟨1, none⟩ : Parameter C)] = none := by
  refine ⟨?_, rfl⟩
  unfold validateOmits
  cases h : validateOmits.columns [] params with
  | none => simpa using (validateOmits.columns_eq_none_iff params []).mp h
  | some column =>
    simp only [reduceCtorEq, false_iff]
    intro hex
    rw [(validateOmits.columns_eq_none_iff params []).mpr hex] at h
    cases h

theorem golang.columnsToStruct.loop_iteration (X : golang.Externals)
    (r : compiler.Result X.ColRest X.Catalog) (settings : X.Settings) (i : Nat)
    (c : golang.goColumn X.ColRest) (cs : List (golang.goColumn X.ColRest))
    (seen : List (GoString × Int)) (suffixes : List (Int × Int)) (fields : List golang.Field)
    (n : GoString) (hn : golang.columnName c.Column i = some n) :
    golang.columnsToStruct.loop X r settings i (c :: cs) seen suffixes fields =
      golang.columnsToStruct.loop X r settings (i + 1) cs
        ((n, golang.mapGet seen n + 1) :: seen)
        ((c.id, (suffixes.lookup c.id).getD
            (golang.columnsToStruct.fresh (golang.mapGet seen n))) :: suffixes)
        (fields ++ [golang.columnsToStruct.field X r settings c n
          ((suffixes.lookup c.id).getD
            (golang.columnsToStruct.fresh (golang.mapGet seen n)))]) := by
  rw [golang.columnsToStruct.loop]
  simp only [hn]
  cases suffixes.lookup c.id <;> rfl

theorem golang.lookup_cons_int (m : List (Int × Int)) (k k' v : Int) :
    List.lookup k ((k', v) :: m) = if k = k' then some v else List.lookup k m := by
  by_cases h : k = k'
  · subst h; simp [List.lookup]
  · have hb : (k == k') = false := by simpa using h
    simp [List.lookup, hb, h]

theorem golang.columnsToStruct.loop_trace (X : golang.Externals)
    (r : compiler.Result X.ColRest X.Catalog) (settings : X.Settings) :
    ∀ (cs : List (golang.goColumn X.ColRest)) (i : Nat) (seen : List (GoString × Int))
      (suffixes : List (Int × Int)) (fields : List golang.Field),
      (∀ c ∈ cs, c.Column ≠ none) →
      ∃ (out : List golang.Field) (sfx : List Int),
        golang.columnsToStruct.loop X r settings i cs seen suffixes fields
          = some (fields ++ out) ∧
        out.length = cs.length ∧ sfx.length = cs.length ∧
        (∀ pre c post, cs = pre ++ c :: post →
          ∃ n s, golang.columnName c.Column ((i + pre.length : Nat) : Int) = some n ∧
            sfx[pre.length]? = some s ∧
            out[pre.length]? = some (golang.columnsToStruct.field X r settings c n s)) ∧
        (∀ pre c post o, cs = pre ++ c :: post → suffixes.lookup c.id = some o →
          sfx[pre.length]? = some o) ∧
        (∀ pre c post n, cs = pre ++ c :: post → suffixes.lookup c.id = none →
          (∀ p ∈ pre, p.id ≠ c.id) →
          golang.columnName c.Column ((i + pre.length : Nat) : Int) = some n →
          sfx[pre.length]? = some (golang.columnsToStruct.fresh
            (golang.mapGet seen n + ((golang.columnNames.from i pre).count n : Nat)))) ∧
        (∀ pre c mid c' post, cs = pre ++ c :: (mid ++ c' :: post) → c.id = c'.id →
          sfx[pre.length + 1 + mid.length]? = sfx[pre.length]?) := by
  intro cs
  induction cs with
  | nil =>
    intro i seen suffixes fields _
    refine ⟨[], [], by simp [golang.columnsToStruct.loop], rfl, rfl, ?_, ?_, ?_, ?_⟩
    · intro pre c post h; cases pre <;> cases h
    · intro pre c post o h; cases pre <;> cases h
    · intro pre c post n h; cases pre <;> cases h
    · intro pre c mid c' post h; cases pre <;> cases h
  | cons c0 cs ih =>
    intro i seen suffixes fields hcol
    obtain ⟨col, hc⟩ := Option.ne_none_iff_exists'.mp (hcol c0 (by simp))
    obtain ⟨n0, hn0⟩ : ∃ n0, golang.columnName c0.Column (i : Int) = some n0 := by
      rw [hc]
      exact golang.columnName_some col i
    obtain ⟨out, sfx, hout, hlen, hslen, hF, hP1, hP3, hP2⟩ := ih (i + 1)
      ((n0, golang.mapGet seen n0 + 1) :: seen)
      ((c0.id, (suffixes.lookup c0.id).getD
          (golang.columnsToStruct.fresh (golang.mapGet seen n0))) :: suffixes)
      (fields ++ [golang.columnsToStruct.field X r settings c0 n0
        ((suffixes.lookup c0.id).getD
          (golang.columnsToStruct.fresh (golang.mapGet seen n0)))])
      (fun c' hc' => hcol c' (List.mem_cons_of_mem _ hc'))
    have hidx : ∀ k : Nat, ((i + 1 + k : Nat) : Int) = ((i + (k + 1) : Nat) : Int) := by
      intro k; congr 1; omega
    refine ⟨golang.columnsToStruct.field X r settings c0 n0
        ((suffixes.lookup c0.id).getD
          (golang.columnsToStruct.fresh (golang.mapGet seen n0))) :: out,
      (suffixes.lookup c0.id).getD
          (golang.columnsToStruct.fresh (golang.mapGet seen n0)) :: sfx,
      ?_, by simp [hlen], by simp [hslen], ?_, ?_, ?_, ?_⟩
    · rw [golang.columnsToStruct.loop_iteration X r settings i c0 cs seen suffixes fields n0 hn0, hout]
      simp
    · intro pre c post hdecomp
      cases pre with
      | nil =>
        simp only [List.nil_append, List.cons.injEq] at hdecomp
        obtain ⟨hh, _⟩ := hdecomp
        subst hh
        exact ⟨n0, (suffixes.lookup c0.id).getD
          (golang.columnsToStruct.fresh (golang.mapGet seen n0)), by simpa using hn0, by simp,
          by simp⟩
      | cons p pre' =>
        simp only [List.cons_append, List.cons.injEq] at hdecomp
        obtain ⟨_, hcs⟩ := hdecomp
        obtain ⟨n, s, h1, h2, h3⟩ := hF pre' c post hcs
        refine ⟨n, s, ?_, ?_, ?_⟩
        · rw [List.length_cons, ← hidx]; exact h1
        · simpa using h2
        · simpa using h3
    · intro pre c post o hdecomp hlook
      cases pre with
      | nil =>
        simp only [List.nil_append, List.cons.injEq] at hdecomp
        obtain ⟨hh, _⟩ := hdecomp
        subst hh
        simp [hlook]
      | cons p pre' =>
        simp only [List.cons_append, List.cons.injEq] at hdecomp
        obtain ⟨hp, hcs⟩ := hdecomp
        subst hp
        have := hP1 pre' c post o hcs (by
          rw [golang.lookup_cons_int]
          by_cases e : c.id = c0.id
          · rw [if_pos e]
            rw [e] at hlook
            simp [hlook]
          · rw [if_neg e]; exact hlook)
        simpa using this
    · intro pre c post n hdecomp hlook hfirst hn
      cases pre with
      | nil =>
        simp only [List.nil_append, List.cons.injEq] at hdecomp
        obtain ⟨hh, _⟩ := hdecomp
        subst hh
        have e : n = n0 := by
          have : golang.columnName c0.Column (i : Int) = some n := by simpa using hn
          rw [hn0] at this
          exact (Option.some.inj this).symm
        subst e
        simp [hlook, golang.columnNames.from]
      | cons p pre' =>
        simp only [List.cons_append, List.cons.injEq] at hdecomp
        obtain ⟨hp, hcs⟩ := hdecomp
        subst hp
        have hne : c.id ≠ c0.id := (hfirst c0 (by simp)).symm
        have := hP3 pre' c post n hcs
          (by rw [golang.lookup_cons_int, if_neg hne]; exact hlook)
          (fun q hq => hfirst q (List.mem_cons_of_mem _ hq))
          (by rw [hidx]; exact hn)
        simp only [List.length_cons, List.getElem?_cons_succ]
        rw [this, golang.mapGet_cons]
        congr 2
        simp only [golang.columnNames.from, hn0, Option.getD_some, List.count_cons]
        by_cases e : n = n0
        · subst e; simp; omega
        · have : (n0 == n) = false := by simpa using Ne.symm e
          simp [e, this]
    · intro pre c mid c' post hdecomp hid
      cases pre with
      | nil =>
        simp only [List.nil_append, List.cons.injEq] at hdecomp
        obtain ⟨hh, hcs⟩ := hdecomp
        subst hh
        have := hP1 mid c' post _ hcs (by rw [golang.lookup_cons_int, if_pos hid.symm])
        have e : ([] : List (golang.goColumn X.ColRest)).length + 1 + mid.length
            = mid.length + 1 := by
          simp only [List.length_nil]; omega
        rw [e]
        simpa using this
      | cons p pre' =>
        simp only [List.cons_append, List.cons.injEq] at hdecomp
        obtain ⟨_, hcs⟩ := hdecomp
        have := hP2 pre' c mid c' post hcs hid
        have e : (p :: pre').length + 1 + mid.length = (pre'.length + 1 + mid.length) + 1 := by
          simp only [List.length_cons]; omega
        rw [e]
        simpa using this

theorem golang.columnsToStruct.loop_panics (X : golang.Externals)
    (r : compiler.Result X.ColRest X.Catalog) (settings : X.Settings) :
    ∀ (cs : List (golang.goColumn X.ColRest)) (i : Nat) (seen : List (GoString × Int))
      (suffixes : List (Int × Int)) (fields : List golang.Field),
      (∃ c ∈ cs, c.Column = none) →
      golang.columnsToStruct.loop X r settings i cs seen suffixes fields = none := by
  intro cs
  induction cs with
  | nil => intro _ _ _ _ h; obtain ⟨c, hc, _⟩ := h; cases hc
  | cons c0 cs ih =>
    intro i seen suffixes fields h
    cases hc : c0.Column with
    | none => rw [golang.columnsToStruct.loop]; simp only [hc, golang.columnName]
    | some col =>
      obtain ⟨n0, hn0⟩ := golang.columnName_some col i
      rw [golang.columnsToStruct.loop_iteration X r settings i c0 cs seen suffixes fields n0
        (by rw [hc]; exact hn0)]
      apply ih
      obtain ⟨c, hmem, hnone⟩ := h
      rcases List.mem_cons.mp hmem with rfl | hmem
      · rw [hc] at hnone; cases hnone
      · exact ⟨c, hmem, hnone⟩

/-- C22: for every column list, `columnsToStruct` panics when a column has
no `Column`, and otherwise returns one field per column, built from the name
`columnName` gives to the column and from a suffix, such that any two columns
with the same id have the same suffix.  At the first column with a given id
the suffix is the one computed from `seen`: 0 when no earlier column has the
same name, and otherwise one more than the number of earlier columns with
that name.  Hence two columns with the same id and the same name (the name
`columnName` gives them) have the same field name and the same tags. -/
theorem golang.columnsToStruct_same_id (X : golang.Externals)
    (r : compiler.Result X.ColRest X.Catalog) (name : GoString)
    (columns : List (golang.goColumn X.ColRest)) (settings : X.Settings) :
    (golang.columnsToStruct X r name columns settings = none ∧
      ∃ c ∈ columns, c.Column = none) ∨
    ∃ (fields : List golang.Field) (sfx : List Int),
      golang.columnsToStruct X r name columns settings
        = some { Table := ⟨[], [], []⟩, Name := name, Fields := fields, Comment := [] } ∧
      fields.length = columns.length ∧ sfx.length = columns.length ∧
      (∀ pre c post, columns = pre ++ c :: post →
        ∃ n s, golang.columnName c.Column (pre.length : Int) = some n ∧
          sfx[pre.length]? = some s ∧
          fields[pre.length]? = some (golang.columnsToStruct.field X r settings c n s)) ∧
      (∀ pre c mid c' post, columns = pre ++ c :: (mid ++ c' :: post) → c.id = c'.id →
        sfx[pre.length + 1 + mid.length]? = sfx[pre.length]?) ∧
      (∀ pre c post n, columns = pre ++ c :: post → (∀ p ∈ pre, p.id ≠ c.id) →
        golang.columnName c.Column (pre.length : Int) = some n →
        sfx[pre.length]? =
          some (golang.columnsToStruct.fresh (((golang.columnNames pre).count n : Nat) : Int))) ∧
      (∀ pre c mid c' post, columns = pre ++ c :: (mid ++ c' :: post) → c.id = c'.id →
        golang.columnName c.Column (pre.length : Int)
          = golang.columnName c'.Column ((pre.length + 1 + mid.length : Nat) : Int) →
        ∃ f f', fields[pre.length]? = some f ∧ fields[pre.length + 1 + mid.length]? = some f' ∧
          f.Name = f'.Name ∧ f.Tags = f'.Tags) := by
  by_cases hcol : ∃ c ∈ columns, c.Column = none
  · left
    refine ⟨?_, hcol⟩
    unfold golang.columnsToStruct
    rw [golang.columnsToStruct.loop_panics X r settings columns 0 [] [] [] hcol]
  · right
    have hcol2 : ∀ c ∈ columns, c.Column ≠ none := fun c hc e => hcol ⟨c, hc, e⟩
    obtain ⟨out, sfx, hout, hlen, hslen, hF, _, hP3, hP2⟩ :=
      golang.columnsToStruct.loop_trace X r settings columns 0 [] [] [] hcol2
    have hF2 : ∀ pre c post, columns = pre ++ c :: post →
        ∃ n s, golang.columnName c.Column (pre.length : Int) = some n ∧
          sfx[pre.length]? = some s ∧
          out[pre.length]? = some (golang.columnsToStruct.field X r settings c n s) := by
      intro pre c post hd
      obtain ⟨n, s, h1, h2, h3⟩ := hF pre c post hd
      exact ⟨n, s, by simpa using h1, h2, h3⟩
    refine ⟨out, sfx, ?_, hlen, hslen, hF2, hP2, ?_, ?_⟩
    · simp only [golang.columnsToStruct, hout, List.nil_append]
    · intro pre c post n hd hfirst hn
      have := hP3 pre c post n hd rfl hfirst (by simpa using hn)
      simpa [golang.mapGet, golang.columnNames] using this
    · intro pre c mid c' post hd hid hname
      obtain ⟨n, s, h1, h2, h3⟩ := hF2 pre c (mid ++ c' :: post) hd
      have hd' : columns = (pre ++ c :: mid) ++ c' :: post := by simp [hd]
      obtain ⟨n', s', h1', h2', h3'⟩ := hF2 (pre ++ c :: mid) c' post hd'
      have hl : (pre ++ c :: mid).length = pre.length + 1 + mid.length := by
        simp; omega
      rw [hl] at h1' h2' h3'
      have hs : s' = s := by
        have := hP2 pre c mid c' post hd hid
        rw [h2, h2'] at this
        exact Option.some.inj this
      have hnn : n' = n := by
        rw [h1, h1'] at hname
        exact (Option.some.inj hname).symm
      subst hs hnn
      exact ⟨_, _, h3, h3', rfl, rfl⟩

/-- C22 on three columns named `id` with the ids 1, 2, 1: the second one
gets the suffix 2, the third one has the id of the first and gets its
suffix, none, so that the first and the third field have the same name and
the same tags. -/
theorem golang.columnsToStruct_same_id_witness :
    ∃ fields, golang.columnsToStruct golang.demo ⟨(), []⟩ "GetParams".toList
        [⟨1, some ⟨"id".toList, ()⟩, false⟩, ⟨2, some ⟨"id".toList, ()⟩, false⟩,
          ⟨1, some ⟨"id".toList, ()⟩, false⟩] ()
        = some { Table := ⟨[], [], []⟩, Name := "GetParams".toList, Fields := fields,
                 Comment := [] } ∧
      ∃ f f', fields[0]? = some f ∧ fields[2]? = some f' ∧ f.Name = f'.Name ∧
        f.Tags = f'.Tags := by
  rcases golang.columnsToStruct_same_id golang.demo ⟨(), []⟩ "GetParams".toList
    [⟨1, some ⟨"id".toList, ()⟩, false⟩, ⟨2, some ⟨"id".toList, ()⟩, false⟩,
      ⟨1, some ⟨"id".toList, ()⟩, false⟩] () with
    ⟨h, _⟩ | ⟨fields, sfx, h, _, _, _, _, _, hE⟩
  · exact absurd h (by decide)
  · exact ⟨fields, h,
      hE [] ⟨1, some ⟨"id".toList, ()⟩, false⟩ [⟨2, some ⟨"id".toList, ()⟩, false⟩]
        ⟨1, some ⟨"id".toList, ()⟩, false⟩ [] rfl rfl rfl⟩

theorem golang.getGenFunctionsByNs_cons (reg : golang.Registry) (ns : GoString)
    (g : golang.genFunctions) : golang.getGenFunctionsByNs ((ns, g) :: reg) ns = g := by
  simp [golang.getGenFunctionsByNs, List.lookup]

theorem golang.lookup_isSome_cons {β : Type} (m : List (GoString × β)) (k k' : GoString)
    (v : β) (h : (List.lookup k m).isSome = true ∨ k = k') :
    (List.lookup k ((k', v) :: m)).isSome = true := by
  by_cases e : k = k'
  · subst e
    simp only [List.lookup, beq_self_eq_true, Option.isSome_some]
  · have hb : (k == k') = false := beq_false_of_ne e
    rcases h with h | h
    · simp only [List.lookup, hb]
      exact h
    · exact absurd h e

theorem golang.QueryValue.GenerateFunctions.fields_registered (ns : GoString) :
    ∀ (fs : List golang.Field) (result : GoString) (reg : golang.Registry),
      (∀ f ∈ fs, f.IsSlice = true →
        ((golang.getGenFunctionsByNs reg ns).functions.lookup
          (golang.formatType f.Type_ ++ "Slice2interface".toList)).isSome = true) →
      golang.QueryValue.GenerateFunctions.fields ns fs (result, reg) = (result, reg) := by
  intro fs
  induction fs with
  | nil => intro result reg _; rfl
  | cons f fs ih =>
    intro result reg h
    have ih2 := ih result reg (fun g hg => h g (List.mem_cons_of_mem _ hg))
    unfold golang.QueryValue.GenerateFunctions.fields
    by_cases hs : f.IsSlice = true
    · simp only [hs, if_true, h f (by simp) hs]
      exact ih2
    · simp only [hs, Bool.false_eq_true, if_false]
      exact ih2

theorem golang.QueryValue.GenerateFunctions.fields_registers (ns : GoString) :
    ∀ (fs : List golang.Field) (result : GoString) (reg : golang.Registry),
      (∀ name, ((golang.getGenFunctionsByNs reg ns).functions.lookup name).isSome = true →
        ((golang.getGenFunctionsByNs
          (golang.QueryValue.GenerateFunctions.fields ns fs (result, reg)).2 ns).functions.lookup
            name).isSome = true) ∧
      (∀ f ∈ fs, f.IsSlice = true →
        ((golang.getGenFunctionsByNs
          (golang.QueryValue.GenerateFunctions.fields ns fs (result, reg)).2 ns).functions.lookup
            (golang.formatType f.Type_ ++ "Slice2interface".toList)).isSome = true) := by
  intro fs
  induction fs with
  | nil =>
    intro result reg
    exact ⟨fun _ h => h, fun f hf => by cases hf⟩
  | cons f fs ih =>
    intro result reg
    unfold golang.QueryValue.GenerateFunctions.fields
    by_cases hs : f.IsSlice = true
    · by_cases hr : ((golang.getGenFunctionsByNs reg ns).functions.lookup
          (golang.formatType f.Type_ ++ "Slice2interface".toList)).isSome = true
      · simp only [hs, if_true, hr]
        obtain ⟨h1, h2⟩ := ih result reg
        refine ⟨h1, ?_⟩
        intro g hg hgs
        rcases List.mem_cons.mp hg with rfl | hg
        · exact h1 _ hr
        · exact h2 g hg hgs
      · simp only [hs, if_true, hr, Bool.false_eq_true, if_false]
        obtain ⟨h1, h2⟩ := ih
          (result ++ golang.QueryValue.GenerateFunctions.template (golang.formatType f.Type_)
              f.Type_ ++
            golang.QueryValue.GenerateFunctions.batchTemplate (golang.formatType f.Type_)
              f.Type_ f.Type_)
          ((ns, { golang.getGenFunctionsByNs reg ns with
                  functions := (golang.formatType f.Type_ ++ "Slice2interface".toList,
                    result ++ golang.QueryValue.GenerateFunctions.template
                        (golang.formatType f.Type_) f.Type_ ++
                      golang.QueryValue.GenerateFunctions.batchTemplate
                        (golang.formatType f.Type_) f.Type_ f.Type_) ::
                    (golang.getGenFunctionsByNs reg ns).functions }) :: reg)
        refine ⟨?_, ?_⟩
        · intro name hname
          apply h1
          rw [golang.getGenFunctionsByNs_cons]
          exact golang.lookup_isSome_cons _ _ _ _ (Or.inl hname)
        · intro g hg hgs
          rcases List.mem_cons.mp hg with rfl | hg
          · apply h1
            rw [golang.getGenFunctionsByNs_cons]
            exact golang.lookup_isSome_cons _ _ _ _ (Or.inr rfl)
          · exact h2 g hg hgs
    · simp only [hs, Bool.false_eq_true, if_false]
      obtain ⟨h1, h2⟩ := ih result reg
      refine ⟨h1, ?_⟩
      intro g hg hgs
      rcases List.mem_cons.mp hg with rfl | hg
      · exact absurd hgs hs
      · exact h2 g hg hgs

theorem golang.QueryValue.GenerateFunctions_registers (v : golang.QueryValue)
    (reg : golang.Registry) :
    (∀ s, v.Struct = some s → ∀ f ∈ s.Fields, f.IsSlice = true →
      ((golang.getGenFunctionsByNs (v.GenerateFunctions reg).2 v.NameSpace).functions.lookup
        (golang.formatType f.Type_ ++ "Slice2interface".toList)).isSome = true) ∧
    (v.IsSlice = true →
      ((golang.getGenFunctionsByNs (v.GenerateFunctions reg).2 v.NameSpace).functions.lookup
        (golang.formatType v.Typ ++ "Slice2interface".toList)).isSome = true) := by
  have hc : v.ContainSlice = true ∨
      ((∀ s, v.Struct = some s → ∀ f ∈ s.Fields, f.IsSlice = false) ∧ v.IsSlice = false) := by
    unfold golang.QueryValue.ContainSlice
    cases hS : v.Struct with
    | none =>
      cases hI : v.IsSlice
      · right; exact ⟨fun s hs => Option.noConfusion hs, rfl⟩
      · left; simp
    | some s =>
      by_cases hany : (s.Fields.any fun f => f.IsSlice) = true
      · left; simp [hany]
      · cases hI : v.IsSlice
        · right
          refine ⟨?_, rfl⟩
          intro s' hs' f hf
          cases hs'
          by_contra hfs
          exact hany (List.any_eq_true.mpr ⟨f, hf, by simpa using hfs⟩)
        · left; simp
  rcases hc with hc | ⟨h1, h2⟩
  · unfold golang.QueryValue.GenerateFunctions
    simp only [hc, if_true]
    cases hS : v.Struct with
    | none =>
      simp only
      by_cases hI : v.IsSlice = true
      · simp only [hI, if_true]
        refine ⟨fun s hs => Option.noConfusion hs, fun _ => ?_⟩
        split
        · assumption
        · simp only
          rw [golang.getGenFunctionsByNs_cons]
          exact golang.lookup_isSome_cons _ _ _ _ (Or.inr rfl)
      · simp only [hI, Bool.false_eq_true, if_false]
        exact ⟨fun s hs => Option.noConfusion hs, fun h => absurd h (by simp)⟩
    | some s =>
      simp only
      obtain ⟨m1, m2⟩ := golang.QueryValue.GenerateFunctions.fields_registers v.NameSpace
        s.Fields [] reg
      generalize golang.QueryValue.GenerateFunctions.fields v.NameSpace s.Fields ([], reg) = st
        at m1 m2
      obtain ⟨result, reg1⟩ := st
      simp only at m1 m2 ⊢
      by_cases hI : v.IsSlice = true
      · simp only [hI, if_true]
        split
        · rename_i hfound
          exact ⟨fun s' hs' f hf hfs => by cases hs'; exact m2 f hf hfs, fun _ => hfound⟩
        · simp only
          rw [golang.getGenFunctionsByNs_cons]
          refine ⟨fun s' hs' f hf hfs => ?_, fun _ => ?_⟩
          · cases hs'
            exact golang.lookup_isSome_cons _ _ _ _ (Or.inl (m2 f hf hfs))
          · exact golang.lookup_isSome_cons _ _ _ _ (Or.inr rfl)
      · simp only [hI, Bool.false_eq_true, if_false]
        exact ⟨fun s' hs' f hf hfs => by cases hs'; exact m2 f hf hfs,
          fun h => absurd h (by simp)⟩
  · refine ⟨fun s hs f hf hfs => ?_, fun h => ?_⟩
    · rw [h1 s hs f hf] at hfs; cases hfs
    · rw [h2] at h; cases h

theorem golang.QueryValue.GenerateFunctions_registered (v : golang.QueryValue)
    (reg : golang.Registry)
    (h1 : ∀ s, v.Struct = some s → ∀ f ∈ s.Fields, f.IsSlice = true →
      ((golang.getGenFunctionsByNs reg v.NameSpace).functions.lookup
        (golang.formatType f.Type_ ++ "Slice2interface".toList)).isSome = true)
    (h2 : v.IsSlice = true →
      ((golang.getGenFunctionsByNs reg v.NameSpace).functions.lookup
        (golang.formatType v.Typ ++ "Slice2interface".toList)).isSome = true) :
    v.GenerateFunctions reg = ([], reg) := by
  unfold golang.QueryValue.GenerateFunctions
  by_cases hc : v.ContainSlice = true
  · simp only [hc, if_true]
    have hf : (match v.Struct with
        | some s => golang.QueryValue.GenerateFunctions.fields v.NameSpace s.Fields ([], reg)
        | none => (([] : GoString), reg)) = ([], reg) := by
      cases hS : v.Struct with
      | none => rfl
      | some s =>
        exact golang.QueryValue.GenerateFunctions.fields_registered v.NameSpace s.Fields [] reg
          (h1 s hS)
    rw [hf]
    by_cases hI : v.IsSlice = true
    · simp only [hI, if_true, h2 hI]
    · simp only [hI, Bool.false_eq_true, if_false]
  · simp only [hc, Bool.false_eq_true, if_false]

theorem golang.QueryValue.ShouldGenFunctions.fields_marked (ns : GoString) :
    ∀ (fs : List golang.Field) (result : Bool) (reg : golang.Registry),
      (∀ f ∈ fs, f.IsSlice = true →
        ((golang.getGenFunctionsByNs reg ns).shouldGenFunctions.lookup
          (golang.formatType f.Type_ ++ "Slice2interface".toList)).isSome = true) →
      golang.QueryValue.ShouldGenFunctions.fields ns fs (result, reg) = (result, reg) := by
  intro fs
  induction fs with
  | nil => intro result reg _; rfl
  | cons f fs ih =>
    intro result reg h
    have ih2 := ih result reg (fun g hg => h g (List.mem_cons_of_mem _ hg))
    unfold golang.QueryValue.ShouldGenFunctions.fields
    by_cases hs : f.IsSlice = true
    · simp only [hs, if_true, h f (by simp) hs]
      exact ih2
    · simp only [hs, Bool.false_eq_true, if_false]
      exact ih2

theorem golang.QueryValue.ShouldGenFunctions.fields_marks (ns : GoString) :
    ∀ (fs : List golang.Field) (result : Bool) (reg : golang.Registry),
      (∀ name, ((golang.getGenFunctionsByNs reg ns).shouldGenFunctions.lookup name).isSome = true →
        ((golang.getGenFunctionsByNs
          (golang.QueryValue.ShouldGenFunctions.fields ns fs (result, reg)).2 ns).shouldGenFunctions.lookup
            name).isSome = true) ∧
      (∀ f ∈ fs, f.IsSlice = true →
        ((golang.getGenFunctionsByNs
          (golang.QueryValue.ShouldGenFunctions.fields ns fs (result, reg)).2 ns).shouldGenFunctions.lookup
            (golang.formatType f.Type_ ++ "Slice2interface".toList)).isSome = true) := by
  intro fs
  induction fs with
  | nil =>
    intro result reg
    exact ⟨fun _ h => h, fun f hf => by cases hf⟩
  | cons f fs ih =>
    intro result reg
    unfold golang.QueryValue.ShouldGenFunctions.fields
    by_cases hs : f.IsSlice = true
    · by_cases hr : ((golang.getGenFunctionsByNs reg ns).shouldGenFunctions.lookup
          (golang.formatType f.Type_ ++ "Slice2interface".toList)).isSome = true
      · simp only [hs, if_true, hr]
        obtain ⟨h1, h2⟩ := ih result reg
        refine ⟨h1, ?_⟩
        intro g hg hgs
        rcases List.mem_cons.mp hg with rfl | hg
        · exact h1 _ hr
        · exact h2 g hg hgs
      · simp only [hs, if_true, hr, Bool.false_eq_true, if_false]
        obtain ⟨h1, h2⟩ := ih true
          ((ns, { golang.getGenFunctionsByNs reg ns with
                  shouldGenFunctions :=
                    (golang.formatType f.Type_ ++ "Slice2interface".toList, true) ::
                    (golang.getGenFunctionsByNs reg ns).shouldGenFunctions }) :: reg)
        refine ⟨?_, ?_⟩
        · intro name hname
          apply h1
          rw [golang.getGenFunctionsByNs_cons]
          exact golang.lookup_isSome_cons _ _ _ _ (Or.inl hname)
        · intro g hg hgs
          rcases List.mem_cons.mp hg with rfl | hg
          · apply h1
            rw [golang.getGenFunctionsByNs_cons]
            exact golang.lookup_isSome_cons _ _ _ _ (Or.inr rfl)
          · exact h2 g hg hgs
    · simp only [hs, Bool.false_eq_true, if_false]
      obtain ⟨h1, h2⟩ := ih result reg
      refine ⟨h1, ?_⟩
      intro g hg hgs
      rcases List.mem_cons.mp hg with rfl | hg
      · exact absurd hgs hs
      · exact h2 g hg hgs

theorem golang.QueryValue.ShouldGenFunctions_registers (v : golang.QueryValue)
    (reg : golang.Registry) :
    (∀ s, v.Struct = some s → ∀ f ∈ s.Fields, f.IsSlice = true →
      ((golang.getGenFunctionsByNs (v.ShouldGenFunctions reg).2 v.NameSpace).shouldGenFunctions.lookup
        (golang.formatType f.Type_ ++ "Slice2interface".toList)).isSome = true) ∧
    (v.IsSlice = true →
      ((golang.getGenFunctionsByNs (v.ShouldGenFunctions reg).2 v.NameSpace).shouldGenFunctions.lookup
        (golang.formatType v.Typ ++ "Slice2interface".toList)).isSome = true) := by
  have hc : v.ContainSlice = true ∨
      ((∀ s, v.Struct = some s → ∀ f ∈ s.Fields, f.IsSlice = false) ∧ v.IsSlice = false) := by
    unfold golang.QueryValue.ContainSlice
    cases hS : v.Struct with
    | none =>
      cases hI : v.IsSlice
      · right; exact ⟨fun s hs => Option.noConfusion hs, rfl⟩
      · left; simp
    | some s =>
      by_cases hany : (s.Fields.any fun f => f.IsSlice) = true
      · left; simp [hany]
      · cases hI : v.IsSlice
        · right
          refine ⟨?_, rfl⟩
          intro s' hs' f hf
          cases hs'
          by_contra hfs
          exact hany (List.any_eq_true.mpr ⟨f, hf, by simpa using hfs⟩)
        · left; simp
  rcases hc with hc | ⟨h1, h2⟩
  · unfold golang.QueryValue.ShouldGenFunctions
    simp only [hc, if_true]
    cases hS : v.Struct with
    | none =>
      simp only
      by_cases hI : v.IsSlice = true
      · simp only [hI, if_true]
        refine ⟨fun s hs => Option.noConfusion hs, fun _ => ?_⟩
        split
        · assumption
        · simp only
          rw [golang.getGenFunctionsByNs_cons]
          exact golang.lookup_isSome_cons _ _ _ _ (Or.inr rfl)
      · simp only [hI, Bool.false_eq_true, if_false]
        exact ⟨fun s hs => Option.noConfusion hs, fun h => absurd h (by simp)⟩
    | some s =>
      simp only
      obtain ⟨m1, m2⟩ := golang.QueryValue.ShouldGenFunctions.fields_marks v.NameSpace
        s.Fields false reg
      generalize golang.QueryValue.ShouldGenFunctions.fields v.NameSpace s.Fields (false, reg) = st
        at m1 m2
      obtain ⟨result, reg1⟩ := st
      simp only at m1 m2 ⊢
      by_cases hI : v.IsSlice = true
      · simp only [hI, if_true]
        split
        · rename_i hfound
          exact ⟨fun s' hs' f hf hfs => by cases hs'; exact m2 f hf hfs, fun _ => hfound⟩
        · simp only
          rw [golang.getGenFunctionsByNs_cons]
          refine ⟨fun s' hs' f hf hfs => ?_, fun _ => ?_⟩
          · cases hs'
            exact golang.lookup_isSome_cons _ _ _ _ (Or.inl (m2 f hf hfs))
          · exact golang.lookup_isSome_cons _ _ _ _ (Or.inr rfl)
      · simp only [hI, Bool.false_eq_true, if_false]
        exact ⟨fun s' hs' f hf hfs => by cases hs'; exact m2 f hf hfs,
          fun h => absurd h (by simp)⟩
  · refine ⟨fun s hs f hf hfs => ?_, fun h => ?_⟩
    · rw [h1 s hs f hf] at hfs; cases hfs
    · rw [h2] at h; cases h

theorem golang.QueryValue.ShouldGenFunctions_registered (v : golang.QueryValue)
    (reg : golang.Registry)
    (h1 : ∀ s, v.Struct = some s → ∀ f ∈ s.Fields, f.IsSlice = true →
      ((golang.getGenFunctionsByNs reg v.NameSpace).shouldGenFunctions.lookup
        (golang.formatType f.Type_ ++ "Slice2interface".toList)).isSome = true)
    (h2 : v.IsSlice = true →
      ((golang.getGenFunctionsByNs reg v.NameSpace).shouldGenFunctions.lookup
        (golang.formatType v.Typ ++ "Slice2interface".toList)).isSome = true) :
    v.ShouldGenFunctions reg = (false, reg) := by
  unfold golang.QueryValue.ShouldGenFunctions
  by_cases hc : v.ContainSlice = true
  · simp only [hc, if_true]
    have hf : (match v.Struct with
        | some s => golang.QueryValue.ShouldGenFunctions.fields v.NameSpace s.Fields (false, reg)
        | none => (false, reg)) = (false, reg) := by
      cases hS : v.Struct with
      | none => rfl
      | some s =>
        exact golang.QueryValue.ShouldGenFunctions.fields_marked v.NameSpace s.Fields false reg
          (h1 s hS)
    rw [hf]
    by_cases hI : v.IsSlice = true
    · simp only [hI, if_true, h2 hI]
    · simp only [hI, Bool.false_eq_true, if_false]
  · simp only [hc, Bool.false_eq_true, if_false]

/-- C23: for every state of the registry of generated helpers and every
`QueryValue` `v`, a call of `v.GenerateFunctions()` that directly follows a
call of it returns the empty string, and a call of `v.ShouldGenFunctions()`
that directly follows a call of it returns false; the second call leaves the
registry as it is.  The first call is not idle: on the empty registry a slice
of `int32` gets the two helper functions. -/
theorem golang.GenerateFunctions_twice (reg : golang.Registry) (v : golang.QueryValue) :
    v.GenerateFunctions (v.GenerateFunctions reg).2 = ([], (v.GenerateFunctions reg).2) ∧
    v.ShouldGenFunctions (v.ShouldGenFunctions reg).2
      = (false, (v.ShouldGenFunctions reg).2) ∧
    (golang.QueryValue.GenerateFunctions
        ⟨false, "ids".toList, none, "int32".toList, true, "db".toList⟩ []).1
      = golang.QueryValue.GenerateFunctions.template "int32".toList "int32".toList ++
        golang.QueryValue.GenerateFunctions.batchTemplate "int32".toList "int32".toList
          "int32".toList ∧
    (golang.QueryValue.ShouldGenFunctions
        ⟨false, "ids".toList, none, "int32".toList, true, "db".toList⟩ []).1 = true := by
  refine ⟨?_, ?_, rfl, rfl⟩
  · exact golang.QueryValue.GenerateFunctions_registered v _
      (golang.QueryValue.GenerateFunctions_registers v reg).1
      (golang.QueryValue.GenerateFunctions_registers v reg).2
  · exact golang.QueryValue.ShouldGenFunctions_registered v _
      (golang.QueryValue.ShouldGenFunctions_registers v reg).1
      (golang.QueryValue.ShouldGenFunctions_registers v reg).2

theorem golang.mysqlType.cases_length (columnType : GoString) (length : Option Int)
    (notNull : Bool) :
    golang.mysqlType.cases columnType length notNull
      = golang.mysqlType.cases columnType (if length = some 1 then some 1 else none) notNull := by
  by_cases h : length = some 1
  · rw [if_pos h, h]
  · rw [if_neg h]
    have e : (length != none && length == some 1) = false := by simp [h]
    have e' : ((none : Option Int) != none && (none : Option Int) == some 1) = false := by
      decide
    unfold golang.mysqlType.cases
    rw [e, e']

theorem golang.mysqlType.cases_isSome :
    ∀ n ∈ golang.mysqlType.builtin, ∀ l ∈ [none, some (1 : Int)], ∀ b : Bool,
      (golang.mysqlType.cases n l b).isSome = true := by
  decide

theorem golang.mysqlType.cases_notNull :
    ∀ n ∈ golang.mysqlType.builtin, ∀ l ∈ [none, some (1 : Int)],
      ∀ t ∈ golang.mysqlType.cases n l true,
        strings.HasPrefix t "sql.Null".toList = false := by
  decide

theorem golang.mysqlType.cases_fixed :
    ∀ n ∈ golang.mysqlType.builtin, ∀ l ∈ [none, some (1 : Int)], ∀ b : Bool,
      ∀ t ∈ golang.mysqlType.cases n l b,
        (n ∈ golang.mysqlType.blobs → t = "[]byte".toList) ∧
        (n = "json".toList → t = "json.RawMessage".toList) ∧
        (n = "any".toList → t = "interface\x7b\x7d".toList) := by
  decide

theorem golang.mysqlType.cases_nullable :
    ∀ n ∈ golang.mysqlType.builtin, ∀ l ∈ [none, some (1 : Int)],
      ∀ t ∈ golang.mysqlType.cases n l false,
        n ∉ golang.mysqlType.blobs → n ≠ "json".toList → n ≠ "any".toList →
          strings.HasPrefix t "sql.Null".toList = true ∧
          ∀ t' ∈ golang.mysqlType.cases n l true, t = golang.sqlNull t' := by
  decide

theorem golang.mysqlType.cases_tinyint :
    ∀ l ∈ [none, some (1 : Int)], ∀ b : Bool,
      golang.mysqlType.cases "tinyint".toList l b =
        some (if l = some 1 then (if b then "bool".toList else "sql.NullBool".toList)
              else (if b then "int32".toList else "sql.NullInt32".toList)) := by
  decide

theorem golang.mysqlType_of_cases (X : golang.MySQLExternals)
    (r : compiler.Result X.ColRest X.Catalog) (col : compiler.Column X.ColRest)
    (settings : X.Settings) (t : GoString)
    (h : golang.mysqlType.cases (X.Column_DataType col.rest)
      (if X.Column_Length col.rest = some 1 then some 1 else none)
      (X.Column_NotNull col.rest || X.Column_IsArray col.rest) = some t) :
    golang.mysqlType X r (some col) settings = some t := by
  unfold golang.mysqlType
  simp only [golang.mysqlType.cases_length (X.Column_DataType col.rest)
    (X.Column_Length col.rest), h]

theorem golang.mysqlType.length_mem (length : Option Int) :
    (if length = some 1 then some (1 : Int) else none) ∈ [none, some (1 : Int)] := by
  by_cases h : length = some 1
  · rw [if_pos h]; simp
  · rw [if_neg h]; simp

/-- C25: for every column whose `DataType` is one of the type names that
have a case in `mysqlType`, a Go type is returned; when the column is
`NotNull` or `IsArray` it does not start with `sql.Null`; for the blob and
binary types it is `[]byte`, for `json` it is `json.RawMessage` and for `any`
it is `interface{}`, whether the column is nullable or not; for every other
type name, when the column is neither `NotNull` nor `IsArray`, the type is
the `sql.Null` wrapper of the type returned for a column of the same
`DataType` and `Length` that is `NotNull` or `IsArray`; and a `tinyint` of
length 1 maps to `bool` or `sql.NullBool`, any other `tinyint` to `int32` or
`sql.NullInt32`. -/
theorem golang.mysqlType_builtin (X : golang.MySQLExternals)
    (r : compiler.Result X.ColRest X.Catalog) (col : compiler.Column X.ColRest)
    (settings : X.Settings)
    (h : X.Column_DataType col.rest ∈ golang.mysqlType.builtin) :
    ∃ t, golang.mysqlType X r (some col) settings = some t ∧
      ((X.Column_NotNull col.rest || X.Column_IsArray col.rest) = true →
        strings.HasPrefix t "sql.Null".toList = false) ∧
      (X.Column_DataType col.rest ∈ golang.mysqlType.blobs → t = "[]byte".toList) ∧
      (X.Column_DataType col.rest = "json".toList → t = "json.RawMessage".toList) ∧
      (X.Column_DataType col.rest = "any".toList → t = "interface\x7b\x7d".toList) ∧
      ((X.Column_NotNull col.rest || X.Column_IsArray col.rest) = false →
        X.Column_DataType col.rest ∉ golang.mysqlType.blobs →
        X.Column_DataType col.rest ≠ "json".toList →
        X.Column_DataType col.rest ≠ "any".toList →
        strings.HasPrefix t "sql.Null".toList = true ∧
        ∀ col' : compiler.Column X.ColRest,
          X.Column_DataType col'.rest = X.Column_DataType col.rest →
          X.Column_Length col'.rest = X.Column_Length col.rest →
          (X.Column_NotNull col'.rest || X.Column_IsArray col'.rest) = true →
          ∃ t', golang.mysqlType X r (some col') settings = some t' ∧
            t = golang.sqlNull t') ∧
      (X.Column_DataType col.rest = "tinyint".toList →
        t = if X.Column_Length col.rest = some 1 then
              (if X.Column_NotNull col.rest || X.Column_IsArray col.rest then "bool".toList
               else "sql.NullBool".toList)
            else
              (if X.Column_NotNull col.rest || X.Column_IsArray col.rest then "int32".toList
               else "sql.NullInt32".toList)) := by
  have hl := golang.mysqlType.length_mem (X.Column_Length col.rest)
  generalize hb : (X.Column_NotNull col.rest || X.Column_IsArray col.rest) = b
  obtain ⟨t, ht⟩ := Option.isSome_iff_exists.mp
    (golang.mysqlType.cases_isSome _ h _ hl b)
  have hfix := golang.mysqlType.cases_fixed _ h _ hl b t ht
  refine ⟨t, golang.mysqlType_of_cases X r col settings t (by rw [hb]; exact ht), ?_,
    hfix.1, hfix.2.1, hfix.2.2, ?_, ?_⟩
  · intro hbt
    subst hbt
    exact golang.mysqlType.cases_notNull _ h _ hl t ht
  · intro hbf h1 h2 h3
    subst hbf
    obtain ⟨p1, p2⟩ := golang.mysqlType.cases_nullable _ h _ hl t ht h1 h2 h3
    refine ⟨p1, ?_⟩
    intro col' hd hlen hnn
    obtain ⟨t', ht'⟩ := Option.isSome_iff_exists.mp
      (golang.mysqlType.cases_isSome _ h _ hl true)
    refine ⟨t', golang.mysqlType_of_cases X r col' settings t' ?_, p2 t' ht'⟩
    rw [hd, hlen, hnn]
    exact ht'
  · intro htiny
    rw [htiny] at ht
    rw [golang.mysqlType.cases_tinyint _ hl b] at ht
    have := (Option.some.inj ht).symm
    rw [this]
    by_cases hone : X.Column_Length col.rest = some 1
    · simp only [hone, if_true]
    · simp only [hone, if_false]
      simp

/-- C25 on a `tinyint(1)` column and on a `datetime` column, both nullable:
they map to `sql.NullBool` and to `sql.NullTime`, the wrappers of the `bool`
and the `time.Time` of the same columns declared `NOT NULL`. -/
theorem golang.mysqlType_builtin_witness :
    golang.mysqlType golang.demoMySQL ⟨(), []⟩
        (some ⟨"flag".toList, ("tinyint".toList, false, false, some 1)⟩) ()
      = some "sql.NullBool".toList ∧
    golang.mysqlType golang.demoMySQL ⟨(), []⟩
        (some ⟨"at".toList, ("datetime".toList, false, false, none)⟩) ()
      = some (golang.sqlNull "time.Time".toList) := by
  obtain ⟨t, h, -, -, -, -, -, h6⟩ := golang.mysqlType_builtin golang.demoMySQL ⟨(), []⟩
    ⟨"flag".toList, ("tinyint".toList, false, false, some 1)⟩ () (by decide)
  obtain ⟨u, g, -, -, -, -, g5, -⟩ := golang.mysqlType_builtin golang.demoMySQL ⟨(), []⟩
    ⟨"at".toList, ("datetime".toList, false, false, none)⟩ () (by decide)
  refine ⟨by rw [h, h6 rfl]; rfl, ?_⟩
  obtain ⟨t', ht', hu⟩ := (g5 rfl (by decide) (by decide) (by decide)).2
    ⟨"at".toList, ("datetime".toList, true, false, none)⟩ rfl rfl rfl
  rw [g, hu]
  have : t' = "time.Time".toList := Option.some.inj (ht'.symm.trans rfl)
  rw [this]

theorem golang.IdentPattern.class_iff (c : Char) :
    golang.IdentPattern.class c = true ↔ golang.isAlnum c = true ∨ c = '_' := by
  simp [golang.IdentPattern.class, golang.isAlnum]

theorem golang.reHan.class_of_ident {c : Char} (h : golang.IdentPattern.class c = true) :
    golang.reHan.class c = false := by
  simp only [golang.IdentPattern.class, Bool.or_eq_true, Bool.and_eq_true, decide_eq_true_eq,
    beq_iff_eq] at h
  have hc : c.toNat ≤ 0x7A := by
    rcases h with ((h | h) | h) | h
    · exact h.2
    · omega
    · omega
    · subst h; decide
  simp only [golang.reHan.class, Bool.and_eq_false_imp, decide_eq_true_eq, decide_eq_false_iff_not]
  omega

theorem strings.Replace_of_not_mem {s : GoString} {old new : Char} (h : old ∉ s) :
    strings.Replace s old new = s := by
  unfold strings.Replace
  conv_rhs => rw [← List.map_id s]
  apply List.map_congr_left
  intro c hc
  have : c ≠ old := fun e => h (e ▸ hc)
  simp [this]

theorem golang.EnumReplace_of_ident (py : GoString → List GoString) (s : GoString)
    (h : ∀ c ∈ s, golang.IdentPattern.class c = true) : golang.EnumReplace py s = s := by
  have h1 : '-' ∉ s := fun hm => absurd (h _ hm) (by decide)
  have h2 : ':' ∉ s := fun hm => absurd (h _ hm) (by decide)
  have h3 : '/' ∉ s := fun hm => absurd (h _ hm) (by decide)
  have hm : golang.reHan.Match s = false := by
    unfold golang.reHan.Match
    rw [List.any_eq_false]
    intro c hc
    rw [golang.reHan.class_of_ident (h c hc)]
    simp
  unfold golang.EnumReplace
  simp only [strings.Replace_of_not_mem h1, strings.Replace_of_not_mem h2,
    strings.Replace_of_not_mem h3, hm, Bool.false_eq_true, if_false,
    golang.IdentPattern.ReplaceAllString]
  exact List.filter_eq_self.mpr h

theorem strings.mem_of_mem_Split {sep : Char} :
    ∀ (s : GoString) (piece : GoString), piece ∈ strings.Split s sep →
      ∀ c ∈ piece, c ∈ s ∧ c ≠ sep := by
  intro s
  induction s with
  | nil =>
    intro piece hp c hc
    simp only [strings.Split, List.mem_singleton] at hp
    subst hp
    cases hc
  | cons a r ih =>
    intro piece hp c hc
    unfold strings.Split at hp
    by_cases ha : a = sep
    · rw [if_pos ha] at hp
      rcases List.mem_cons.mp hp with e | hp
      · subst e; cases hc
      · exact ⟨List.mem_cons_of_mem _ (ih piece hp c hc).1, (ih piece hp c hc).2⟩
    · rw [if_neg ha] at hp
      cases hsp : strings.Split r sep with
      | nil =>
        rw [hsp] at hp
        simp only [List.mem_singleton] at hp
        subst hp
        simp only [List.mem_singleton] at hc
        subst hc
        exact ⟨by simp, ha⟩
      | cons p ps =>
        rw [hsp] at hp ih
        simp only at hp
        rcases List.mem_cons.mp hp with e | hp
        · subst e
          rcases List.mem_cons.mp hc with e | hc
          · subst e; exact ⟨by simp, ha⟩
          · exact ⟨List.mem_cons_of_mem _ (ih p (by simp) c hc).1, (ih p (by simp) c hc).2⟩
        · exact ⟨List.mem_cons_of_mem _ (ih piece (List.mem_cons_of_mem _ hp) c hc).1,
            (ih piece (List.mem_cons_of_mem _ hp) c hc).2⟩

theorem golang.isAlnum_ToTitle (toTitle : Char → Char) (r : Char)
    (h : golang.isAlnum r = true) : golang.isAlnum (unicode.ToTitle toTitle r) = true := by
  unfold unicode.ToTitle
  have hr : r.toNat ≤ 0x7F := by
    simp only [golang.isAlnum, Bool.or_eq_true, Bool.and_eq_true, decide_eq_true_eq] at h
    omega
  rw [if_pos hr]
  by_cases hl : (decide (0x61 ≤ r.toNat) && decide (r.toNat ≤ 0x7A)) = true
  · rw [if_pos hl]
    simp only [Bool.and_eq_true, decide_eq_true_eq] at hl
    obtain ⟨l1, l2⟩ := hl
    generalize r.toNat = n at l1 l2
    interval_cases n <;> decide
  · rw [if_neg hl]
    exact h

theorem strings.mem_Title_loop (T : unicode.Tables) (toTitle : Char → Char) :
    ∀ (part : GoString) (prev c : Char), c ∈ strings.Title.loop T toTitle prev part →
      ∃ r ∈ part, c = r ∨ c = unicode.ToTitle toTitle r := by
  intro part
  induction part with
  | nil => intro prev c h; cases h
  | cons r rs ih =>
    intro prev c h
    unfold strings.Title.loop at h
    rcases List.mem_cons.mp h with e | h
    · refine ⟨r, by simp, ?_⟩
      by_cases hs : strings.isSeparator T prev = true
      · rw [if_pos hs] at e; exact Or.inr e
      · rw [if_neg hs] at e; exact Or.inl e
    · obtain ⟨r', hr', hc⟩ := ih r c h
      exact ⟨r', List.mem_cons_of_mem _ hr', hc⟩

theorem golang.mem_foldl_append {α : Type} (f : α → GoString) (P : Char → Prop) :
    ∀ (parts : List α) (acc : GoString), (∀ c ∈ acc, P c) →
      (∀ part ∈ parts, ∀ c ∈ f part, P c) →
      ∀ c ∈ parts.foldl (fun name part => name ++ f part) acc, P c := by
  intro parts
  induction parts with
  | nil => intro acc h _ c hc; exact h c hc
  | cons p ps ih =>
    intro acc h hp c hc
    rw [List.foldl_cons] at hc
    refine ih (acc ++ f p) ?_ (fun q hq => hp q (List.mem_cons_of_mem _ hq)) c hc
    intro d hd
    rcases List.mem_append.mp hd with hd | hd
    · exact h d hd
    · exact hp p (by simp) d hd

/-- C26: for every enum value, every character of `EnumReplace(value)` is
an ASCII letter, a digit or an underscore, and every character of
`EnumValueName(value)` is an ASCII letter or a digit, whatever
`pinyin.LazyConvert` returns; and `EnumReplace` is idempotent. -/
theorem golang.EnumReplace_identifier (pinyin_LazyConvert : GoString → List GoString)
    (T : unicode.Tables) (toTitle : Char → Char) (value : GoString) :
    (∀ c ∈ golang.EnumReplace pinyin_LazyConvert value, golang.isAlnum c = true ∨ c = '_') ∧
    (∀ c ∈ golang.EnumValueName T toTitle value, golang.isAlnum c = true) ∧
    golang.EnumReplace pinyin_LazyConvert (golang.EnumReplace pinyin_LazyConvert value)
      = golang.EnumReplace pinyin_LazyConvert value := by
  have hid : ∀ c ∈ golang.EnumReplace pinyin_LazyConvert value,
      golang.IdentPattern.class c = true := by
    intro c hc
    unfold golang.EnumReplace golang.IdentPattern.ReplaceAllString at hc
    exact (List.mem_filter.mp hc).2
  refine ⟨fun c hc => (golang.IdentPattern.class_iff c).mp (hid c hc), ?_,
    golang.EnumReplace_of_ident pinyin_LazyConvert _ hid⟩
  unfold golang.EnumValueName
  apply golang.mem_foldl_append (strings.Title T toTitle) (fun c => golang.isAlnum c = true)
  · intro c hc; cases hc
  · intro part hpart c hc
    obtain ⟨r, hr, hcr⟩ := strings.mem_Title_loop T toTitle part ' ' c hc
    obtain ⟨hmem, hne⟩ := strings.mem_of_mem_Split _ part hpart r hr
    have hcl : golang.IdentPattern.class r = true := by
      unfold golang.IdentPattern.ReplaceAllString at hmem
      exact (List.mem_filter.mp hmem).2
    have hal : golang.isAlnum r = true := by
      rcases (golang.IdentPattern.class_iff r).mp hcl with h | h
      · exact h
      · exact absurd h hne
    rcases hcr with e | e
    · rw [e]; exact hal
    · rw [e]; exact golang.isAlnum_ToTitle toTitle r hal

theorem golang.EnumReplace.filter_Replace (value : GoString) :
    golang.IdentPattern.ReplaceAllString
        (strings.Replace (strings.Replace (strings.Replace value '-' '_') ':' '_') '/' '_')
      = (value.map golang.EnumReplace.render).flatten := by
  unfold golang.IdentPattern.ReplaceAllString strings.Replace
  induction value with
  | nil => rfl
  | cons c cs ih =>
    simp only [List.map_cons, List.flatten_cons]
    rw [← ih]
    by_cases h1 : c = '-'
    · subst h1; rfl
    · by_cases h2 : c = ':'
      · subst h2; rfl
      · by_cases h3 : c = '/'
        · subst h3; rfl
        · simp only [h1, h2, h3, if_false, golang.EnumReplace.render, or_self]
          by_cases hc : golang.IdentPattern.class c = true
          · simp [List.filter_cons, hc]
          · simp [List.filter_cons, hc]

theorem golang.EnumReplace.render_sublist (value : GoString) :
    List.Sublist (value.filter golang.IdentPattern.class)
      (value.map golang.EnumReplace.render).flatten := by
  induction value with
  | nil => exact List.Sublist.slnil
  | cons c cs ih =>
    simp only [List.map_cons, List.flatten_cons]
    by_cases hs : c = '-' ∨ c = ':' ∨ c = '/'
    · have hc : golang.IdentPattern.class c = false := by
        rcases hs with h | h | h <;> subst h <;> decide
      simp only [golang.EnumReplace.render, hs, if_true, List.filter_cons, hc,
        Bool.false_eq_true, if_false, List.singleton_append]
      exact List.Sublist.cons _ ih
    · by_cases hc : golang.IdentPattern.class c = true
      · simp only [golang.EnumReplace.render, hs, if_false, hc, if_true, List.filter_cons,
          List.singleton_append]
        exact List.Sublist.cons₂ _ ih
      · simp only [golang.EnumReplace.render, hs, if_false, hc, Bool.false_eq_true,
          List.filter_cons, List.nil_append]
        exact ih

theorem golang.EnumReplace.render_alnum (value : GoString) :
    (value.map golang.EnumReplace.render).flatten.filter golang.isAlnum
      = value.filter golang.isAlnum := by
  induction value with
  | nil => rfl
  | cons c cs ih =>
    simp only [List.map_cons, List.flatten_cons, List.filter_append, ih]
    by_cases hs : c = '-' ∨ c = ':' ∨ c = '/'
    · have hc : golang.isAlnum c = false := by
        rcases hs with h | h | h <;> subst h <;> decide
      have hu : golang.isAlnum '_' = false := by decide
      simp [golang.EnumReplace.render, hs, List.filter_cons, hc, hu]
    · by_cases hc : golang.IdentPattern.class c = true
      · simp only [golang.EnumReplace.render, hs, if_false, hc, if_true, List.filter_cons]
        by_cases ha : golang.isAlnum c = true
        · simp [ha]
        · simp [ha]
      · have ha : golang.isAlnum c = false := by
          by_contra hne
          exact hc ((golang.IdentPattern.class_iff c).mpr (Or.inl (by simpa using hne)))
        simp [golang.EnumReplace.render, hs, hc, List.filter_cons, ha]

theorem golang.EnumReplace_of_no_han (py : GoString → List GoString) (value : GoString)
    (h : golang.reHan.Match value = false) :
    golang.EnumReplace py value = (value.map golang.EnumReplace.render).flatten := by
  unfold golang.EnumReplace
  simp only [h, Bool.false_eq_true, if_false]
  exact golang.EnumReplace.filter_Replace value

/-- C27, amended: for every enum value without Han characters,
`EnumReplace(value)` is the value with every `-`, `:` and `/` rendered as
`_`, the ASCII letters, digits and underscores kept and every other character
dropped; so every ASCII letter, digit and underscore of the value appears in
it, in the original order, and two such values that differ in their ASCII
letters and digits never get the same result. -/
theorem golang.EnumReplace_han_free (pinyin_LazyConvert : GoString → List GoString)
    (value : GoString) (h : golang.reHan.Match value = false) :
    golang.EnumReplace pinyin_LazyConvert value
      = (value.map golang.EnumReplace.render).flatten ∧
    List.Sublist (value.filter golang.IdentPattern.class)
      (golang.EnumReplace pinyin_LazyConvert value) ∧
    ∀ other : GoString, golang.reHan.Match other = false →
      value.filter golang.isAlnum ≠ other.filter golang.isAlnum →
      golang.EnumReplace pinyin_LazyConvert value
        ≠ golang.EnumReplace pinyin_LazyConvert other := by
  have e := golang.EnumReplace_of_no_han pinyin_LazyConvert value h
  refine ⟨e, ?_, ?_⟩
  · rw [e]; exact golang.EnumReplace.render_sublist value
  · intro other ho hne heq
    rw [e, golang.EnumReplace_of_no_han pinyin_LazyConvert other ho] at heq
    apply hne
    rw [← golang.EnumReplace.render_alnum value, ← golang.EnumReplace.render_alnum other, heq]

/-- C27, amended, on the value `in-progress/2`: the result is
`in_progress_2`, and it differs from the result for `in-progress/3`. -/
theorem golang.EnumReplace_han_free_witness :
    golang.EnumReplace golang.demoLazyConvert "in-progress/2".toList = "in_progress_2".toList ∧
    golang.EnumReplace golang.demoLazyConvert "in-progress/2".toList
      ≠ golang.EnumReplace golang.demoLazyConvert "in-progress/3".toList :=
  ⟨(golang.EnumReplace_han_free golang.demoLazyConvert "in-progress/2".toList
      (by decide)).1.trans (by decide),
   (golang.EnumReplace_han_free golang.demoLazyConvert "in-progress/2".toList
      (by decide)).2.2 "in-progress/3".toList (by decide) (by decide)⟩

/-- C27 fails on the code.  The values `a-b` and `a_b` differ in their
ASCII identifier characters (`ab` and `a_b`) and get the same result, `a_b`.
And on the value `a-b`, U+4E2D, `c`, which has a Han character,
`EnumReplace` returns `abzhong` when the transliteration of U+4E2D is
`zhong`: the `-` is not rendered as `_` and the `c` after the Han character
does not appear. -/
theorem golang.EnumReplace_counterexample :
    golang.EnumReplace golang.demoLazyConvert "a-b".toList
      = golang.EnumReplace golang.demoLazyConvert "a_b".toList ∧
    "a-b".toList.filter golang.IdentPattern.class
      ≠ "a_b".toList.filter golang.IdentPattern.class ∧
    golang.EnumReplace golang.demoLazyConvert "a-b中c".toList = "abzhong".toList ∧
    'c' ∉ golang.EnumReplace golang.demoLazyConvert "a-b中c".toList ∧
    '_' ∉ golang.EnumReplace golang.demoLazyConvert "a-b中c".toList := by
  decide

end Sqlc
